import Mathlib

/-
Verification of the `py_md_doc` documentation generator against its
natural-language specification.

The development shallowly embeds the Python sources (`parameter.py`,
`class_inheritance.py`, `py_md_doc.py`) in Lean.  Text is represented as
`List Char` (named `Str`); every Python string operation and every regular
expression that the sources use is given an executable Lean definition with
the exact semantics of the Python construct on the inputs the program deals
with (most of the regular expressions are simple enough that their
backtracking behaviour can be reproduced by direct scans, documented at
each definition; the two patterns of `parameter.py`, which embed the
parameter name in the pattern source, additionally get a small operational
regex engine with `re.compile` and backtracking-`re.search` semantics for
the reachable subset).  Fallible Python code (calls that can raise
`AttributeError` / `IndexError` / `KeyError` / `re.error`) is modelled with
`Option`: `none` is an uncaught exception.  `print` calls are modelled by
collecting the printed strings in a list.
-/

set_option maxRecDepth 20000

namespace PyMd

/-- Text is a list of characters; Python `str` values are embedded this way
so that list induction is available for proofs. -/
abbrev Str := List Char

/-- Python `s.startswith(p)` (first argument is the pattern). -/
def hasPre : Str → Str → Bool
  | [], _ => true
  | _ :: _, [] => false
  | p :: ps, c :: cs => if p = c then hasPre ps cs else false

/-- Python `p in s`: `p` occurs as a contiguous substring of `s`. -/
def subIn (pat : Str) : Str → Bool
  | [] => hasPre pat []
  | c :: t => hasPre pat (c :: t) || subIn pat t

/-- Index of the first occurrence of `pat` in the scanned string, if any. -/
def findIdxSub (pat : Str) : Str → Option Nat
  | [] => if hasPre pat [] then some 0 else none
  | c :: t => if hasPre pat (c :: t) then some 0 else (findIdxSub pat t).map (· + 1)

/-- Worker for `pyReplace`: replaces every leftmost non-overlapping
occurrence of `old` (assumed nonempty) by `new`; `fuel` bounds recursion
and is instantiated with the length of the string. -/
def repAllFuel (old new : Str) : Nat → Str → Str
  | 0, s => s
  | _ + 1, [] => []
  | fuel + 1, c :: t =>
    if hasPre old (c :: t) then new ++ repAllFuel old new fuel ((c :: t).drop old.length)
    else c :: repAllFuel old new fuel t

/-- Python `s.replace("", new)` inserts `new` at every character boundary. -/
def interNew (new : Str) : Str → Str
  | [] => new
  | c :: t => new ++ c :: interNew new t

/-- Python `s.replace(old, new)` (all occurrences, leftmost, non-overlapping). -/
def pyReplace (s old new : Str) : Str :=
  if old.isEmpty then interNew new s else repAllFuel old new s.length s

/-- Python `s.replace(old, new, 1)`: only the first occurrence. -/
def pyReplaceFirst (old new : Str) : Str → Str
  | [] => if hasPre old [] then new else []
  | c :: t =>
    if hasPre old (c :: t) then new ++ (c :: t).drop old.length
    else c :: pyReplaceFirst old new t

/-- Worker for `pySplit` (separator assumed nonempty, fuel = length). -/
def splitFuel (sep : Str) : Nat → Str → List Str
  | 0, s => [s]
  | fuel + 1, s =>
    match findIdxSub sep s with
    | none => [s]
    | some i => s.take i :: splitFuel sep fuel (s.drop (i + sep.length))

/-- Python `s.split(sep)` for a nonempty separator. -/
def pySplit (s sep : Str) : List Str :=
  if sep.isEmpty then [s] else splitFuel sep s.length s

/-- Python `sep.join(xs)`. -/
def joinSep (sep : Str) : List Str → Str
  | [] => []
  | [x] => x
  | x :: y :: t => x ++ sep ++ joinSep sep (y :: t)

/-- The characters Python `str.strip()` removes (ASCII whitespace). -/
def pyIsSpace (c : Char) : Bool :=
  c = ' ' || c = '\t' || c = '\n' || c = '\r' || c = '\x0b' || c = '\x0c'

/-- Drop leading whitespace. -/
def dropLeadWs : Str → Str
  | [] => []
  | c :: t => if pyIsSpace c then dropLeadWs t else c :: t

/-- Python `s.strip()`. -/
def pyStrip (s : Str) : Str :=
  dropLeadWs ((dropLeadWs s.reverse).reverse)

/-- Worker for `splitWs` accumulating the current word in reverse. -/
def splitWsAux : Str → Str → List Str
  | [], acc => if acc.isEmpty then [] else [acc.reverse]
  | c :: t, acc =>
    if pyIsSpace c then
      (if acc.isEmpty then splitWsAux t [] else acc.reverse :: splitWsAux t [])
    else splitWsAux t (c :: acc)

/-- Python `s.split()` with no argument: split on whitespace runs,
discarding empty pieces. -/
def splitWs (s : Str) : List Str := splitWsAux s []

/-- Strict lexicographic order on `Str` by code point, as Python compares
strings. -/
def strLt : Str → Str → Bool
  | [], [] => false
  | [], _ :: _ => true
  | _ :: _, [] => false
  | a :: as, b :: bs => if a = b then strLt as bs else decide (a < b)

/-- Reflexive lexicographic order on `Str`. -/
def strLe (a b : Str) : Bool := !strLt b a

/-- Python `list(sorted(set(xs)))` for a list of strings: duplicates
removed, then sorted ascending. -/
def pySortedSet (xs : List Str) : List Str :=
  List.insertionSort (fun a b => strLe a b = true) xs.dedup

/-- Insertion-ordered string-keyed dictionary, as Python `dict` with
string keys and values: assignment to an existing key keeps its position,
assignment to a new key appends it. -/
abbrev Entries := List (Str × Str)

/-- Python `k in d`. -/
def dHas (d : Entries) (k : Str) : Bool := d.any (fun e => decide (e.1 = k))

/-- Python `d[k] = v`. -/
def dSet : Entries → Str → Str → Entries
  | [], k, v => [(k, v)]
  | e :: t, k, v => if e.1 = k then (k, v) :: t else e :: dSet t k v

/-- Python `d[k]`, as an `Option`. -/
def dGet? : Entries → Str → Option Str
  | [], _ => none
  | e :: t, k => if e.1 = k then some e.2 else dGet? t k

/-- Python `list(d.keys())`. -/
def dKeys (d : Entries) : List Str := d.map Prod.fst

/-! ## `parameter.py`: the `Parameter` class -/

/-- Delimiter class of the regex `name:(.*?)[:|=|\)]` in
`Parameter.__init__` (the character class contains `:`, `|`, `=`, `)`). -/
def typeDelim (c : Char) : Bool := c = ':' || c = '|' || c = '=' || c = ')'

/-- Delimiter class of the regex `name[ ]{0,1}=(.*?)[,|\)]` in
`Parameter.__init__` (the character class contains `,`, `|`, `)`). -/
def defaultDelim (c : Char) : Bool := c = ',' || c = '|' || c = ')'

/-- Lazy group `(.*?)` followed by a one-character delimiter class: the
characters before the first delimiter, failing if a newline or the end of
the string is reached first (`.` does not match a newline). -/
def lazyUntil (delim : Char → Bool) : Str → Option Str
  | [] => none
  | c :: t =>
    if delim c then some []
    else if c = '\n' then none
    else (lazyUntil delim t).map (c :: ·)

/-- `re.search` for a pattern `lit(.*?)[delims]`: try every start position
left to right; at a position where the literal matches, the lazy group
runs to the first delimiter (the engine moves to the next start position
when no delimiter is reachable on the same line). -/
def searchLitLazyDelim (lit : Str) (delim : Char → Bool) : Str → Option Str
  | [] => none
  | c :: t =>
    match (if hasPre lit (c :: t) then lazyUntil delim ((c :: t).drop lit.length) else none) with
    | some g => some g
    | none => searchLitLazyDelim lit delim t

/-- `re.search(name + r":(.*?)[:|=|\)]", def_str)`, returning group 1. -/
def searchParamType (name def_str : Str) : Option Str :=
  searchLitLazyDelim (name ++ [':']) typeDelim def_str

/-- Tail of the default-value pattern after the parameter name:
`[ ]{0,1}=` (optional single space tried greedily, then the literal `=`)
followed by the lazy group up to the first delimiter. -/
def defaultTail : Str → Option Str
  | ' ' :: '=' :: r => lazyUntil defaultDelim r
  | '=' :: r => lazyUntil defaultDelim r
  | _ => none

/-- `re.search(name + r"[ ]{0,1}=(.*?)[,|\)]", s)`, returning group 1.
At each start position the name literal must match, then `defaultTail`. -/
def searchDefault (name : Str) : Str → Option Str
  | [] => none
  | c :: t =>
    match
      (if hasPre name (c :: t) then defaultTail ((c :: t).drop name.length) else none) with
    | some g => some g
    | none => searchDefault name t

/-- The `Parameter` object of `parameter.py`. -/
structure Parameter where
  name : Str
  description : Str
  param_type : Str
  default_value : Str
deriving Repr, DecidableEq

/-- The `self.param_type` computation of `Parameter.__init__`: group 1 of
the type regex, truncated through the first `]` when one occurs in it
(`split("]")[0] + "]"`) and otherwise before the first comma
(`split(",")[0]`); empty when the regex does not match. -/
def paramTypeOf (name def_str : Str) : Str :=
  match searchParamType name def_str with
  | none => []
  | some g =>
    if g.contains ']' then g.takeWhile (fun c => c ≠ ']') ++ [']']
    else g.takeWhile (fun c => c ≠ ',')

/-- The `no_type` string of `Parameter.__init__`:
`def_str.replace(":", "").replace(self.param_type, "")`. -/
def noTypeOf (name def_str : Str) : Str :=
  pyReplace (pyReplace def_str [':'] []) (paramTypeOf name def_str) []

/-- The `self.default_value` computation of `Parameter.__init__`: group 1
of the default regex searched in `no_type`, stripped; empty when the regex
does not match. -/
def defaultValueOf (name def_str : Str) : Str :=
  match searchDefault name (noTypeOf name def_str) with
  | none => []
  | some g => pyStrip g

/-- `Parameter.__init__(name, description, def_str)` from `parameter.py`,
specialised to parameter names free of regex metacharacters (the only names
the documentation pipeline constructs): for such names the interpolated
patterns match the name literally, which is what `searchParamType` and
`searchDefault` implement.  The general constructor, which models the
name's interpolation into the compiled pattern — including `re.error` for
invalid syntax and metacharacter matching — is `Parameter.ofDefStr?`
below, built on a small operational regex engine. -/
def Parameter.ofDefStr (name description def_str : Str) : Parameter :=
  { name := name, description := description,
    param_type := paramTypeOf name def_str,
    default_value := defaultValueOf name def_str }

/-! ### An operational regex engine for the interpolated patterns

`parameter.py` builds its two patterns by string concatenation,
`name + r":(.*?)[:|=|\)]"` and `name + r"[ ]{0,1}=(.*?)[,|\)]"`, so the
parameter name is compiled as part of the regular expression.  The engine
below models `re.compile` (`reParse`, returning `none` for `re.error`) and
backtracking `re.search` (`reSearch`, leftmost start position, then
preference order: lazy repeats shortest-first, greedy repeats
longest-first, alternation left-first, a repeated empty match is taken
once and then the repetition stops) for the regex subset reachable through
that concatenation: literals, escapes of punctuation and of
`d w s n t r f v a`, `.` (not matching a newline), character classes with
ranges and negation, capturing groups, alternation, and greedy or lazy
`* + ? \x7bm,n\x7d` quantifiers.  Anchors, `(?...)` extensions,
possessive quantifiers, backreferences and class escapes beyond `\d \w \s`
are outside the subset and map to `none`.  Characters are ASCII, as in
every input the program deals with. -/

/-- One item of a character class: a literal character, a range, or one of
the shorthand classes `\d`, `\w`, `\s`. -/
inductive CI where
  | ch (c : Char)
  | rng (a b : Char)
  | dcls
  | wcls
  | scls
deriving Repr, DecidableEq

/-- Abstract syntax of the supported regex subset. -/
inductive RE where
  | eps
  | lit (c : Char)
  | anyc
  | cls (neg : Bool) (items : List CI)
  | seq (a b : RE)
  | alt (a b : RE)
  | rep (a : RE) (mn : Nat) (mx : Option Nat) (lz : Bool)
  | grp (idx : Nat) (a : RE)
deriving Repr, DecidableEq

/-- Class item for an escape inside a character class: shorthand classes
stay classes, escaped non-alphanumeric characters are literals, any other
escaped letter or digit is a `re.error`. -/
def ciOfEsc (c : Char) : Option CI :=
  if c = 'd' then some CI.dcls
  else if c = 'w' then some CI.wcls
  else if c = 's' then some CI.scls
  else if c.isAlphanum then none
  else some (CI.ch c)

/-- Items of a character class up to the closing `]`; `none` models the
`re.error` of an unterminated class, a bad escape or a reversed range. -/
def scanClsItems : Str → Option (List CI × Str)
  | [] => none
  | ']' :: r => some ([], r)
  | '\\' :: [] => none
  | '\\' :: e :: r =>
    match ciOfEsc e with
    | none => none
    | some i => (scanClsItems r).map (fun p => (i :: p.1, p.2))
  | a :: '-' :: ']' :: r => some ([CI.ch a, CI.ch '-'], r)
  | a :: '-' :: b :: r =>
    if a ≤ b then (scanClsItems r).map (fun p => (CI.rng a b :: p.1, p.2)) else none
  | a :: r => (scanClsItems r).map (fun p => (CI.ch a :: p.1, p.2))

/-- A character class after its opening `[`: optional negation by a
leading `^`, and a `]` in first item position is a literal. -/
def scanCls : Str → Option (Bool × List CI × Str)
  | '^' :: ']' :: r => (scanClsItems r).map (fun p => (true, CI.ch ']' :: p.1, p.2))
  | '^' :: r => (scanClsItems r).map (fun p => (true, p.1, p.2))
  | ']' :: r => (scanClsItems r).map (fun p => (false, CI.ch ']' :: p.1, p.2))
  | r => (scanClsItems r).map (fun p => (false, p.1, p.2))

/-- Decimal value of a digit string. -/
def natOfDigits (d : Str) : Nat := d.foldl (fun n c => n * 10 + (c.toNat - 48)) 0

/-- A brace quantifier body after its opening brace: `m`, `m,`, `,n` or
`m,n` followed by the closing brace; `none` means the brace is not a
quantifier and stays a literal character (as in Python). -/
def scanBrace (s : Str) : Option (Nat × Option Nat × Str) :=
  match s.dropWhile (fun c => c.isDigit) with
  | '}' :: r =>
    if (s.takeWhile (fun c => c.isDigit)).isEmpty then none
    else
      some (natOfDigits (s.takeWhile (fun c => c.isDigit)),
        some (natOfDigits (s.takeWhile (fun c => c.isDigit))), r)
  | ',' :: r2 =>
    match r2.dropWhile (fun c => c.isDigit) with
    | '}' :: r =>
      some (natOfDigits (s.takeWhile (fun c => c.isDigit)),
        (if (r2.takeWhile (fun c => c.isDigit)).isEmpty then none
         else some (natOfDigits (r2.takeWhile (fun c => c.isDigit)))), r)
    | _ => none
  | _ => none

/-- Regex node for an escape outside a character class. -/
def escRE (c : Char) : Option RE :=
  if c = 'd' then some (RE.cls false [CI.dcls])
  else if c = 'w' then some (RE.cls false [CI.wcls])
  else if c = 's' then some (RE.cls false [CI.scls])
  else if c = 'n' then some (RE.lit '\n')
  else if c = 't' then some (RE.lit '\t')
  else if c = 'r' then some (RE.lit '\r')
  else if c = 'f' then some (RE.lit '\x0c')
  else if c = 'v' then some (RE.lit '\x0b')
  else if c = 'a' then some (RE.lit '\x07')
  else if c.isAlphanum then none
  else some (RE.lit c)

/-- Sequence of pieces as a regex (right-nested). -/
def mkSeq (l : List RE) : RE := l.foldr RE.seq RE.eps

/-- Alternativeness of a nonempty list of branches (right-nested). -/
def mkAlt : List RE → RE
  | [] => RE.eps
  | [x] => x
  | x :: y :: t => RE.alt x (mkAlt (y :: t))

/-- A parse level closed into a regex: the completed alternatives (stored
in reverse) and the current sequence (stored in reverse). -/
def closeLevel (alts seqR : List RE) : RE :=
  mkAlt (alts.reverse ++ [mkSeq seqR.reverse])

/-- An open group during parsing: the enclosing level's alternatives and
sequence, and the group's number. -/
abbrev PFrame := List RE × List RE × Nat

/-- One-pass parser of the supported regex subset, `none` on `re.error`:
`stk` is the stack of open groups, `alts`/`seqR` the current level (both
reversed), `gi` the next group number.  Quantifiers attach to the last
piece (an empty sequence or an already-quantified piece is `nothing to
repeat`/`multiple repeat`), `\x7b` scans as a quantifier body and
otherwise stays literal, and a trailing `?` makes a quantifier lazy.
The fuel is the pattern length plus one (one character per step). -/
def pstep : Nat → List PFrame → List RE → List RE → Nat → Str → Option RE
  | 0, _, _, _, _, _ => none
  | _ + 1, stk, alts, seqR, _, [] =>
    match stk with
    | [] => some (closeLevel alts seqR)
    | _ :: _ => none
  | fuel + 1, stk, alts, seqR, gi, c :: rest =>
    if c = '(' then
      match rest with
      | '?' :: _ => none
      | _ => pstep fuel ((alts, seqR, gi) :: stk) [] [] (gi + 1) rest
    else if c = ')' then
      match stk with
      | [] => none
      | (alts0, seqR0, gidx) :: stk' =>
        pstep fuel stk' alts0 (RE.grp gidx (closeLevel alts seqR) :: seqR0) gi rest
    else if c = '|' then
      pstep fuel stk (mkSeq seqR.reverse :: alts) [] gi rest
    else if c = '[' then
      match scanCls rest with
      | none => none
      | some (neg, items, rest') => pstep fuel stk alts (RE.cls neg items :: seqR) gi rest'
    else if c = '.' then
      pstep fuel stk alts (RE.anyc :: seqR) gi rest
    else if c = '*' then
      match seqR with
      | [] => none
      | p :: ps =>
        match p with
        | RE.rep _ _ _ _ => none
        | _ =>
          match rest with
          | '?' :: rest' => pstep fuel stk alts (RE.rep p 0 none true :: ps) gi rest'
          | _ => pstep fuel stk alts (RE.rep p 0 none false :: ps) gi rest
    else if c = '+' then
      match seqR with
      | [] => none
      | p :: ps =>
        match p with
        | RE.rep _ _ _ _ => none
        | _ =>
          match rest with
          | '?' :: rest' => pstep fuel stk alts (RE.rep p 1 none true :: ps) gi rest'
          | _ => pstep fuel stk alts (RE.rep p 1 none false :: ps) gi rest
    else if c = '?' then
      match seqR with
      | [] => none
      | p :: ps =>
        match p with
        | RE.rep _ _ _ _ => none
        | _ =>
          match rest with
          | '?' :: rest' => pstep fuel stk alts (RE.rep p 0 (some 1) true :: ps) gi rest'
          | _ => pstep fuel stk alts (RE.rep p 0 (some 1) false :: ps) gi rest
    else if c = '\x7b' then
      match scanBrace rest with
      | none => pstep fuel stk alts (RE.lit '\x7b' :: seqR) gi rest
      | some (mn, mx, rest') =>
        match seqR with
        | [] => none
        | p :: ps =>
          match p with
          | RE.rep _ _ _ _ => none
          | _ =>
            if (match mx with | some m => decide (mn ≤ m) | none => true) then
              match rest' with
              | '?' :: rest'' => pstep fuel stk alts (RE.rep p mn mx true :: ps) gi rest''
              | _ => pstep fuel stk alts (RE.rep p mn mx false :: ps) gi rest'
            else none
    else if c = '\\' then
      match rest with
      | [] => none
      | e :: rest' =>
        match escRE e with
        | none => none
        | some a => pstep fuel stk alts (a :: seqR) gi rest'
    else if c = '^' then none
    else if c = '$' then none
    else pstep fuel stk alts (RE.lit c :: seqR) gi rest

/-- `re.compile(p)`, `none` on `re.error` (or on a construct outside the
modelled subset). -/
def reParse (p : Str) : Option RE := pstep (p.length + 1) [] [] [] 1 p

/-- Does a character hit a class item. -/
def ciHit (c : Char) : CI → Bool
  | CI.ch d => c = d
  | CI.rng a b => a ≤ c && c ≤ b
  | CI.dcls => c.isDigit
  | CI.wcls => c.isAlphanum || c = '_'
  | CI.scls => pyIsSpace c

/-- Does a character hit a (possibly negated) character class. -/
def clsHit (neg : Bool) (items : List CI) (c : Char) : Bool :=
  if neg then !(items.any (ciHit c)) else items.any (ciHit c)

/-- Captured groups: group number to captured text. -/
abbrev Caps := List (Nat × Str)

/-- Record a group's capture (overwriting an earlier capture). -/
def capSet : Caps → Nat → Str → Caps
  | [], i, v => [(i, v)]
  | e :: t, i, v => if e.1 = i then (i, v) :: t else e :: capSet t i v

/-- `m.group(i)`: `none` when the group did not participate. -/
def capGet : Caps → Nat → Option Str
  | [], _ => none
  | e :: t, i => if e.1 = i then some e.2 else capGet t i

/-- Concatenation of the images of a list (used for backtracking: the
order of the pieces is the engine's preference order). -/
def catMap (f : α → List β) : List α → List β
  | [] => []
  | x :: t => f x ++ catMap f t

/-- All ways the regex can match a prefix of the string, each as the
remaining suffix and the captures, in backtracking preference order (the
head is the match Python's engine reports).  A repeated empty match is
taken once and then the repetition stops, as in Python. -/
def reMs : Nat → RE → Str → Caps → List (Str × Caps)
  | 0, _, _, _ => []
  | fuel + 1, re, s, caps =>
    match re with
    | RE.eps => [(s, caps)]
    | RE.lit c =>
      match s with
      | [] => []
      | c' :: s' => if c' = c then [(s', caps)] else []
    | RE.anyc =>
      match s with
      | [] => []
      | c' :: s' => if c' = '\n' then [] else [(s', caps)]
    | RE.cls neg items =>
      match s with
      | [] => []
      | c' :: s' => if clsHit neg items c' then [(s', caps)] else []
    | RE.seq a b => catMap (fun p => reMs fuel b p.1 p.2) (reMs fuel a s caps)
    | RE.alt a b => reMs fuel a s caps ++ reMs fuel b s caps
    | RE.grp i a =>
      (reMs fuel a s caps).map (fun p => (p.1, capSet p.2 i (s.take (s.length - p.1.length))))
    | RE.rep a mn mx lz =>
      match mn with
      | mn' + 1 =>
        catMap (fun p => reMs fuel (RE.rep a mn' (mx.map (fun m => m - 1)) lz) p.1 p.2)
          (reMs fuel a s caps)
      | 0 =>
        match mx with
        | some 0 => [(s, caps)]
        | _ =>
          if lz then
            (s, caps) ::
              catMap
                (fun p =>
                  if p.1.length = s.length then [(p.1, p.2)]
                  else reMs fuel (RE.rep a 0 (mx.map (fun m => m - 1)) lz) p.1 p.2)
                (reMs fuel a s caps)
          else
            (catMap
              (fun p =>
                if p.1.length = s.length then [(p.1, p.2)]
                else reMs fuel (RE.rep a 0 (mx.map (fun m => m - 1)) lz) p.1 p.2)
              (reMs fuel a s caps)) ++ [(s, caps)]

/-- Does the regex contain no capturing group. -/
def noGrpB : RE → Bool
  | RE.eps => true
  | RE.lit _ => true
  | RE.anyc => true
  | RE.cls _ _ => true
  | RE.seq a b => noGrpB a && noGrpB b
  | RE.alt a b => noGrpB a && noGrpB b
  | RE.grp _ _ => false
  | RE.rep a _ _ _ => noGrpB a

/-- Size bound used only to pick a sufficient fuel. -/
def reSize : RE → Nat
  | RE.eps => 1
  | RE.lit _ => 1
  | RE.anyc => 1
  | RE.cls _ _ => 1
  | RE.seq a b => reSize a + reSize b + 1
  | RE.alt a b => reSize a + reSize b + 1
  | RE.grp _ a => reSize a + 1
  | RE.rep a mn mx _ => reSize a + mn + (match mx with | some m => m | none => 0) + 1

/-- `re.search` scan: try each start position left to right and report the
first position where the pattern matches (the engine's preferred match
there). -/
def reSearchAux (fuel : Nat) (re : RE) : Str → Option Caps
  | [] => ((reMs fuel re [] []).head?).map Prod.snd
  | c :: s' =>
    match (reMs fuel re (c :: s') []).head? with
    | some p => some p.2
    | none => reSearchAux fuel re s'

/-- `re.search(re, s)`: the captures of the leftmost preferred match. -/
def reSearch (re : RE) (s : Str) : Option Caps :=
  reSearchAux ((reSize re + 2) * (s.length + 2)) re s

/-- The fixed tail of the type pattern: `:(.*?)[:|=|\)]`. -/
def pat1Tail : Str := ":(.*?)[:|=|\\)]".data

/-- The fixed tail of the default pattern: `[ ]\x7b0,1\x7d=(.*?)[,|\)]`. -/
def pat2Tail : Str := "[ ]\x7b0,1\x7d=(.*?)[,|\\)]".data

/-- The delimiter class of the type pattern as parsed. -/
def tailCls1 : RE := RE.cls false [CI.ch ':', CI.ch '|', CI.ch '=', CI.ch '|', CI.ch ')']

/-- The delimiter class of the default pattern as parsed. -/
def tailCls2 : RE := RE.cls false [CI.ch ',', CI.ch '|', CI.ch ')']

/-- The single-space class `[ ]` of the default pattern as parsed. -/
def spCls : RE := RE.cls false [CI.ch ' ']

/-- The capturing lazy group `(.*?)` as parsed, with its group number. -/
def grpLazy (i : Nat) : RE := RE.grp i (mkSeq [RE.rep RE.anyc 0 none true])

/-- The compiled type pattern for a metacharacter-free name. -/
def pat1RE (name : Str) : RE :=
  mkSeq (name.map RE.lit ++ [RE.lit ':', grpLazy 1, tailCls1])

/-- The compiled default pattern for a metacharacter-free name. -/
def pat2RE (name : Str) : RE :=
  mkSeq (name.map RE.lit ++ [RE.rep spCls 0 (some 1) false, RE.lit '=', grpLazy 1, tailCls2])

/-- Is every character of the name an ASCII letter, digit or underscore
(such a name never carries regex syntax). -/
def nameSafe (name : Str) : Bool := name.all (fun c => c.isAlphanum || c = '_')

/-- `Parameter.__init__(name, description, def_str)` from `parameter.py`
with the name interpolated into the compiled patterns, as the source does:
`none` models an uncaught exception — `re.error` from either compile,
`TypeError`/`IndexError` when the code indexes a group the match did not
set (`"]" in None`, `group(1)` of a groupless pattern), or
`AttributeError` from `None.strip()`. -/
def Parameter.ofDefStr? (name description def_str : Str) : Option Parameter :=
  match reParse (name ++ pat1Tail) with
  | none => none
  | some re1 =>
    match
      (match reSearch re1 def_str with
       | none => some ([] : Str)
       | some caps =>
         match capGet caps 1 with
         | none => none
         | some g =>
           some (if g.contains ']' then g.takeWhile (fun c => c ≠ ']') ++ [ ']' ]
             else g.takeWhile (fun c => c ≠ ','))) with
    | none => none
    | some param_type =>
      match reParse (name ++ pat2Tail) with
      | none => none
      | some re2 =>
        match reSearch re2 (pyReplace (pyReplace def_str [ ':' ] []) param_type []) with
        | none => some ⟨name, description, param_type, []⟩
        | some caps =>
          match capGet caps 1 with
          | none => none
          | some g => some ⟨name, description, param_type, pyStrip g⟩

/-! ## `class_inheritance.py`: regex matchers for `get_from_text`

The function works on already-rendered Markdown via seven regexes; each is
reproduced by a scan with the exact leftmost / lazy / greedy behaviour of
the Python pattern, documented per definition. -/

/-- Python `s.split("\n")`: the physical lines (a `^` of a MULTILINE regex
matches at position 0 and after each newline, i.e. at the start of each of
these lines). -/
def linesOf (s : Str) : List Str := pySplit s [ '\n' ]

/-- `re.search(r'^# (.*)', s, flags=re.MULTILINE)`, group 1: the rest of
the first line that starts with a hash and a space. -/
def searchHashHeader (s : Str) : Option Str :=
  ((linesOf s).find? (fun l => hasPre [ '#', ' ' ] l)).map (fun l => l.drop 2)

/-- Lazy multi-line group `((.|\n)*?)` up to the first occurrence of a
literal or, failing that, the end of the string: returns the consumed
characters and whether the literal was found. -/
def lazyUntilLit (pat : Str) : Str → Str × Bool
  | [] => ([], false)
  | c :: t =>
    if hasPre pat (c :: t) then ([], true)
    else
      let r := lazyUntilLit pat t
      (c :: r.1, r.2)

/-- Pattern piece `(.*)\n`: one full physical line and the text after its
newline; fails when no newline remains. -/
def takeLineNl : Str → Option (Str × Str)
  | [] => none
  | c :: t =>
    if c = '\n' then some ([], t)
    else (takeLineNl t).map (fun p => (c :: p.1, p.2))

/-- Generic `re.search` driver for a MULTILINE pattern anchored with `^`:
try the match at every line-start position, left to right; returns the
offset of the match and the try-function's result. -/
def scanLS (tryM : Str → Option α) : Bool → Str → Option (Nat × α)
  | atLS, [] =>
    if atLS then (tryM []).map (fun a => ((0 : Nat), a)) else none
  | atLS, c :: t =>
    match (if atLS then tryM (c :: t) else none) with
    | some a => some (0, a)
    | none => (scanLS tryM (c = '\n') t).map (fun p => (p.1 + 1, p.2))

/-- The groups and remainder of one match of
`r'^## Class Variables\n\n(.*)\n(.*)\n((.|\n)*?)(\*\*\*|\Z)'`. -/
structure CvBody where
  lineA : Str
  lineB : Str
  g3 : Str
  stars : Bool
  rest : Str
deriving Repr, DecidableEq

/-- A located match of the class-variables pattern: the text before the
match and the match body. -/
structure CvMatch where
  pre : Str
  body : CvBody
deriving Repr, DecidableEq

/-- Literal `"## Class Variables\n\n"`. -/
def cvHeader : Str := "## Class Variables\n\n".data

/-- Literal `"***"`. -/
def stars3 : Str := "***".data

/-- Try the class-variables pattern at one position: the header literal,
one full line, a second full line, then the lazy tail up to the first
`***` or the end of the string. -/
def tryCv (s : Str) : Option CvBody :=
  if hasPre cvHeader s then
    match takeLineNl (s.drop cvHeader.length) with
    | none => none
    | some (lineA, r1) =>
      match takeLineNl r1 with
      | none => none
      | some (lineB, r2) =>
        let p := lazyUntilLit stars3 r2
        some ⟨lineA, lineB, p.1, p.2, r2.drop (p.1.length + (if p.2 then 3 else 0))⟩
  else none

/-- `re.search` of the class-variables pattern (MULTILINE). -/
def searchClassVars (s : Str) : Option CvMatch :=
  (scanLS tryCv true s).map (fun p => ⟨s.take p.1, p.2⟩)

/-- Replacement-template expansion of `re.sub`: `\<digit>` is a group
reference, `\<letter>` (and a dangling backslash, and `\0`) is an error,
`\\` is a literal backslash, and a backslash before any other character is
kept verbatim together with that character. -/
def expandTemplate (groups : List Str) : Str → Option Str
  | [] => some []
  | '\\' :: c :: rest =>
    if c = '0' then none
    else if c.isDigit then
      match groups.get? (c.toNat - 49) with
      | none => none
      | some g => (expandTemplate groups rest).map (g ++ ·)
    else if c.isAlpha then none
    else if c = '\\' then (expandTemplate groups rest).map ('\\' :: ·)
    else (expandTemplate groups rest).map (fun e => '\\' :: c :: e)
  | ['\\'] => none
  | c :: rest => (expandTemplate groups rest).map (c :: ·)

/-- `re.sub` of the class-variables pattern: replace every match (scanning
resumes directly after each replaced region; the character before that
region's end is never a newline when the match ended at `***`, and when it
ended at the end of the string nothing remains). -/
def subAllCvE (repl : Str) : Nat → Bool → Str → Option Str
  | 0, _, s => some s
  | fuel + 1, atLS, s =>
    match scanLS tryCv atLS s with
    | none => some s
    | some (n, b) => do
      let e ← expandTemplate [b.lineA, b.lineB, b.g3] repl
      let tail ← subAllCvE repl fuel false b.rest
      pure (s.take n ++ e ++ tail)

/-- Literal `"## Fields"`. -/
def fieldsHeaderLit : Str := "## Fields".data

/-- Try `r'^## Fields((.|\n)*?)(\*\*\*|\Z)'` at one position, returning
group 1. -/
def tryFields (s : Str) : Option Str :=
  if hasPre fieldsHeaderLit s then
    some (lazyUntilLit stars3 (s.drop fieldsHeaderLit.length)).1
  else none

/-- `re.search` of the fields pattern (MULTILINE), group 1. -/
def searchFieldsG1 (s : Str) : Option Str :=
  (scanLS tryFields true s).map (·.2)

/-- `re.findall(r'^(- (.*?)$)', s, flags=re.MULTILINE)` keeping group 1:
every full line that starts with `- `. -/
def findallDashLines (s : Str) : List Str :=
  (linesOf s).filter (fun l => hasPre [ '-', ' ' ] l)

/-- The escaped constructor name literal `"\_\_init\_\_"` as it appears in
rendered documents. -/
def escInit : Str := "\\_\\_init\\_\\_".data

/-- The literal head of the `re_init` pattern,
`"## Functions\n\n#### \_\_init\_\_"`. -/
def initLit : Str := "## Functions\n\n#### \\_\\_init\\_\\_".data

/-- Lazy group `((.|\n)*?)` up to `(^#|\Z)`: consume characters until the
current position is a line start whose character is `#`, or the end; the
flag tracks whether the previous character was a newline. -/
def lazyUntilLineHash : Bool → Str → Str
  | _, [] => []
  | prevNL, c :: t =>
    if prevNL && c = '#' then []
    else c :: lazyUntilLineHash (c = '\n') t

/-- `re.search(re_init, s, flags=re.MULTILINE)`, group 1: the pattern head
is a plain literal (no `^` before it), so the leftmost occurrence of the
literal always yields the match; group 1 is the escaped constructor name
plus the lazy tail. -/
def searchInitBlock (s : Str) : Option Str :=
  (findIdxSub initLit s).map
    (fun i => escInit ++ lazyUntilLineHash false (s.drop (i + initLit.length)))

/-- Literal `"## Functions"`. -/
def fnHeaderLit : Str := "## Functions".data

/-- A located match of `r'^## Functions((.|\n)*?)(\*\*\*|\Z)'`. -/
structure FnSec where
  pre : Str
  g1 : Str
  stars : Bool
  rest : Str
deriving Repr, DecidableEq

/-- Try the functions-section pattern at one position. -/
def tryFnSec (s : Str) : Option (Str × Bool × Str) :=
  if hasPre fnHeaderLit s then
    let p := lazyUntilLit stars3 (s.drop fnHeaderLit.length)
    some (p.1, p.2, (s.drop fnHeaderLit.length).drop (p.1.length + (if p.2 then 3 else 0)))
  else none

/-- `re.search` of the functions-section pattern (MULTILINE). -/
def searchFnSec (s : Str) : Option FnSec :=
  (scanLS tryFnSec true s).map (fun q => ⟨s.take q.1, q.2.1, q.2.2.1, q.2.2.2⟩)

/-- `re.sub` of the functions-section pattern with a fixed replacement. -/
def subAllFnSecE (repl : Str) : Nat → Bool → Str → Option Str
  | 0, _, s => some s
  | fuel + 1, atLS, s =>
    match scanLS tryFnSec atLS s with
    | none => some s
    | some (n, q) => do
      let e ← expandTemplate [q.1] repl
      let tail ← subAllFnSecE repl fuel false q.2.2
      pure (s.take n ++ e ++ tail)

/-- Literal `"#### "`. -/
def h4sp : Str := "#### ".data

/-- Lazy block body `((.|\n)*?)(?=^#|\Z)`: consume until the position of a
line-start `#` (left unconsumed, as it is a lookahead) or the end; returns
the body, the remainder, and whether the remainder starts at a line
start. -/
def lazyBlockBody : Bool → Str → Str × Str × Bool
  | _, [] => ([], [], false)
  | prevNL, c :: t =>
    if prevNL && c = '#' then ([], c :: t, true)
    else
      let r := lazyBlockBody (c = '\n') t
      (c :: r.1, r.2.1, r.2.2)

/-- `re.findall(r'^#### (.*)((.|\n)*?)(?=^#|\Z)', s, flags=re.MULTILINE)`:
every block headed by a line starting `#### ` — group 1 is the rest of the
heading line, group 2 runs to the next line-start `#` (not consumed) or
the end; matches are non-overlapping, scanning left to right.  The fuel is
one more than the length of the scanned string. -/
def findFnBlocksFuel : Nat → Bool → Str → List (Str × Str)
  | 0, _, _ => []
  | fuel + 1, atLS, s =>
    if atLS && hasPre h4sp s then
      let r := s.drop 5
      let g1 := r.takeWhile (fun c => c ≠ '\n')
      let r2 := r.drop g1.length
      let q := lazyBlockBody false r2
      (g1, q.1) :: findFnBlocksFuel fuel q.2.2 q.2.1
    else
      match s with
      | [] => []
      | c :: t => findFnBlocksFuel fuel (c = '\n') t

/-- `re.findall` of the function-block pattern over a whole string
(position 0 is a line start). -/
def findFnBlocks (s : Str) : List (Str × Str) :=
  findFnBlocksFuel (s.length + 1) true s

/-! ## `class_inheritance.py`: `ClassInheritance.get_from_text` -/

/-- Literal `"## Class Variables"`. -/
def cvHeaderLit : Str := "## Class Variables".data

/-- The fixed four-column table head built at line 129 of
`class_inheritance.py`. -/
def cvTableHeader : Str :=
  "## Class Variables\n\n| Variable | Type | Description | Value |\n| --- | --- | --- | --- |\n".data

/-- The class-variable rows contributed by one document: group 3 of the
class-variables pattern, stripped, split on newlines (an empty stripped
group still contributes one empty row, exactly as Python
`"".split("\n") == [""]`); a document without the section contributes
nothing. -/
def extractCvRows (t : Str) : List Str :=
  match searchClassVars t with
  | none => []
  | some m => pySplit (pyStrip m.body.g3) [ '\n' ]

/-- The field bullet lines contributed by one document: the `- ` lines of
group 1 of the fields pattern, stripped; nothing without the section. -/
def extractFieldLines (t : Str) : List Str :=
  match searchFieldsG1 t with
  | none => []
  | some g1 => findallDashLines (pyStrip g1)

/-- One step of the parent-functions loop of `get_from_text` (lines
189-197): ignore a block whose key is already present (the membership test
short-circuits before the docstring test), fail like Python on an empty
stripped body (`[-1]` raises `IndexError`), ignore a block whose stripped
body ends in `*` (no docstring), otherwise record the stripped body. -/
def parentFnStep (d : Entries) (fb : Str × Str) : Option Entries :=
  if dHas d fb.1 then some d
  else
    match (pyStrip fb.2).getLast? with
    | none => none
    | some last => if last = '*' then some d else some (dSet d fb.1 (pyStrip fb.2))

/-- One step of the child-functions loop of `get_from_text` (lines
198-205): like the parent step but without the membership short-circuit —
a repeated or existing key is overwritten in place. -/
def childFnStep (d : Entries) (fb : Str × Str) : Option Entries :=
  match (pyStrip fb.2).getLast? with
  | none => none
  | some last => if last = '*' then some d else some (dSet d fb.1 (pyStrip fb.2))

/-- The function blocks of one document, as the source extracts them:
group 1 of the functions-section search, stripped, then the block
findall. -/
def fnBlocksOf (t : Str) : List (Str × Str) :=
  match searchFnSec t with
  | none => []
  | some sec => findFnBlocks (pyStrip sec.g1)

/-- The constructor entry of `get_from_text` (lines 166-184): the stub
text when the child document has an init block (the parents are not
consulted), the nearest parent's stripped group 1 when the child has none,
and the stub when nobody has one. -/
def initEntryOf (child_class_name : Str) (child_text : Str) (parent_texts : List Str) : Str :=
  match searchInitBlock child_text with
  | some _ => escInit ++ "\n\n**`".data ++ child_class_name ++ "()`**".data
  | none =>
    match (parent_texts.map searchInitBlock).findSome? id with
    | some g => pyStrip g
    | none => escInit ++ "\n\n**`".data ++ child_class_name ++ "()`**".data

/-- The merged functions dictionary of `get_from_text`: seeded with the
constructor entry, extended by the parents (nearest first) and then
overwritten by the child. -/
def mergedFns (child_class_name child_text : Str) (parent_texts : List Str) : Option Entries := do
  let fns0 : Entries := [(escInit, initEntryOf child_class_name child_text parent_texts)]
  let fns1 ← parent_texts.foldlM (fun d t => (fnBlocksOf t).foldlM parentFnStep d) fns0
  (fnBlocksOf child_text).foldlM childFnStep fns1

/-- `"\n\n".join(f"#### {k}\n\n{v}" for ...)` over the merged dictionary. -/
def functionTextOf (fns : Entries) : Str :=
  joinSep "\n\n".data (fns.map (fun e => h4sp ++ e.1 ++ "\n\n".data ++ e.2))

/-- Literal `"***\n\n## Fields"`. -/
def sbFields : Str := "***\n\n## Fields".data

/-- Literal `"***\n\n## Functions"`. -/
def sbFunctions : Str := "***\n\n## Functions".data

/-- The class-variables phase of `get_from_text` (lines 117-139): merge
the rows, sort the deduplicated set, and insert or substitute the
consolidated table. -/
def gftCvPhase (child_text : Str) (parent_texts : List Str) : Option Str :=
  let cvs := parent_texts.foldl (fun acc t => acc ++ extractCvRows t) [] ++
    extractCvRows child_text
  let class_variables := pySortedSet cvs
  if class_variables.length > 0 then
    let cvText := cvTableHeader ++ joinSep [ '\n' ] class_variables
    if subIn cvHeaderLit child_text then
      subAllCvE cvText (child_text.length + 1) true child_text
    else
      let split := pySplit child_text stars3
      if split.length = 1 then some (child_text ++ "\n\n***\n\n".data ++ cvText)
      else
        some (pyStrip (pyReplace child_text (split.headD [])
          (pyStrip (split.headD []) ++ "\n\n".data ++ pyStrip cvText ++ "\n\n".data)))
  else some child_text

/-- The fields phase of `get_from_text` (lines 140-165): append the
ancestors' field bullets, synthesizing a Fields section when the child has
none. -/
def gftFieldPhase (child1 : Str) (parent_texts : List Str) : Option Str :=
  let parent_fields := parent_texts.foldl (fun acc t => acc ++ extractFieldLines t) []
  if parent_fields.length > 0 then
    let pft := joinSep "\n\n".data parent_fields
    if ! subIn fieldsHeaderLit child1 then
      let split := pySplit child1 stars3
      if split.length = 1 then
        some (pyStrip child1 ++ "\n\n***\n\n## Fields\n\n".data ++ pft ++ "\n\n***\n\n".data)
      else
        some (pyReplace child1 (split.headD [])
          (pyStrip (split.headD []) ++ "\n\n***\n\n## Fields\n\n".data ++ pft ++
            "\n\n***\n\n".data))
    else
      match searchFieldsG1 child1 with
      | none => none
      | some cft =>
        let fields := findallDashLines (pyStrip cft) ++ parent_fields
        some (pyStrip (pyReplace child1 cft
          ("\n\n".data ++ joinSep "\n\n".data fields ++ "\n\n".data)))
  else some child1

/-- The functions splice of `get_from_text` (lines 206-212): replace the
existing Functions section, or append a new one. -/
def gftFnSplice (child2 : Str) (fns : Entries) : Option Str :=
  if subIn fnHeaderLit child2 then
    subAllFnSecE ("## Functions\n\n".data ++ functionTextOf fns) (child2.length + 1) true
      child2
  else some (pyStrip child2 ++ "\n\n***\n\n## Functions\n\n".data ++ functionTextOf fns)

/-- The section-break restoration of `get_from_text` (lines 217-223):
when a class-variables section exists, re-insert the section break that
the class-variables substitution consumed before the Fields (or else
Functions) heading. -/
def gftSbFix (doc : Str) : Str :=
  if subIn cvHeaderLit doc then
    if subIn fieldsHeaderLit doc && ! subIn sbFields doc then
      pyReplace doc fieldsHeaderLit sbFields
    else if subIn fnHeaderLit doc && ! subIn sbFunctions doc then
      pyReplace doc fnHeaderLit sbFunctions
    else doc
  else doc

/-- The final normalisation of `get_from_text` (lines 213-225): collapse
doubled section breaks, rewrite ancestor class names, restore a missing
section break, and drop an `(ABC)` annotation. -/
def gftTail (ccn : Str) (pcns : List Str) (child3 : Str) : Str :=
  pyReplace
    (gftSbFix
      (pcns.foldl (fun d pcn =>
        pyReplace (pyReplace d (pcn ++ [ '(' ]) (ccn ++ [ '(' ]))
          (ccn ++ [ '(' ] ++ pcn ++ [ ')' ]) ccn)
        (pyReplace child3 "***\n\n***".data stars3)))
    (ccn ++ "(ABC)".data) ccn

/-- `ClassInheritance.get_from_text(child_text, parent_texts)`
(`class_inheritance.py` lines 104-225), modelled step for step; `none` is
an uncaught Python exception (a missing `# ` header, a missing fields
group, an empty stripped function body, or a replacement-template
error). -/
def getFromText (child_text : Str) (parent_texts : List Str) : Option Str := do
  let child_class_name ← searchHashHeader child_text
  let child1 ← gftCvPhase child_text parent_texts
  let child2 ← gftFieldPhase child1 parent_texts
  let parent_class_names ← parent_texts.mapM searchHashHeader
  let fns ← mergedFns child_class_name child2 parent_texts
  let child3 ← gftFnSplice child2 fns
  pure (gftTail child_class_name parent_class_names child3)

/-- The per-block effect of either functions-loop on the key list, as the
amended claim C8 words it: a block whose stripped body ends in `*` (no
docstring) is skipped, an already-present name keeps its position, a new
name is appended. -/
def specKeyStep (acc : List Str) (fb : Str × Str) : List Str :=
  if (pyStrip fb.2).getLast? = some '*' then acc
  else if fb.1 ∈ acc then acc else acc ++ [fb.1]

/-- Spec-side description of the merged function order (from the amended
claim C8): the constructor name first, then every other name at its first
non-skipped discovery across the ancestors (nearest first) and then the
child. -/
def specFnOrder (parentBlocks : List (List (Str × Str))) (childBlocks : List (Str × Str)) :
    List Str :=
  childBlocks.foldl specKeyStep
    (parentBlocks.foldl (fun a bl => bl.foldl specKeyStep a) [escInit])

/-- The heading names of the function blocks of a document: the rest of
each line that starts with `#### `. -/
def fnHeadingNames (s : Str) : List Str :=
  (linesOf s).filterMap (fun l => if hasPre h4sp l then some (l.drop 5) else none)

/-- First-discovered key order as claim C8 literally states it: every
block name counts at its first appearance, whether or not the block has a
docstring. -/
def specNaiveKeyStep (acc : List Str) (fb : Str × Str) : List Str :=
  if fb.1 ∈ acc then acc else acc ++ [fb.1]

/-- First-discovered order across ancestors (nearest first) then the
child, constructor first — claim C8's literal reading. -/
def specNaiveOrder (parentBlocks : List (List (Str × Str)))
    (childBlocks : List (Str × Str)) : List Str :=
  childBlocks.foldl specNaiveKeyStep
    (parentBlocks.foldl (fun a bl => bl.foldl specNaiveKeyStep a) [escInit])

/-! ## Concrete documents used by counterexamples and witnesses -/

/-- C2 counterexample child: documents `foo` without a docstring (the
block body ends in `*`). -/
def cx2Child : Str :=
  "# Child\n\n`from m.child import Child`\n\nChild desc.\n\n***\n\n## Functions\n\n#### \\_\\_init\\_\\_\n\n**`Child()`**\n\nMake one.\n\n#### foo\n\n**`self.foo()`**".data

/-- C2 counterexample parent: documents `foo` with a docstring. -/
def cx2Parent : Str :=
  "# Parent\n\n`from m.parent import Parent`\n\nParent desc.\n\n***\n\n## Functions\n\n#### \\_\\_init\\_\\_\n\n**`Parent()`**\n\nMake one.\n\n#### foo\n\n**`self.foo()`**\n\nParent foo doc.".data

/-- C2 witness child: documents `foo` with a docstring. -/
def wit2Child : Str :=
  "# Child\n\nChild desc.\n\n***\n\n## Functions\n\n#### \\_\\_init\\_\\_\n\n**`Child()`**\n\nMake one.\n\n#### foo\n\n**`self.foo()`**\n\nChild foo doc.".data

/-- C2 witness parent: also documents `foo`. -/
def wit2Parent : Str :=
  "# Parent\n\nParent desc.\n\n***\n\n## Functions\n\n#### foo\n\n**`self.foo()`**\n\nParent foo doc.".data

/-- C3 witness child with class-variable rows `B` and `A`. -/
def wit3Child : Str :=
  "# Child\n\nChild desc.\n\n***\n\n## Class Variables\n\n| Variable | Type | Description | Value |\n| --- | --- | --- | --- |\n| `B` | int | b. | 2 |\n| `A` | int | a. | 1 |\n\n***\n\n## Functions\n\n#### \\_\\_init\\_\\_\n\n**`Child()`**\n\nMake one.".data

/-- C3 witness parent with class-variable rows `A` and `C`. -/
def wit3Parent : Str :=
  "# P1\n\nP1 desc.\n\n***\n\n## Class Variables\n\n| Variable | Type | Description | Value |\n| --- | --- | --- | --- |\n| `A` | int | a. | 1 |\n| `C` | int | c. | 3 |\n\n***\n\n## Functions\n\n#### \\_\\_init\\_\\_\n\n**`P1()`**\n\nMake one.".data

/-- C8 counterexample child: documents only the constructor. -/
def cx8Child : Str :=
  "# Child\n\nChild desc.\n\n***\n\n## Functions\n\n#### \\_\\_init\\_\\_\n\n**`Child()`**\n\nMake one.".data

/-- C8 counterexample nearest ancestor: `f` without a docstring, then `g`
with one. -/
def cx8P1 : Str :=
  "# P1\n\nP1 desc.\n\n***\n\n## Functions\n\n#### f\n\n**`self.f()`**\n\n#### g\n\n**`self.g()`**\n\nG doc.".data

/-- C8 counterexample farther ancestor: `f` with a docstring. -/
def cx8P2 : Str :=
  "# P2\n\nP2 desc.\n\n***\n\n## Functions\n\n#### f\n\n**`self.f()`**\n\nF doc from P2.".data

/-- C8 witness child: one documented function, no constructor block. -/
def wit8Child : Str :=
  "# Child\n\nChild desc.\n\n***\n\n## Functions\n\n#### alpha\n\n**`self.alpha()`**\n\nAlpha doc.".data

/-- C8 witness parent: one documented function, no constructor block. -/
def wit8Parent : Str :=
  "# Parent\n\nParent desc.\n\n***\n\n## Functions\n\n#### beta\n\n**`self.beta()`**\n\nBeta doc.".data

/-! ## `py_md_doc.py`: additional string helpers -/

/-- Python `s.endswith(p)`. -/
def pyEndsWith (p s : Str) : Bool := hasPre p.reverse s.reverse

/-- Python `s[:-n]` for `n ≥ 1`: all but the last `n` characters (empty
when the string is shorter than `n`). -/
def dropEnd (n : Nat) (s : Str) : Str := s.take (s.length - n)

/-- Index of the last occurrence of `pat` in the scanned string, if any. -/
def lastIdxSub (pat : Str) : Str → Option Nat
  | [] => if hasPre pat [] then some 0 else none
  | c :: t =>
    match lastIdxSub pat t with
    | some i => some (i + 1)
    | none => if hasPre pat (c :: t) then some 0 else none

/-- Python `s.lower()` for the ASCII range (`A`-`Z` mapped down; the
documents in scope are ASCII). -/
def pyLower (s : Str) : Str := s.map Char.toLower

/-- Uppercase ASCII letter, the character class `[A-Z]` of a regex. -/
def capAZ (c : Char) : Bool := 'A' ≤ c && c ≤ 'Z'

/-- Literal triple quote. -/
def q3lit : Str := "\"\"\"".data

/-- Generic `re.search` driver for a pattern with no `^` anchor: try the
match at every position left to right (including the end position). -/
def scanPos (tryM : Str → Option α) : Str → Option α
  | [] => tryM []
  | c :: t =>
    match tryM (c :: t) with
    | some a => some a
    | none => scanPos tryM t

/-- Python `if s[-1] == "\n": s = s[:-1]` — a single trailing newline is
removed; `none` models the `IndexError` on an empty string. -/
def pyTrimOneNl (s : Str) : Option Str :=
  if s.isEmpty then none
  else if s.getLast? = some '\n' then some s.dropLast else some s

/-- Python `while s[-1] == "\n": s = s[:-1]`: all trailing newlines are
removed; `none` models the `IndexError` when the string is or becomes
empty. -/
def pyTrimNl (s : Str) : Option Str :=
  let r := (s.reverse.dropWhile (fun c => c = '\n')).reverse
  if r.isEmpty then none else some r

/-! ## `py_md_doc.py`: the docstring-body regex piece

The patterns of `get_class_description`, `get_class_variables` and
`get_fields` share the piece `((.*)+[\n]+)+?[\s]+` (for
`get_class_description` preceded by one more `[\s]+`), followed by a
closing triple quote.  Each iteration of the lazy outer group consumes one
physical line (arbitrary characters, then its newline run), and the
trailing `[\s]+` consumes at least one whitespace character; greedy
whitespace runs are deterministic because backtracking them lands on a
whitespace character where the following literal cannot match.  Hence the
matched body `C` before the closing quote is exactly characterised by: some
`\n` in `C` is followed by a nonempty all-whitespace suffix (and, with the
leading `[\s]+`, the first character is whitespace and that `\n` is not the
first character); laziness picks the earliest closing quote whose body
satisfies this.  This characterisation was checked against CPython `re` on
randomized inputs. -/

/-- Whether some `\n` of the string is followed by a nonempty suffix made
only of whitespace. -/
def nlWsSuffix : Str → Bool
  | [] => false
  | c :: t => (c = '\n' && !t.isEmpty && t.all pyIsSpace) || nlWsSuffix t

/-- Whether `C` is a valid docstring-body match (see the section comment);
`needLead` is true when the pattern has the extra leading `[\s]+`. -/
def qqBodyOk (needLead : Bool) (C : Str) : Bool :=
  if needLead then
    match C with
    | [] => false
    | c :: t => pyIsSpace c && nlWsSuffix t
  else nlWsSuffix C

/-- Scan for the earliest closing `\"\"\"` whose preceding body is valid,
returning the body and the text after the quote; `accRev` holds the
consumed body reversed. -/
def qqClose (needLead : Bool) : Str → Str → Option (Str × Str)
  | _, [] => none
  | accRev, c :: t =>
    if hasPre q3lit (c :: t) && qqBodyOk needLead accRev.reverse then
      some (accRev.reverse, (c :: t).drop 3)
    else qqClose needLead (c :: accRev) t

/-! ## `py_md_doc.py`: `get_class_description` -/

/-- Character class `[aA-Zz]` of the class-description regex: the letter
`a`, the range `A`-`Z`, and the letter `z`. -/
def classDescChar (c : Char) : Bool := c = 'a' || capAZ c || c = 'z'

/-- De-indentation prefix `\A *\d+\. *`: spaces, at least one digit, a
dot, spaces, anchored at the start; returns the rest after the match. -/
def leadNumDot (s : Str) : Option Str :=
  let s1 := s.dropWhile (fun c => c = ' ')
  let ds := s1.takeWhile Char.isDigit
  if ds.isEmpty then none
  else
    match s1.drop ds.length with
    | '.' :: r => some (r.dropWhile (fun c => c = ' '))
    | _ => none

/-- Drop up to `n` leading spaces (the greedy ` {0,n}` at a line start). -/
def dropUpToNSp (n : Nat) (s : Str) : Str :=
  s.drop (min n (s.takeWhile (fun c => c = ' ')).length)

/-- Apply ` {0,n}` removal at every line start strictly after the current
position (the first listed line is left as is). -/
def deIndentTail (n : Nat) (s : Str) : Str :=
  match linesOf s with
  | [] => []
  | l :: ls => joinSep [ '\n' ] (l :: ls.map (dropUpToNSp n))

/-- Python `re.sub(r"(\A *\d+\. *|^ {0,n})", r"", s, flags=re.MULTILINE)`
as used with `n = 4` (class descriptions) and `n = 8` (field
descriptions): the alternation tries the `\A` branch first at position 0,
else removes up to `n` spaces there; every later line start loses up to
`n` spaces (a match never spans a newline, so line starts are
independent). -/
def subDeIndent (n : Nat) (s : Str) : Str :=
  match leadNumDot s with
  | some r => deIndentTail n r
  | none => deIndentTail n (dropUpToNSp n s)

/-- Try the pattern of `get_class_description` at one position:
`class [aA-Zz](.*):\n` (the greedy group forces the colon to sit at the
end of the physical line), then a nonempty whitespace run, the opening
triple quote, its newline, and the docstring body; returns group 3. -/
def tryClassDesc (s : Str) : Option Str :=
  if hasPre "class ".data s then
    let rest := s.drop 6
    match findIdxSub [ '\n' ] rest with
    | none => none
    | some k =>
      let line := rest.take k
      match line with
      | [] => none
      | c0 :: _ =>
        if classDescChar c0 && pyEndsWith [ ':' ] line && decide (2 ≤ line.length) then
          let after := rest.drop (k + 1)
          let w := after.takeWhile pyIsSpace
          if !w.isEmpty && hasPre ("\"\"\"\n".data) (after.drop w.length) then
            (qqClose true [] (after.drop (w.length + 4))).map (fun p => p.1)
          else none
        else none
  else none

/-- Group 3 of
`re.search(r'class ([aA-Zz](.*)):\n[\s]+\"\"\"\n([\s]+((.*)+[\n]+)+?[\s]+)\"\"\"', file_txt)`. -/
def searchClassDescG3 (s : Str) : Option Str := scanPos tryClassDesc s

/-- `PyMdDoc.get_class_description(file_txt)`: group 3 de-indented (up to
four spaces per line) and stripped; `none` models the `AttributeError`
raised when the regex does not match. -/
def getClassDescription (file_txt : Str) : Option Str :=
  (searchClassDescG3 file_txt).map (fun g3 => pyStrip (subDeIndent 4 g3))

/-! ## `py_md_doc.py`: `get_class_variables` -/

/-- Text accumulated by `get_class_variables`: the lines from the start
index joined with newlines, stopping before a line containing
`def __init__`. -/
def cvTxt : List Str → Str
  | [] => []
  | l :: ls => if subIn "def __init__".data l then [] else l ++ '\n' :: cvTxt ls

/-- Literal tag of the class-variable pattern. -/
def cvarTag : Str := "\"\"\":class_var".data

/-- Worker of `re.findall(r'\"\"\":class_var(((.*)+[\n]+)+?[\s]+)\"\"\"\n[\s]+(.*)=', txt)`
returning the pairs (group 1, group 4): after the docstring body and its
closing quote come a newline, a nonempty greedy whitespace run, and the
greedy group 4 up to the last `=` of its line; scanning resumes after each
match (`fuel` bounds the recursion and is instantiated with the text
length). -/
def cvarFindall : Nat → Str → List (Str × Str)
  | 0, _ => []
  | fuel + 1, s =>
    if hasPre cvarTag s then
      match qqClose false [] (s.drop 13) with
      | some (body, rest) =>
        match rest with
        | '\n' :: after =>
          let w := after.takeWhile pyIsSpace
          if w.isEmpty then
            match s with
            | [] => []
            | _ :: t => cvarFindall fuel t
          else
            let lineS := after.drop w.length
            let line := lineS.takeWhile (fun c => c ≠ '\n')
            match lastIdxSub [ '=' ] line with
            | some eq => (body, line.take eq) :: cvarFindall fuel (lineS.drop (eq + 1))
            | none =>
              match s with
              | [] => []
              | _ :: t => cvarFindall fuel t
        | _ =>
          match s with
          | [] => []
          | _ :: t => cvarFindall fuel t
      | none =>
        match s with
        | [] => []
        | _ :: t => cvarFindall fuel t
    else
      match s with
      | [] => []
      | _ :: t => cvarFindall fuel t

/-- One table row of `get_class_variables` from a findall tuple. -/
def cvarRow (p : Str × Str) : Str :=
  let desc := pyStrip p.1
  let var_split := pySplit p.2 [ ':' ]
  let var := var_split.headD []
  let var_type :=
    if 1 < var_split.length then
      pyStrip ((pySplit ((var_split.get? 1).getD []) [ '=' ]).headD [])
    else []
  "| `".data ++ var ++ "` | ".data ++ var_type ++ " | ".data ++ desc ++ " |\n".data

/-- `PyMdDoc.get_class_variables(lines, start_index)`. -/
def getClassVariables (lines : List Str) (start_index : Nat) : Str :=
  let txt := cvTxt (lines.drop start_index)
  let cvl := cvarFindall (txt.length + 1) txt
  if cvl.length = 0 then []
  else
    pyStrip (cvl.foldl (fun a p => a ++ cvarRow p)
      "| Variable | Type | Description |\n| --- | --- | --- |\n".data)

/-! ## `py_md_doc.py`: `get_fields` -/

/-- Try `r"def (.*)\):"` at one position: the greedy group runs to the
last `):` of the physical line. -/
def tryDefClose (s : Str) : Option Str :=
  if hasPre "def ".data s then
    let line := (s.drop 4).takeWhile (fun c => c ≠ '\n')
    (lastIdxSub "):".data line).map line.take
  else none

/-- `re.search(r"def (.*)\):", s)`, group 1. -/
def searchDefClose (s : Str) : Option Str := scanPos tryDefClose s

/-- The `while match is None: txt += ...` loops of `get_fields` and
`get_function_documentation`: append further lines (transformed by `xf`)
until `found` holds, returning the final text and the number of appended
lines; `none` models the `IndexError` when the lines run out. -/
def growCount (found : Str → Bool) (xf : Str → Str) : Str → List Str → Option (Str × Nat)
  | txt, [] => if found txt then some (txt, 0) else none
  | txt, l :: ls =>
    if found txt then some (txt, 0)
    else (growCount found xf (txt ++ xf l) ls).map (fun p => (p.1, p.2 + 1))

/-- Text accumulated for the constructor body: lines joined with newlines,
stopping before a line containing `def `. -/
def initFuncTxt : List Str → Str
  | [] => []
  | l :: ls => if subIn "def ".data l then [] else l ++ '\n' :: initFuncTxt ls

/-- Literal tag of the field pattern. -/
def fieldTag : Str := "\"\"\":field".data

/-- Try `r'\"\"\":field(((.*)+[\n]+)+?[\s]+)\"\"\"\n[\s]+self\.(.*)'` at
one position, returning (group 0, group 1, group 4): after the body and
closing quote come a newline, a nonempty whitespace run, the literal
`self.`, and group 4 to the end of the physical line. -/
def tryField (s : Str) : Option (Str × Str × Str) :=
  if hasPre fieldTag s then
    match qqClose false [] (s.drop 9) with
    | some (body, rest) =>
      match rest with
      | '\n' :: after =>
        let w := after.takeWhile pyIsSpace
        if w.isEmpty then none
        else if hasPre "self.".data (after.drop w.length) then
          let g4 := (after.drop (w.length + 5)).takeWhile (fun c => c ≠ '\n')
          some (fieldTag ++ body ++ q3lit ++ '\n' :: (w ++ "self.".data ++ g4), body, g4)
        else none
      | _ => none
    | none => none
  else none

/-- `re.search` of the field pattern. -/
def fieldSearch (s : Str) : Option (Str × Str × Str) := scanPos tryField s

/-- The `while got_fields` loop of `get_fields`: repeatedly search the
constructor text, render one bullet, and delete the matched text; each
iteration removes at least one character, so fuel one more than the text
length never runs out. -/
def fieldsLoop : Nat → Str → Str → Str
  | 0, acc, _ => acc
  | fuel + 1, acc, init_func =>
    match fieldSearch init_func with
    | none => acc
    | some (g0, g1, g4) =>
      let field_desc := subDeIndent 8 (pyStrip g1)
      let field_name := pyStrip ((pySplit ((pySplit g4 [ ':' ]).headD []) [ '=' ]).headD [])
      fieldsLoop fuel
        (acc ++ "- `".data ++ field_name ++ "` ".data ++ field_desc ++ "\n\n".data)
        (pyReplace init_func g0 [])

/-- `PyMdDoc.get_fields(lines, start_index)`; `none` models the
`IndexError` when the signature never closes. -/
def getFields (lines : List Str) (start_index : Nat) : Option Str :=
  match lines.get? start_index with
  | none => none
  | some l0 =>
    match growCount (fun t => (searchDefClose t).isSome) pyStrip l0 (lines.drop (start_index + 1)) with
    | none => none
    | some (_, extra) =>
      let init_func := initFuncTxt (lines.drop (start_index + 1 + extra))
      some (pyStrip (fieldsLoop (init_func.length + 1) [] init_func))

/-! ## `py_md_doc.py`: `get_function_documentation` -/

/-- Try `r" -> "` at offset `p` of the line, requiring a colon later: on
success, group 1 is the text before and group 2 runs to the last colon
after the arrow (the greedy groups backtrack from the right). -/
def arrowAt (line : Str) (p : Nat) : Option (Str × Str) :=
  if hasPre " -> ".data (line.drop p) then
    let after := line.drop (p + 4)
    match lastIdxSub [ ':' ] after with
    | some c => some (line.take p, after.take c)
    | none => none
  else none

/-- Try arrow offsets from `p` down to 0 (the greedy group 1 prefers the
rightmost arrow with a colon after it). -/
def arrowBackAux (line : Str) : Nat → Option (Str × Str)
  | 0 => arrowAt line 0
  | p + 1 =>
    match arrowAt line (p + 1) with
    | some r => some r
    | none => arrowBackAux line p

/-- Try `r"def (.*) -> (.*):"` at one position (both groups confined to
the physical line). -/
def tryDefArrow (s : Str) : Option (Str × Str) :=
  if hasPre "def ".data s then
    let line := (s.drop 4).takeWhile (fun c => c ≠ '\n')
    arrowBackAux line line.length
  else none

/-- `re.search(r"def (.*) -> (.*):", s)`, groups 1 and 2. -/
def searchDefArrow (s : Str) : Option (Str × Str) := scanPos tryDefArrow s

/-- The reconstructed `def_str` of `get_function_documentation`: the
constructor branch greedily matches `def (.*)\):` over lines joined
without separators and restores the closing parenthesis; the other branch
matches `def (.*) -> (.*):`; both normalise inner whitespace with
`" ".join(def_str.split())`; `none` models the `IndexError` when the
pattern never matches. -/
def gfdDefStr (lines : List Str) (start_index : Nat) (l0 : Str) : Option Str :=
  if subIn "__init__".data l0 then
    match growCount (fun t => (searchDefClose t).isSome) (fun l => l) l0
        (lines.drop (start_index + 1)) with
    | none => none
    | some (txt, _) =>
      match searchDefClose txt with
      | none => none
      | some g => some (joinSep [ ' ' ] (splitWs g) ++ [ ')' ])
  else
    match growCount (fun t => (searchDefArrow t).isSome) (fun l => l) l0
        (lines.drop (start_index + 1)) with
    | none => none
    | some (txt, _) =>
      match searchDefArrow txt with
      | none => none
      | some (g1, g2) => some (joinSep [ ' ' ] (splitWs (g1 ++ " -> ".data ++ g2)))

/-- Python `lines[start_index - 1]` with the negative-index rule: index
`-1` (when `start_index = 0`) is the last element. -/
def pyIdxPrev (lines : List Str) (i : Nat) : Option Str :=
  if i = 0 then lines.getLast? else lines.get? (i - 1)

/-- Parameter dictionary of `get_function_documentation` (insertion order,
assignment to an existing key keeps its position). -/
abbrev PEntries := List (Str × Parameter)

/-- Python `d[k] = v` on the parameter dictionary. -/
def pmSet : PEntries → Str → Parameter → PEntries
  | [], k, v => [(k, v)]
  | e :: t, k, v => if e.1 = k then (k, v) :: t else e :: pmSet t k v

/-- State of the docstring scan of `get_function_documentation`. -/
structure FnScanSt where
  began : Bool
  params : PEntries
  ret : Str
  desc : Str
deriving Repr, DecidableEq

/-- Initial docstring-scan state. -/
def fnScanSt0 : FnScanSt := ⟨false, [], [], []⟩

/-- The `for i in range(start_index + 1, len(lines))` docstring scan of
`get_function_documentation` over the remaining lines: a stripped line
containing a triple quote toggles `began_desc` (the second one stops the
scan); inside the description, `:param` lines register a `Parameter`,
blank lines and ordinary lines extend the description, and `:return`
lines set the return description. -/
def fnDocScan (def_str : Str) : FnScanSt → List Str → FnScanSt
  | st, [] => st
  | st, l :: ls =>
    let line := pyStrip l
    if subIn q3lit line then
      if st.began then st else fnDocScan def_str { st with began := true } ls
    else if st.began then
      if hasPre ":param".data line then
        let param_name := (pySplit (line.drop 7) [ ':' ]).headD []
        let param_desc :=
          pyStrip (pyReplace line (":param ".data ++ param_name ++ ": ".data) [])
        fnDocScan def_str
          { st with params := (pmSet st.params param_name
              (Parameter.ofDefStr param_name param_desc def_str)) } ls
      else if line.isEmpty then
        fnDocScan def_str { st with desc := st.desc ++ [ '\n' ] } ls
      else if hasPre ":return:".data line then
        fnDocScan def_str { st with ret := line.drop 8 } ls
      else if hasPre ":return".data line then
        fnDocScan def_str { st with ret := line.drop 7 } ls
      else fnDocScan def_str { st with desc := st.desc ++ line ++ [ '\n' ] } ls
    else fnDocScan def_str st ls

/-- The `for p in parameters` loop building the short and long call
examples: the long call always lists the parameter (with `=default` when
one exists), the short call only lists parameters without a default. -/
def callFold : Str × Str → PEntries → Str × Str
  | p, [] => p
  | (s, l), (_, pr) :: rest =>
    let l1 := l ++ pr.name
    if pr.default_value.isEmpty then
      callFold (s ++ pr.name ++ ", ".data, l1 ++ ", ".data) rest
    else callFold (s, l1 ++ [ '=' ] ++ pr.default_value ++ ", ".data) rest

/-- Python `if s.endswith(", "): s = s[:-2]`. -/
def trimComma (s : Str) : Str :=
  if pyEndsWith ", ".data s then dropEnd 2 s else s

/-- One row of the parameter table. -/
def paramRow (pr : Parameter) : Str :=
  "| ".data ++ pr.name ++ " | ".data ++ pr.param_type ++ " | ".data ++
    pr.default_value ++ " | ".data ++ pr.description ++ " |\n".data

/-- Last step of `get_function_documentation`: append the return-value
line to the trimmed text (`none` propagates the `IndexError` of the
trim). -/
def gfdRet (f3? : Option Str) (ret : Str) : Option Str :=
  match f3? with
  | none => none
  | some f3 => some (if ret.isEmpty then f3 else f3 ++ "\n\n_Returns:_ ".data ++ ret)

/-- Tail of `get_function_documentation`: the single trailing-newline trim,
the parameter table (when there are parameters), the trailing-newline
loop, and the return-value line; `none` models the `IndexError` of
indexing an empty string. -/
def gfdTail (function : Str) (params : PEntries) (ret : Str) : Option Str :=
  match pyTrimOneNl function with
  | none => none
  | some f1 =>
    gfdRet (pyTrimNl (if params.isEmpty then f1
      else f1 ++
        ("\n| Parameter | Type | Default | Description |\n| --- | --- | --- | --- |\n".data ++
          (params.foldl (fun a e => a ++ paramRow e.2) [] ++ [ '\n' ])))) ret

/-- `PyMdDoc.get_function_documentation(lines, start_index, class_name)`;
`none` models the `IndexError` of the signature reconstruction (or an
out-of-range start index). -/
def getFunctionDocumentation (lines : List Str) (start_index : Nat) (class_name : Str) :
    Option Str :=
  match lines.get? start_index with
  | none => none
  | some l0 =>
    match gfdDefStr lines start_index l0 with
    | none => none
    | some def_str =>
      let shortened := pyReplace ((pySplit def_str [ '(' ]).headD []) "__".data "\\_\\_".data
      match pyIdxPrev lines start_index with
      | none => none
      | some prev =>
        let is_static := pyStrip prev = "@staticmethod".data
        let st := fnDocScan def_str fnScanSt0 (lines.drop (start_index + 1))
        let call :=
          if is_static then class_name ++ [ '.' ] ++ shortened ++ [ '(' ]
          else if shortened = escInit then (pySplit class_name [ '(' ]).headD [] ++ [ '(' ]
          else "self.".data ++ shortened ++ [ '(' ]
        let sl := callFold (call, call) st.params
        let short_call := trimComma sl.1 ++ [ ')' ]
        let long_call := trimComma sl.2 ++ [ ')' ]
        gfdTail
          ("#### ".data ++ shortened ++ "\n\n".data ++
            (if short_call = long_call then "**`".data ++ short_call ++ "`**\n\n".data
             else "**`".data ++ short_call ++ "`**\n\n**`".data ++ long_call ++ "`**\n\n".data) ++
            (if is_static then "_This is a static function._\n\n".data else []) ++
            st.desc)
          st.params st.ret

/-! ## `py_md_doc.py`: `get_enum_values` -/

/-- The value/description loop of `get_enum_values` over the lines after
the class definition: it stops at a line containing `class `, skips empty
lines, toggles past the class docstring, and after it renders one table
row per line (`val` before ` = `, description after `#`). -/
def enumLoop : Bool → Bool → Str → List Str → Str
  | _, _, acc, [] => acc
  | began, ended, acc, l :: ls =>
    if subIn "class ".data l then acc
    else if l.isEmpty then enumLoop began ended acc ls
    else if subIn q3lit l then
      if !began then enumLoop true ended acc ls else enumLoop began true acc ls
    else if !ended then enumLoop began ended acc ls
    else
      let stripped := pyStrip l
      let line_split := pySplit stripped " = ".data
      let val := [ '`' ] ++ line_split.headD [] ++ [ '`' ]
      let desc_split := pySplit stripped [ '#' ]
      let desc :=
        if 1 < desc_split.length then pyStrip ((desc_split.get? 1).getD []) else []
      enumLoop began ended
        (acc ++ "| ".data ++ val ++ " | ".data ++ desc ++ " |\n".data) ls

/-- `PyMdDoc.get_enum_values(lines, start_index)`. -/
def getEnumValues (lines : List Str) (start_index : Nat) : Str :=
  pyStrip (enumLoop false false "| Value | Description |\n| --- | --- |\n".data
    (lines.drop (start_index + 1)))

/-! ## `py_md_doc.py`: `get_doc_toc` -/

/-- Interpreted form of a function name injected verbatim into a pattern:
the regex engine treats a backslash before a non-alphanumeric character
(here always `\_`, produced by the renderer's `__` escaping) as that
character itself.  Names whose escapes are not of this shape do not occur
in this development. -/
def interpName : Str → Str
  | [] => []
  | '\\' :: c :: t => c :: interpName t
  | c :: t => c :: interpName t

/-- `re.findall(r"^## (.*)", doc, flags=re.MULTILINE)`: the text after
`## ` on every line that starts with it. -/
def findallH2 (doc : Str) : List Str :=
  (linesOf doc).filterMap (fun l => if hasPre "## ".data l then some (l.drop 3) else none)

/-- `re.findall(r"^#### (.*)", s, flags=re.MULTILINE)`. -/
def findallH4M (s : Str) : List Str :=
  (linesOf s).filterMap (fun l => if hasPre h4sp l then some (l.drop 5) else none)

/-- Try the fourth group of the TOC description pattern at one line: a
line starting `**` with a capital and a dot at offset 3 or later matches
the first alternative up to its last dot; otherwise a line starting with a
capital and containing a later dot matches the second alternative. -/
def g4Try (line : Str) : Option Str :=
  if hasPre "**".data line && (match line.drop 2 with
    | c :: _ => capAZ c
    | [] => false) &&
      (match lastIdxSub [ '.' ] line with
       | some d => decide (3 ≤ d)
       | none => false) then
    match lastIdxSub [ '.' ] line with
    | some d => some (line.take (d + 1))
    | none => none
  else if (match line with
    | c :: _ => capAZ c
    | [] => false) &&
      (match lastIdxSub [ '.' ] line with
       | some d => decide (1 ≤ d)
       | none => false) then
    match lastIdxSub [ '.' ] line with
    | some d => some (line.take (d + 1))
    | none => none
  else none

/-- Group 4 of
`re.search(r"^#### " + f + r"(.*)((.|\n)*?)^(\*\*[A-Z].*\.|[A-Z].*\.)", doc, re.MULTILINE)`:
for each line starting with `#### ` plus the (interpreted) name, the first
later line matching the sentence alternative; the search falls through to
the next heading line when none follows. -/
def tocDescAux (lit : Str) : List Str → Option Str
  | [] => none
  | l :: ls =>
    if hasPre lit l then
      match ls.findSome? g4Try with
      | some g => some g
      | none => tocDescAux lit ls
    else tocDescAux lit ls

/-- TOC description search for one function name over the whole document. -/
def tocDesc (f doc : Str) : Option Str :=
  tocDescAux (h4sp ++ interpName f) (linesOf doc)

/-- Scan for the first dot followed by the end of the string or a space
and a capital (the lazy `(.*?\.)($| [A-Z])`); returns the prefix through
that dot. -/
def sentScanAux (accRev : Str) : Str → Option Str
  | [] => none
  | c :: t =>
    if c = '.' && (t.isEmpty || (match t with
      | ' ' :: d :: _ => capAZ d
      | _ => false)) then some (accRev.reverse ++ [ '.' ])
    else sentScanAux (c :: accRev) t

/-- Group 3 of `re.search(r"(^\*\*(.*?)\*\* |^)(.*?\.)($| [A-Z])", g4)`:
when the text starts `**` and contains a later `** `, the bold lead is
skipped first; when no sentence completes after it the engine falls back
to the empty alternative at the start. -/
def firstSentence (g4 : Str) : Option Str :=
  if hasPre "**".data g4 then
    match findIdxSub "** ".data (g4.drop 2) with
    | some k =>
      match sentScanAux [] (g4.drop (2 + k + 3)) with
      | some s => some s
      | none => sentScanAux [] g4
    | none => sentScanAux [] g4
  else sentScanAux [] g4

/-- One header bullet of the TOC. -/
def tocHeaderRow (h : Str) : Str :=
  "- [".data ++ h ++ "](#".data ++ pyReplace (pyLower h) [ ' ' ] [ '-' ] ++ ")\n".data

/-- One function-table row of the TOC; `none` models the `AttributeError`
when the inner sentence search fails. -/
def tocFnRow (doc f : Str) : Option Str :=
  match tocDesc f doc with
  | none => some ("| [".data ++ f ++ "](#".data ++ f ++ ") | |\n".data)
  | some g4 =>
    match firstSentence g4 with
    | none => none
    | some s => some ("| [".data ++ f ++ "](#".data ++ f ++ ") | ".data ++ s ++ " |\n".data)

/-- `PyMdDoc.get_doc_toc(doc)`. -/
def getDocToc (doc : Str) : Option Str :=
  let toc :=
    pyStrip ((findallH2 doc).foldl (fun a h => a ++ tocHeaderRow h)
      "## Overview of API\n\n".data)
  if subIn fnHeaderLit doc then
    match ((pySplit doc fnHeaderLit).get? 1).getD [] with
    | part => do
      let fns ← (findallH4M part).foldlM (fun a f => (tocFnRow doc f).map (a ++ ·))
        "\n\n| Function | Description |\n| --- | --- |\n".data
      pure (pyStrip (toc ++ fns))
  else some toc

/-! ## `py_md_doc.py`: `get_doc` -/

/-- One category of the metadata file: its description and the names of
the functions assigned to it. -/
structure CategoryMeta where
  description : Str
  functions : List Str
deriving Repr, DecidableEq

/-- The metadata dictionary: class name to ordered categories. -/
abbrev Metadata := List (Str × List (Str × CategoryMeta))

/-- Ordered association lookup (Python `d[k]` on a JSON object). -/
def aGet? : List (Str × α) → Str → Option α
  | [], _ => none
  | e :: t, k => if e.1 = k then some e.2 else aGet? t k

/-- Python `re.search("class _(.*):", line) is not None`: an occurrence of
`class _` with a colon later on the same line. -/
def classPrivMatch : Str → Bool
  | [] => false
  | c :: t =>
    (hasPre "class _".data (c :: t) &&
      (((c :: t).drop 7).takeWhile (fun d => d ≠ '\n')).any (fun d => d = ':')) ||
    classPrivMatch t

/-- Python `re.search("class (.*):", line).group(1)`: the text between the
first viable `class ` and the last colon of its line. -/
def searchClassName : Str → Option Str
  | [] => none
  | c :: t =>
    match
      (if hasPre "class ".data (c :: t) then
        let rest := ((c :: t).drop 6).takeWhile (fun d => d ≠ '\n')
        (lastIdxSub [ ':' ] rest).map rest.take
       else none) with
    | some g => some g
    | none => searchClassName t

/-- Python `re.sub(r"(.*)\((.*)\)", r"\1", class_name)` on a single-line
class name: the greedy groups select the last `)` and the last `(` before
it, and the replacement keeps only the text before that `(` plus the text
after that `)`. -/
def pySubParens (s : Str) : Str :=
  match lastIdxSub [ ')' ] s with
  | none => s
  | some r =>
    match lastIdxSub [ '(' ] (s.take r) with
    | none => s
    | some p => s.take p ++ s.drop (r + 1)

/-- Python `re.search(r"class (.*)\(" + enum_type + r"\):", line) is not None`. -/
def enumTypeMatch (et : Str) (line : Str) : Bool :=
  match findIdxSub "class ".data line with
  | none => false
  | some q => subIn ([ '(' ] ++ et ++ "):".data) ((line.drop (q + 6)).takeWhile (fun d => d ≠ '\n'))

/-- The four enum base names tested by `get_doc`. -/
def enumTypes : List Str := ["Enum".data, "IntEnum".data, "IntFlag".data, "Flag".data]

/-- First `#### ` occurrence anywhere in the text, group to the end of its
physical line (`re.search("#### (.*)", s).group(1)`). -/
def searchH4First : Str → Option Str
  | [] => none
  | c :: t =>
    if hasPre h4sp (c :: t) then some (((c :: t).drop 5).takeWhile (fun d => d ≠ '\n'))
    else searchH4First t

/-- State of the `get_doc` line loop. -/
structure DocSt where
  doc : Str
  class_name : Str
  fbc : List (Str × List Str)
  looking : Bool
  warnings : List Str
deriving Repr, DecidableEq

/-- Initial `get_doc` state (`functions_by_categories` starts as the
dictionary with one empty entry under the empty key). -/
def docSt0 : DocSt := ⟨[], [], [([], [])], true, []⟩

/-- Python `functions_by_categories[cat].append(doc)` preceded by
`functions_by_categories[cat] = list()` when the key is new. -/
def fbcAppend : List (Str × List Str) → Str → Str → List (Str × List Str)
  | [], k, v => [(k, [v])]
  | e :: t, k, v => if e.1 = k then (k, e.2 ++ [v]) :: t else e :: fbcAppend t k v

/-- The category search of `get_doc`: the first category (in metadata
order) whose function list contains the name, else the empty string. -/
def findCategory (cats : List (Str × CategoryMeta)) (fn : Str) : Str :=
  match cats.find? (fun c => c.2.functions.any (fun g => g = fn)) with
  | some c => c.1
  | none => []

/-- The `## Fields`/`## Functions` prefix added before a constructor's
documentation (empty for other functions); `none` propagates the
`IndexError` of `get_fields`. -/
def gdFieldsPart (lines : List Str) (i : Nat) (line : Str) : Option Str :=
  if subIn "__init__".data line then
    (getFields lines i).map (fun fd =>
      if fd.isEmpty then "## Functions\n\n".data
      else "## Fields\n\n".data ++ fd ++ "\n\n***\n\n## Functions\n\n".data)
  else some []

/-- The class branch of the `get_doc` loop body. -/
def gdClassBranch (si : List Str) (ri fileName : Str) (fileTxt : Str) (lines : List Str)
    (st : DocSt) (line : Str) (i : Nat) : Option DocSt :=
  if classPrivMatch line then some st
  else
    match searchClassName line with
    | none => none
    | some class_name =>
      let class_header := pySubParens class_name
      match getClassDescription fileTxt with
      | none => none
      | some cdesc =>
        let import_example :=
          if si.any (fun x => x = class_header) then
            "`from ".data ++ ri ++ " import ".data ++ class_header ++ [ '`' ]
          else
            "`from ".data ++ ri ++ [ '.' ] ++ dropEnd 3 fileName ++ " import ".data ++
              class_header ++ [ '`' ]
        let is_enum := enumTypes.any (fun et => enumTypeMatch et line)
        let cv := getClassVariables lines i
        some { doc := st.doc ++ "# ".data ++ class_header ++ "\n\n".data ++
                 import_example ++ "\n\n".data ++ cdesc ++
                 (if is_enum then "\n\n".data ++ getEnumValues lines i
                  else "\n\n***\n\n".data) ++
                 (if cv.isEmpty then []
                  else "## Class Variables\n\n".data ++ cv ++ "\n\n***\n\n".data),
               class_name := class_name, fbc := [], looking := false,
               warnings := st.warnings }

/-- The function branch of the `get_doc` loop body. -/
def gdDefBranch (md : Metadata) (lines : List Str) (st : DocSt) (line : Str) (i : Nat) :
    Option DocSt :=
  if subIn "def _".data line && !subIn "__init__".data line then some st
  else
    match gdFieldsPart lines i line with
    | none => none
    | some fpart =>
      match getFunctionDocumentation lines i st.class_name with
      | none => none
      | some fdoc0 =>
        match searchH4First (fdoc0 ++ "\n\n".data) with
        | none => none
        | some g1 =>
          match aGet? md st.class_name with
          | none => some ⟨st.doc ++ fpart ++ (fdoc0 ++ "\n\n".data), st.class_name,
              st.fbc, st.looking, st.warnings⟩
          | some cats =>
            if (findCategory cats (pyReplace g1 "\\_".data [ '_' ])).isEmpty then
              some ⟨st.doc ++ fpart ++ (fdoc0 ++ "\n\n".data), st.class_name, st.fbc, st.looking,
                st.warnings ++
                  ["Warning: Uncategorized function ".data ++ st.class_name ++
                    [ '.' ] ++ pyReplace g1 "\\_".data [ '_' ] ++ "()".data]⟩
            else
              some ⟨st.doc ++ fpart, st.class_name,
                fbcAppend st.fbc (findCategory cats (pyReplace g1 "\\_".data [ '_' ]))
                  (fdoc0 ++ "\n\n".data),
                st.looking, st.warnings⟩

/-- One iteration of the `for i in range(len(lines))` loop of `get_doc`. -/
def getDocStep (si : List Str) (ri fileName : Str) (md : Metadata) (fileTxt : Str)
    (lines : List Str) (st : DocSt) (i : Nat) : Option DocSt :=
  match lines.get? i with
  | none => none
  | some line =>
    if hasPre "class".data line then gdClassBranch si ri fileName fileTxt lines st line i
    else if hasPre "def ".data (pyStrip line) && !st.looking then
      gdDefBranch md lines st line i
    else some st

/-- The full `get_doc` line loop. -/
def getDocLoop (si : List Str) (ri fileName : Str) (md : Metadata) (fileTxt : Str)
    (lines : List Str) : Option DocSt :=
  (List.range lines.length).foldlM (getDocStep si ri fileName md fileTxt lines) docSt0

/-- Python `re.sub(r"^(.(.*))", r"\1", category_desc, flags=re.MULTILINE)`:
each nonempty line is matched whole and replaced by its own group 1, so
the text is rebuilt unchanged from its lines. -/
def catDescSub (s : Str) : Str := joinSep [ '\n' ] (linesOf s)

/-- The final category pass of `get_doc`: `Ignore` is skipped; other
categories (except `Constructor`) get a heading and optional description;
the functions collected under the category are appended, `none` modelling
the `KeyError` when the category never received one. -/
def finalCatFold (fbc : List (Str × List Str)) (cats : List (Str × CategoryMeta))
    (acc : Str) : Option Str :=
  cats.foldlM (fun d c =>
    if c.1 = "Ignore".data then some d
    else
      let d1 :=
        if c.1 = "Constructor".data then d
        else
          d ++ "### ".data ++ c.1 ++ "\n\n".data ++
            (if c.2.description.isEmpty then []
             else catDescSub c.2.description ++ "\n\n".data)
      match aGet? fbc c.1 with
      | none => none
      | some fns => some (fns.foldl (fun a f => a ++ f) d1 ++ "***\n\n".data)) acc

/-- One line of the import-prefix rewrite
`re.sub(r"(`from (.*?)\.)(.*)$", "`" + import_prefix + ".\\3", doc, re.MULTILINE)`:
at the first backtick-`from` with a dot later on the line, everything from
the backtick is replaced by the new prefix and the text after the first
dot. -/
def ipSubLine (ipfx : Str) : Str → Str
  | [] => []
  | c :: t =>
    if hasPre "`from ".data (c :: t) then
      match findIdxSub [ '.' ] ((c :: t).drop 6) with
      | some d => [ '`' ] ++ ipfx ++ [ '.' ] ++ (c :: t).drop (6 + d + 1)
      | none => c :: ipSubLine ipfx t
    else c :: ipSubLine ipfx t

/-- The import-prefix rewrite over a whole document (matches never span
lines and consume through the end of their line). -/
def ipSub (ipfx doc : Str) : Str :=
  joinSep [ '\n' ] ((linesOf doc).map (ipSubLine ipfx))

/-- `PyMdDoc._get_doc_with_import_prefix(doc, import_prefix)`. -/
def getDocWithImportPfx (doc : Str) (ipfx : Option Str) : Str :=
  match ipfx with
  | none => doc
  | some p => ipSub p doc

/-- `PyMdDoc.get_doc(file, import_prefix)`, parameterised by the
constructor state (`special_imports`, `root_import_name`, metadata), the
file name and the file text; returns the document together with the
warnings printed along the way; `none` models any uncaught exception. -/
def getDoc (si : List Str) (ri fileName : Str) (md : Metadata) (fileTxt : Str)
    (ipfx : Option Str) : Option (Str × List Str) := do
  let lines := linesOf fileTxt
  let st ← getDocLoop si ri fileName md fileTxt lines
  let d1 ←
    match aGet? md st.class_name with
    | none => some st.doc
    | some cats => finalCatFold st.fbc cats st.doc
  let toc ← getDocToc d1
  let d2 := pyReplace d1 "[TOC]".data toc
  pure (getDocWithImportPfx d2 ipfx, st.warnings)

/-! ## `py_md_doc.py`: `get_docs_with_inheritance` -/

/-- Worker of `re.findall(r"@<decor>\n\s+def (.*?)\(", py, re.MULTILINE)`
(used with `@abstractmethod` and `@final`): after the decorator line a
nonempty whitespace run, `def `, and the lazy group up to the first `(`
of the line; scanning resumes after each match. -/
def decorDefsFindall (lit : Str) : Nat → Str → List Str
  | 0, _ => []
  | fuel + 1, s =>
    match
      (if hasPre lit s then
        let r := s.drop lit.length
        let w := r.takeWhile pyIsSpace
        if !w.isEmpty && hasPre "def ".data (r.drop w.length) then
          let rest := r.drop (w.length + 4)
          let line := rest.takeWhile (fun c => c ≠ '\n')
          (findIdxSub [ '(' ] line).map (fun p => (line.take p, lit.length + w.length + 4 + p + 1))
        else none
       else none) with
    | some (g, adv) =>
      g :: decorDefsFindall lit fuel (s.drop adv)
    | none =>
      match s with
      | [] => []
      | _ :: t => decorDefsFindall lit fuel t

/-- `re.findall(r"@abstractmethod\n\s+def (.*?)\(", py, re.MULTILINE)` or
the `@final` variant. -/
def findallDecorDefs (lit py : Str) : List Str :=
  decorDefsFindall lit (py.length + 1) py

/-- Group 0 of `re.search(r"## Class Variables\n((.|\n)*?)\*", doc)`: from
the first header occurrence through the first following star. -/
def searchCvStar (doc : Str) : Option Str :=
  match findIdxSub "## Class Variables\n".data doc with
  | none => none
  | some i =>
    let rest := doc.drop (i + 19)
    match findIdxSub [ '*' ] rest with
    | none => none
    | some s => some ("## Class Variables\n".data ++ rest.take (s + 1))

/-- Inner structure check of a candidate table row: the text between the
leading pipe-backtick and the trailing ` |` must split as
`g2 ++ backtick-pipe ++ g3 ++ pipe ++ g4`, i.e. contain a ``` ` | ```
with a further ` | ` after it (the greedy groups backtrack over the
candidate positions). -/
def rowMidOk (mid : Str) : Bool :=
  (List.range (mid.length + 1)).any (fun k =>
    hasPre "` | ".data (mid.drop k) && subIn " | ".data (mid.drop (k + 4)))

/-- Try one line against
`r"(\| `(.*)` \| (.*) \| (.*) \|$)"`: the leftmost start with the literal
backtick-pipe structure; the match runs to the end of the line, so group 1
is the line from that start. -/
def rowTry : Str → Option Str
  | [] => none
  | c :: t =>
    if hasPre "| `".data (c :: t) && pyEndsWith " |".data (c :: t) &&
        rowMidOk (dropEnd 2 ((c :: t).drop 3)) then
      some (c :: t)
    else rowTry t

/-- `re.findall(r"(\| `(.*)` \| (.*) \| (.*) \|$)", s, re.MULTILINE)`
keeping group 1: at most one match per line (a match consumes through the
end of its line). -/
def rowsFindall (s : Str) : List Str :=
  (linesOf s).filterMap rowTry

/-- Group 0 of `re.search(r"## Fields\n((.|\n)*?)(#|\Z)", doc)`: from the
first header occurrence through the first following hash, or to the end
of the document. -/
def searchFieldsHash (doc : Str) : Option Str :=
  match findIdxSub "## Fields\n".data doc with
  | none => none
  | some i =>
    let rest := doc.drop (i + 10)
    match findIdxSub [ '#' ] rest with
    | none => some (doc.drop i)
    | some h => some ("## Fields\n".data ++ rest.take (h + 1))

/-- Try one line against `r"(- `(.*?)`(.*)$)"`: the leftmost `- \`` with a
later backtick; the match runs to the end of the line. -/
def dashTry : Str → Option Str
  | [] => none
  | c :: t =>
    if hasPre "- `".data (c :: t) && ((c :: t).drop 3).any (fun d => d = '`') then
      some (c :: t)
    else dashTry t

/-- `re.findall(r"(- `(.*?)`(.*)$)", s, re.MULTILINE)` keeping group 1. -/
def dashFindall (s : Str) : List Str :=
  (linesOf s).filterMap dashTry

/-- Worker of `re.findall(r"#### (.*)", s, re.MULTILINE)` (no `^` anchor:
any occurrence, group to the end of its line, scanning resumes at the
newline). -/
def h4AnyFindall : Nat → Str → List Str
  | 0, _ => []
  | fuel + 1, s =>
    match findIdxSub h4sp s with
    | none => []
    | some i =>
      let rest := s.drop (i + 5)
      let g := rest.takeWhile (fun c => c ≠ '\n')
      g :: h4AnyFindall fuel (rest.drop g.length)

/-- `re.findall(r"#### (.*)", s, re.MULTILINE)`. -/
def findallH4Any (s : Str) : List Str := h4AnyFindall (s.length + 1) s

/-- Worker of `re.findall("#### (.*)\n", s)`: like the previous one but
the match must include the newline. -/
def h4NlFindall : Nat → Str → List Str
  | 0, _ => []
  | fuel + 1, s =>
    match findIdxSub h4sp s with
    | none => []
    | some i =>
      let rest := s.drop (i + 5)
      let g := rest.takeWhile (fun c => c ≠ '\n')
      if (rest.drop g.length).isEmpty then []
      else g :: h4NlFindall fuel (rest.drop (g.length + 1))

/-- `re.findall("#### (.*)\n", child_doc, re.MULTILINE)`. -/
def findallH4Nl (s : Str) : List Str := h4NlFindall (s.length + 1) s

/-- Group 0 of `re.search(f"(#### {f}((.|\n)*?))(#|\Z)", s, re.MULTILINE)`
for an interpreted function name: from the first occurrence of the
heading literal through the first following hash, or to the end. -/
def blockSearch (f s : Str) : Option Str :=
  let lit := h4sp ++ interpName f
  match findIdxSub lit s with
  | none => none
  | some i =>
    let rest := s.drop (i + lit.length)
    match findIdxSub [ '#' ] rest with
    | some h => some (lit ++ rest.take (h + 1))
    | none => some (s.drop i)

/-- `re.sub(f"(#### {f}((.|\n)*?))(#|\Z)", tmpl, s, re.MULTILINE)`: every
match is replaced by the expanded template (group 1 is the heading plus
lazy body, group 2 the body, group 3 the last body character, group 4 the
closing hash); scanning resumes after the consumed closing hash.  The
fuel is instantiated with the string length. -/
def blockSubAll (f tmpl : Str) : Nat → Str → Option Str
  | 0, s => some s
  | fuel + 1, s =>
    let lit := h4sp ++ interpName f
    match findIdxSub lit s with
    | none => some s
    | some i =>
      let rest := s.drop (i + lit.length)
      match findIdxSub [ '#' ] rest with
      | some h => do
        let g2 := rest.take h
        let e ← expandTemplate [lit ++ g2, g2, (g2.reverse.take 1).reverse, [ '#' ]] tmpl
        let tail ← blockSubAll f tmpl fuel (rest.drop (h + 1))
        pure (s.take i ++ e ++ tail)
      | none => do
        let g2 := rest
        let e ← expandTemplate [lit ++ g2, g2, (g2.reverse.take 1).reverse, []] tmpl
        pure (s.take i ++ e)

/-- One marker rewrite
`re.sub(f"(#### {name})(.*)", r"\1\n\n_(<mark>)_\2", doc, re.MULTILINE)`:
after each occurrence of the heading literal, the rest of the line is
kept after an inserted blank line and marker. -/
def markerSubAll (nm mid : Str) : Nat → Str → Str
  | 0, s => s
  | fuel + 1, s =>
    let lit := h4sp ++ interpName nm
    match findIdxSub lit s with
    | none => s
    | some i =>
      let rest := s.drop (i + lit.length)
      let g2 := rest.takeWhile (fun c => c ≠ '\n')
      s.take i ++ lit ++ "\n\n".data ++ mid ++ g2 ++
        markerSubAll nm mid fuel (rest.drop g2.length)

/-- One header fix
`re.sub(r"^### " + cf, f"#### {cf}", doc, re.MULTILINE)`: a line starting
with `### ` plus the interpreted name has that prefix replaced by `#### `
plus the raw name. -/
def h3Fix (cf : Str) (s : Str) : Str :=
  joinSep [ '\n' ] ((linesOf s).map (fun l =>
    let lit := "### ".data ++ interpName cf
    if hasPre lit l then h4sp ++ cf ++ l.drop lit.length else l))

/-- Presence test of
`re.search(r"## Fields\n((.|\n)*?)## Functions", child_doc)`. -/
def fieldsBeforeFns (doc : Str) : Bool :=
  match findIdxSub "## Fields\n".data doc with
  | none => false
  | some i => subIn fnHeaderLit (doc.drop (i + 10))

/-- Literal table head of the class-variables append step. -/
def cvTableLit : Str :=
  "## Class Variables\n\n| Variable | Type | Description |\n| --- | --- | --- |".data

/-- The class-variables append step of `get_docs_with_inheritance` for one
child document. -/
def inhCvStep (acv : List Str) (cd : Str) : Option Str :=
  if acv.length = 0 then some cd
  else
    match searchCvStar cd with
    | none =>
      let ccv := pyStrip (acv.foldl (fun a r => a ++ r ++ [ '\n' ])
        ("## Class Variables\n\n| Variable | Type | Description |\n| --- | --- | --- |\n".data))
      some (pyReplaceFirst stars3 ("***\n\n".data ++ ccv ++ "\n\n***".data) cd)
    | some _ =>
      let rows := joinSep [ '\n' ] acv
      (expandTemplate [cvTableLit] ("\\1\n".data ++ rows)).map (pyReplace cd cvTableLit)

/-- The fields append step of `get_docs_with_inheritance` for one child
document. -/
def inhFieldsStep (af : List Str) (cd : Str) : Option Str :=
  if af.length = 0 then some cd
  else if !fieldsBeforeFns cd then
    let child_fields := "## Fields\n\n".data ++ joinSep "\n\n".data af
    if subIn cvHeaderLit cd then
      (expandTemplate ["|\n\n***\n\n".data]
        ("\\1".data ++ child_fields ++ "\n\n***\n\n".data)).map
        (pyReplace cd "|\n\n***\n\n".data)
    else
      (expandTemplate ["***\n\n".data]
        ("\\1".data ++ child_fields ++ "\n\n***\n\n".data)).map
        (pyReplace cd "***\n\n".data)
  else
    some (pyReplace cd fieldsHeaderLit ("## Fields\n\n".data ++ joinSep "\n\n".data af))

/-- The per-function merge step of `get_docs_with_inheritance`: trim a
trailing `\n\n#` from the abstract block; when the child already shows the
heading, substitute the block pattern everywhere, else append; then the
two heading-size repairs for this name. -/
def inhFnStep (overwrite : Bool) (child_functions : List Str) (cd : Str) (fq : Str × Str) :
    Option Str :=
  if child_functions.any (fun g => g = fq.1) && !overwrite then some cd
  else do
    let q := fq.2
    let cd1 ←
      if subIn (h4sp ++ fq.1) cd then
        let q1 := if pyEndsWith "\n\n#".data q then dropEnd 3 q else q
        let q2 := if !pyEndsWith "\n\n".data q1 then q1 ++ "\n\n".data else q1
        blockSubAll fq.1 q2 (cd.length + 1) cd
      else
        let q1 := if pyEndsWith "\n\n#".data q then dropEnd 3 q else q
        let cdA := if !pyEndsWith [ '\n' ] cd then cd ++ "\n\n".data else cd
        some (cdA ++ q1 ++ "\n\n".data)
    let cd2 := pyReplace cd1 ("### ".data ++ fq.1) (h4sp ++ fq.1)
    pure (pyReplace cd2 ("##### ".data ++ fq.1) (h4sp ++ fq.1))

/-- The whole per-child transformation of `get_docs_with_inheritance`. -/
def inhChild (si : List Str) (ri : Str) (md : Metadata) (acv af : List Str)
    (afns : Entries) (overwrite : Bool) (docs : Entries) (child : Str × Str) :
    Option Entries := do
  let final_defs := findallDecorDefs "@final\n".data child.2
  let (cd0, _) ← getDoc si ri child.1 md child.2 none
  let child_functions := findallH4Nl cd0
  let cd1 ← inhCvStep acv cd0
  let cd2 ← inhFieldsStep af cd1
  let cd3 ←
    if afns.length = 0 then some cd2
    else
      let cdA := if !subIn fnHeaderLit cd2 then cd2 ++ "## Functions\n\n".data else cd2
      afns.foldlM (inhFnStep overwrite child_functions) cdA
  let cd4 := final_defs.foldl (fun cd fd => markerSubAll fd "_(Final)_".data (cd.length + 1) cd) cd3
  let cd5 := child_functions.foldl (fun cd cf => h3Fix cf cd) cd4
  pure (dSet docs (dropEnd 3 child.1) cd5)

/-- `PyMdDoc.get_docs_with_inheritance(abstract_class_path,
child_class_paths, import_prefix, overwrite_child_functions)`,
parameterised by the constructor state and by the file names and texts;
returns the documentation dictionary; `none` models any uncaught
exception (notably the `AttributeError` raised while building the
abstract-functions dictionary when an interpreted heading pattern fails to
re-match the rendered document). -/
def getDocsWithInheritance (si : List Str) (ri : Str) (md : Metadata)
    (abstractName abstractPy : Str) (children : List (Str × Str))
    (ipfx : Option Str) (overwrite : Bool) : Option Entries := do
  let abstract_defs := findallDecorDefs "@abstractmethod\n".data abstractPy
  let (adoc, _) ← getDoc si ri abstractName md abstractPy none
  let acv :=
    match searchCvStar adoc with
    | none => []
    | some g0 => rowsFindall g0
  let af :=
    match searchFieldsHash adoc with
    | none => []
    | some g0 => dashFindall g0
  let afns ←
    match findIdxSub "## Functions\n".data adoc with
    | none => pure ([] : Entries)
    | some i =>
      let g0 := adoc.drop i
      let names := (findallH4Any g0).filter (fun f => f ≠ escInit)
      names.foldlM (fun acc f => (blockSearch f g0).map (dSet acc f)) ([] : Entries)
  let docs ← children.foldlM (inhChild si ri md acv af afns overwrite) ([] : Entries)
  let amarked := abstract_defs.foldl
    (fun d ad => markerSubAll ad "_(Abstract)_".data (d.length + 1) d) adoc
  let docs2 := dSet docs (dropEnd 3 abstractName) amarked
  pure (match ipfx with
        | none => docs2
        | some p => docs2.map (fun e => (e.1, ipSub p e.2)))

/-! ## Concrete inputs for the `py_md_doc.py` claims -/

/-- C4 counterexample source: `f` has no docstring and is followed by `g`
whose docstring the scan reads. -/
def cx4Txt : Str :=
  "class Foo:\n    \"\"\"\n    Doc.\n    \"\"\"\n\n    def f(self) -> None:\n        return\n\n    def g(self) -> None:\n        \"\"\"\n        Doc of g.\n        \"\"\"\n\n        return".data

/-- C4 counterexample source with an unterminated docstring on `f`. -/
def cx4bTxt : Str :=
  "class Foo:\n    \"\"\"\n    Doc.\n    \"\"\"\n\n    def f(self) -> None:\n        \"\"\"\n        Start of doc\n        more text".data

/-- C5 counterexample source: the private function `_hidden` has the
string `__init__` inside its default value, so the exclusion test misses
it. -/
def cx5Txt : Str :=
  "class Foo:\n    \"\"\"\n    Doc.\n    \"\"\"\n\n    def _hidden(self, x=\"__init__\"):\n        \"\"\"\n        Secret.\n\n        :param x: X.\n        \"\"\"\n\n        return\n".data

/-- C6 counterexample source: `go` is documented but uncategorized. -/
def cx6Txt : Str :=
  "class Foo:\n    \"\"\"\n    Doc.\n    \"\"\"\n\n    def go(self, x: int) -> None:\n        \"\"\"\n        Goes.\n\n        :param x: X.\n        \"\"\"\n\n        return\n".data

/-- C6 counterexample metadata: the class has one category whose function
list never matches, so the final pass raises `KeyError`. -/
def cx6Md : Metadata :=
  [("Foo".data, [("Main".data, ⟨"Main stuff.".data, ["other".data]⟩)])]

/-- C6 witness source: `go` is uncategorized, `ok` is categorized, so the
final pass succeeds. -/
def wit6Txt : Str :=
  "class A:\n    \"\"\"\n    D.\n    \"\"\"\n\n    def go(self) -> None:\n        \"\"\"\n        G.\n        \"\"\"\n\n        return\n\n    def ok(self) -> None:\n        \"\"\"\n        K.\n        \"\"\"\n\n        return\n".data

/-- C6 witness metadata. -/
def wit6Md : Metadata :=
  [("A".data, [("M".data, ⟨[], ["ok".data]⟩)])]

/-- C6 witness: the `get_doc` state reached after the five lines before
the `go` declaration of `wit6Txt`. -/
def w6St : DocSt :=
  ⟨"# A\n\n`from mod.a import A`\n\nD.\n\n***\n\n".data, "A".data, [], false, []⟩

/-- C6 witness: the `get_doc` state after the whole line loop of
`wit6Txt`. -/
def w6StF : DocSt :=
  ⟨"# A\n\n`from mod.a import A`\n\nD.\n\n***\n\n#### go\n\n**`self.go()`**\n\nG.\n\n".data,
   "A".data, [("M".data, ["#### ok\n\n**`self.ok()`**\n\nK.\n\n".data])], false,
   ["Warning: Uncategorized function A.go()".data]⟩

/-- C6 witness: the final document rendered from `wit6Txt`. -/
def w6D1 : Str :=
  "# A\n\n`from mod.a import A`\n\nD.\n\n***\n\n#### go\n\n**`self.go()`**\n\nG.\n\n### M\n\n#### ok\n\n**`self.ok()`**\n\nK.\n\n***\n\n".data

/-- C9 witness source: a static `do` and a non-static `go`, each with one
parameter `x` without a default. -/
def wit9Txt : Str :=
  "class Foo:\n    \"\"\"\n    Doc.\n    \"\"\"\n\n    @staticmethod\n    def do(x: int) -> None:\n        \"\"\"\n        Does it.\n\n        :param x: X.\n        \"\"\"\n\n        return\n\n    def go(self, x: int) -> None:\n        \"\"\"\n        Goes.\n\n        :param x: X.\n        \"\"\"\n\n        return".data

/-- C10 source builder: both C10 classes share this shape (a constructor
plus one further documented function). -/
def cx10Mk (cls fname body : Str) : Str :=
  "class ".data ++ cls ++ ":\n    \"\"\"\n    ".data ++ cls ++
  " doc.\n    \"\"\"\n\n    def __init__(self):\n        \"\"\"\n        Make it.\n        \"\"\"\n\n        return\n\n    def ".data ++
  fname ++ "(self) -> None:\n        \"\"\"\n        ".data ++ body ++
  "\n        \"\"\"\n\n        return\n".data

/-- C10 counterexample abstract class: the shared function name contains a
double underscore. -/
def cx10Abs : Str := cx10Mk "Base".data "do__thing".data "Abstract version.".data

/-- C10 counterexample child class. -/
def cx10Kid : Str := cx10Mk "Kid".data "do__thing".data "Child version.".data

/-- C10 witness abstract class (escape-free function name). -/
def wit10Abs : Str := cx10Mk "Base".data "dothing".data "Abstract version.".data

/-- C10 witness child class. -/
def wit10Kid : Str := cx10Mk "Kid".data "dothing".data "Child version.".data

/-- Rendered document of the C10 witness abstract class. -/
def w10adoc : Str :=
  "# Base\n\n`from mod.base import Base`\n\nBase doc.\n\n***\n\n## Functions\n\n#### \\_\\_init\\_\\_\n\n**`Base()`**\n\nMake it.\n\n#### dothing\n\n**`self.dothing()`**\n\nAbstract version.\n\n".data

/-- Rendered document of the C10 witness child class. -/
def w10cdoc : Str :=
  "# Kid\n\n`from mod.kid import Kid`\n\nKid doc.\n\n***\n\n## Functions\n\n#### \\_\\_init\\_\\_\n\n**`Kid()`**\n\nMake it.\n\n#### dothing\n\n**`self.dothing()`**\n\nChild version.\n\n".data

/-- The abstract class's block for the shared name in the C10 witness. -/
def w10q : Str :=
  "#### dothing\n\n**`self.dothing()`**\n\nAbstract version.\n\n".data

/-- The merged C10 witness child document: the abstract block replaces the
child's own block. -/
def w10cs : Str :=
  "# Kid\n\n`from mod.kid import Kid`\n\nKid doc.\n\n***\n\n## Functions\n\n#### \\_\\_init\\_\\_\n\n**`Kid()`**\n\nMake it.\n\n#### dothing\n\n**`self.dothing()`**\n\nAbstract version.\n\n".data

/-! ## Supporting lemmas -/

theorem interNew_nil_eq : ∀ s : Str, interNew [] s = s
  | [] => rfl
  | c :: t => by simp [interNew, interNew_nil_eq t]

theorem mem_repAllFuel_nil (old : Str) :
    ∀ fuel s, ∀ c : Char, c ∈ repAllFuel old [] fuel s → c ∈ s := by
  intro fuel
  induction fuel with
  | zero => intro s c h; simp only [repAllFuel] at h; exact h
  | succ n ih =>
    intro s c h
    cases s with
    | nil => simp only [repAllFuel] at h; exact h
    | cons a t =>
      by_cases hp : hasPre old (a :: t) = true
      · simp only [repAllFuel, hp, if_pos, List.nil_append] at h
        exact (a :: t).drop_subset old.length (ih _ _ h)
      · simp only [repAllFuel, hp] at h
        rcases List.mem_cons.mp h with h | h
        · simp [h]
        · exact List.mem_cons_of_mem _ (ih _ _ h)

theorem mem_pyReplace_nil (s old : Str) (c : Char) (h : c ∈ pyReplace s old []) : c ∈ s := by
  unfold pyReplace at h
  by_cases he : old.isEmpty
  · rwa [if_pos he, interNew_nil_eq] at h
  · rw [if_neg he] at h
    exact mem_repAllFuel_nil old s.length s c h

theorem searchLitLazyDelim_eq_none (lit : Str) (delim : Char → Bool) :
    ∀ s, subIn lit s = false → searchLitLazyDelim lit delim s = none := by
  intro s
  induction s with
  | nil => intro h; rfl
  | cons c t ih =>
    intro h
    have h' : hasPre lit (c :: t) = false ∧ subIn lit t = false := by
      simp only [subIn, Bool.or_eq_false_iff] at h
      exact h
    simp [searchLitLazyDelim, h'.1, ih h'.2]

theorem defaultTail_eq_none (s : Str) (h : ∀ c ∈ s, ¬ c = '=') : defaultTail s = none := by
  unfold defaultTail
  split
  · exact absurd rfl (h '=' (by simp))
  · exact absurd rfl (h '=' (by simp))
  · rfl

theorem searchDefault_eq_none (name : Str) :
    ∀ s, (∀ c ∈ s, ¬ c = '=') → searchDefault name s = none := by
  intro s
  induction s with
  | nil => intro _; rfl
  | cons c t ih =>
    intro h
    have ht : ∀ x ∈ t, ¬ x = '=' := fun x hx => h x (List.mem_cons_of_mem _ hx)
    have hd : defaultTail ((c :: t).drop name.length) = none := by
      refine defaultTail_eq_none _ (fun x hx => ?_)
      exact h x ((c :: t).drop_subset name.length hx)
    by_cases hp : hasPre name (c :: t) = true
    · simp [searchDefault, hp, hd, ih ht]
    · simp [searchDefault, hp, ih ht]

theorem hasPre_append_self : ∀ x r : Str, hasPre x (x ++ r) = true
  | [], _ => rfl
  | c :: t, r => by simp [hasPre, hasPre_append_self t r]

theorem hasPre_append_right : ∀ x s t : Str, hasPre x s = true → hasPre x (s ++ t) = true
  | [], _, _, _ => rfl
  | c :: x', [], t, h => by simp [hasPre] at h
  | c :: x', d :: s', t, h => by
    simp only [hasPre] at h ⊢
    by_cases hc : c = d
    · simp only [hc, if_pos rfl] at h ⊢
      exact hasPre_append_right x' s' t h
    · simp [hc] at h

theorem subIn_of_hasPre (x s : Str) (h : hasPre x s = true) : subIn x s = true := by
  cases s with
  | nil => simp [subIn, h]
  | cons c t => simp [subIn, h]

theorem subIn_append_self (x r : Str) : subIn x (x ++ r) = true :=
  subIn_of_hasPre _ _ (hasPre_append_self x r)

theorem subIn_append_left (x t : Str) : ∀ s : Str, subIn x t = true → subIn x (s ++ t) = true := by
  intro s h
  induction s with
  | nil => exact h
  | cons c s' ih => simp [subIn, ih]

theorem subIn_append_right (x : Str) : ∀ s t : Str, subIn x s = true → subIn x (s ++ t) = true := by
  intro s t h
  induction s with
  | nil =>
    simp only [subIn] at h
    exact subIn_of_hasPre _ _ (hasPre_append_right _ _ _ h)
  | cons c s' ih =>
    simp only [subIn, Bool.or_eq_true] at h
    rcases h with h | h
    · exact subIn_of_hasPre _ _ (hasPre_append_right _ _ _ h)
    · simp [subIn, ih h]

theorem repAllFuel_no_occ (old new : Str) :
    ∀ fuel s, subIn old s = false → repAllFuel old new fuel s = s := by
  intro fuel
  induction fuel with
  | zero => intro s _; rfl
  | succ n ih =>
    intro s h
    cases s with
    | nil => rfl
    | cons c t =>
      simp only [subIn, Bool.or_eq_false_iff] at h
      simp [repAllFuel, h.1, ih t h.2]

theorem pyReplace_no_occ (s old new : Str) (hne : old ≠ []) (h : subIn old s = false) :
    pyReplace s old new = s := by
  unfold pyReplace
  rw [if_neg (by simpa using hne)]
  exact repAllFuel_no_occ old new s.length s h

/-! ### Dictionary lemmas -/

theorem dGet?_dSet_self (k v : Str) : ∀ d : Entries, dGet? (dSet d k v) k = some v := by
  intro d
  induction d with
  | nil => simp [dSet, dGet?]
  | cons e t ih =>
    by_cases he : e.1 = k
    · simp [dSet, he, dGet?]
    · simp [dSet, he, dGet?, ih]

theorem dGet?_dSet_ne (k v q : Str) (hq : q ≠ k) :
    ∀ d : Entries, dGet? (dSet d k v) q = dGet? d q := by
  intro d
  have hkq : ¬ k = q := fun h => hq h.symm
  induction d with
  | nil => simp [dSet, dGet?, hkq]
  | cons e t ih =>
    by_cases he : e.1 = k
    · simp [dSet, he, dGet?, hkq]
    · by_cases heq : e.1 = q
      · simp [dSet, he, dGet?, heq, hq]
      · simp [dSet, he, dGet?, heq, ih]

theorem dGet?_mem (k v : Str) : ∀ d : Entries, dGet? d k = some v → (k, v) ∈ d := by
  intro d
  induction d with
  | nil => intro h; simp [dGet?] at h
  | cons e t ih =>
    intro h
    simp only [dGet?] at h
    split at h
    · rename_i he
      injection h with hv
      have hkv : (k, v) = e := by
        obtain ⟨a, b⟩ := e
        simp only at he hv
        simp [he, hv]
      exact hkv ▸ List.mem_cons_self _ _
    · exact List.mem_cons_of_mem _ (ih h)

theorem dHas_iff_mem_dKeys (k : Str) (d : Entries) : dHas d k = true ↔ k ∈ dKeys d := by
  simp [dHas, dKeys, List.any_eq_true, List.mem_map]

theorem dKeys_dSet_mem (k v : Str) :
    ∀ d : Entries, dHas d k = true → dKeys (dSet d k v) = dKeys d := by
  intro d
  induction d with
  | nil => intro h; simp [dHas] at h
  | cons e t ih =>
    intro h
    by_cases he : e.1 = k
    · simp [dSet, he, dKeys]
    · have ht : dHas t k = true := by
        simp only [dHas, List.any_cons, Bool.or_eq_true, decide_eq_true_eq] at h
        rcases h with h | h
        · exact absurd h he
        · simp [dHas, h]
      have ih' := ih ht
      simp only [dKeys] at ih'
      simp [dSet, he, dKeys, ih']

theorem dKeys_dSet_not_mem (k v : Str) :
    ∀ d : Entries, dHas d k = false → dKeys (dSet d k v) = dKeys d ++ [k] := by
  intro d
  induction d with
  | nil => intro _; simp [dSet, dKeys]
  | cons e t ih =>
    intro h
    simp only [dHas, List.any_cons, Bool.or_eq_false_iff, decide_eq_false_iff_not] at h
    have ht : dHas t k = false := h.2
    have ih' := ih ht
    simp only [dKeys] at ih'
    simp [dSet, h.1, dKeys, ih']

/-! ### The lexicographic order used by `sorted` -/

theorem strLt_asymm : ∀ a b : Str, strLt a b = true → strLt b a = false
  | [], [], h => by simp [strLt] at h
  | [], _ :: _, _ => rfl
  | _ :: _, [], h => by simp [strLt] at h
  | a :: as, b :: bs, h => by
    simp only [strLt] at h ⊢
    by_cases hab : a = b
    · subst hab
      simp only [if_pos rfl] at h ⊢
      exact strLt_asymm as bs h
    · have hba : ¬ b = a := fun q => hab q.symm
      rw [if_neg hab] at h
      rw [if_neg hba]
      simp only [decide_eq_true_eq] at h
      simp only [decide_eq_false_iff_not]
      exact lt_asymm h

theorem strLt_trans : ∀ a b c : Str, strLt a b = true → strLt b c = true → strLt a c = true
  | [], b, c, h1, h2 => by
    cases b with
    | nil => simp [strLt] at h1
    | cons x xs =>
      cases c with
      | nil => simp [strLt] at h2
      | cons y ys => rfl
  | a :: as, b, c, h1, h2 => by
    cases b with
    | nil => simp [strLt] at h1
    | cons x xs =>
      cases c with
      | nil => simp [strLt] at h2
      | cons y ys =>
        simp only [strLt] at h1 h2 ⊢
        by_cases hax : a = x
        · subst hax
          simp only [if_pos rfl] at h1
          by_cases hay : a = y
          · subst hay
            simp only [if_pos rfl] at h2 ⊢
            exact strLt_trans as xs ys h1 h2
          · simp only [if_neg hay] at h2 ⊢
            exact h2
        · simp only [if_neg hax, decide_eq_true_eq] at h1
          by_cases hxy : x = y
          · subst hxy
            simp only [if_neg hax, decide_eq_true_eq]
            exact h1
          · simp only [if_neg hxy, decide_eq_true_eq] at h2
            have haylt : a < y := lt_trans h1 h2
            have hay : ¬ a = y := ne_of_lt haylt
            simp only [if_neg hay, decide_eq_true_eq]
            exact haylt

theorem strLt_connex : ∀ a b : Str, strLt a b = false → a = b ∨ strLt b a = true
  | [], [], _ => Or.inl rfl
  | [], _ :: _, h => by simp [strLt] at h
  | _ :: _, [], _ => Or.inr rfl
  | a :: as, b :: bs, h => by
    simp only [strLt] at h ⊢
    by_cases hab : a = b
    · subst hab
      simp only [if_pos rfl] at h ⊢
      rcases strLt_connex as bs h with h' | h'
      · exact Or.inl (by rw [h'])
      · exact Or.inr h'
    · have hba : ¬ b = a := fun q => hab q.symm
      rw [if_neg hab] at h
      rw [if_neg hba]
      simp only [decide_eq_false_iff_not] at h
      simp only [decide_eq_true_eq]
      exact Or.inr (lt_of_le_of_ne (not_lt.mp h) hba)

instance : IsTotal Str (fun a b => strLe a b = true) := by
  constructor
  intro a b
  by_cases h : strLt b a = true
  · right
    unfold strLe
    rw [strLt_asymm b a h]
    rfl
  · left
    unfold strLe
    rw [Bool.not_eq_true] at h
    rw [h]
    rfl

instance : IsTrans Str (fun a b => strLe a b = true) := by
  constructor
  intro a b c hab hbc
  unfold strLe at hab hbc ⊢
  rw [Bool.not_eq_true'] at hab hbc ⊢
  by_contra hca
  rw [Bool.not_eq_false] at hca
  rcases strLt_connex c b hbc with h | h
  · subst h
    rw [hca] at hab
    exact Bool.true_eq_false.mp hab
  · have := strLt_trans b c a h hca
    rw [this] at hab
    exact Bool.true_eq_false.mp hab

/-! ### Fold lemmas for the merged functions dictionary -/

theorem childFold_preserve (name : Str) :
    ∀ (blocks : List (Str × Str)) (d d' : Entries),
      List.foldlM childFnStep d blocks = some d' →
      (∀ fb ∈ blocks, fb.1 ≠ name) →
      dGet? d' name = dGet? d name := by
  intro blocks
  induction blocks with
  | nil =>
    intro d d' h _
    simp only [List.foldlM_nil, pure] at h
    injection h with h
    rw [h]
  | cons fb rest ih =>
    intro d d' h hni
    rw [List.foldlM_cons] at h
    rcases Option.bind_eq_some.mp h with ⟨d1, hstep, hrest⟩
    have hne : fb.1 ≠ name := hni fb (List.mem_cons_self _ _)
    have h1 : dGet? d1 name = dGet? d name := by
      unfold childFnStep at hstep
      split at hstep
      · simp at hstep
      · rename_i last hlast
        by_cases hstar : last = '*'
        · rw [if_pos hstar] at hstep
          injection hstep with hd1
          rw [← hd1]
        · rw [if_neg hstar] at hstep
          injection hstep with hd1
          rw [← hd1]
          exact dGet?_dSet_ne _ _ _ (Ne.symm hne) d
    rw [ih d1 d' hrest (fun x hx => hni x (List.mem_cons_of_mem _ hx)), h1]

theorem childFold_sets (name body : Str) :
    ∀ (blocks : List (Str × Str)) (d d' : Entries),
      List.foldlM childFnStep d blocks = some d' →
      blocks.filter (fun fb => decide (fb.1 = name)) = [(name, body)] →
      (pyStrip body).getLast? ≠ some '*' →
      dGet? d' name = some (pyStrip body) := by
  intro blocks
  induction blocks with
  | nil => intro d d' _ hf _; simp at hf
  | cons fb rest ih =>
    intro d d' h hf hstar
    rw [List.foldlM_cons] at h
    rcases Option.bind_eq_some.mp h with ⟨d1, hstep, hrest⟩
    by_cases hfb : fb.1 = name
    · have hfil : fb :: rest.filter (fun fb => decide (fb.1 = name)) = [(name, body)] := by
        rw [← hf]
        simp [List.filter_cons, hfb]
      have hfbe : fb = (name, body) := by injection hfil
      have hrest_nil : rest.filter (fun fb => decide (fb.1 = name)) = [] := by
        have := hfil
        injection this with _ h2
      have hnone : ∀ x ∈ rest, x.1 ≠ name := by
        intro x hx hc
        have hm : x ∈ rest.filter (fun fb => decide (fb.1 = name)) :=
          List.mem_filter.mpr ⟨hx, by simp [hc]⟩
        rw [hrest_nil] at hm
        simp at hm
      subst hfbe
      unfold childFnStep at hstep
      split at hstep
      · simp at hstep
      · rename_i last hlast
        simp only at hlast
        have hlne : ¬ last = '*' := by
          intro hco
          rw [hco] at hlast
          exact hstar hlast
        rw [if_neg hlne] at hstep
        injection hstep with hd1
        rw [childFold_preserve name rest d1 d' hrest hnone, ← hd1]
        exact dGet?_dSet_self _ _ _
    · have hf' : rest.filter (fun fb => decide (fb.1 = name)) = [(name, body)] := by
        rw [← hf]
        simp [List.filter_cons, hfb]
      exact ih d1 d' hrest hf' hstar

/-! ### Single-match reductions for the `re.sub` models -/

theorem subAllFnSecE_no_match (repl s' : Str) (h : scanLS tryFnSec false s' = none) :
    ∀ fuel, subAllFnSecE repl fuel false s' = some s' := by
  intro fuel
  cases fuel with
  | zero => rfl
  | succ k => simp [subAllFnSecE, h]

theorem subAllFnSecE_single (repl s e : Str) (n : Nat) (q : Str × Bool × Str)
    (hscan : scanLS tryFnSec true s = some (n, q))
    (htmpl : expandTemplate [q.1] repl = some e)
    (hnomore : scanLS tryFnSec false q.2.2 = none) :
    subAllFnSecE repl (s.length + 1) true s = some (s.take n ++ e ++ q.2.2) := by
  simp [subAllFnSecE, hscan, htmpl, subAllFnSecE_no_match repl _ hnomore]

theorem subAllCvE_no_match (repl s' : Str) (h : scanLS tryCv false s' = none) :
    ∀ fuel, subAllCvE repl fuel false s' = some s' := by
  intro fuel
  cases fuel with
  | zero => rfl
  | succ k => simp [subAllCvE, h]

theorem subAllCvE_single (repl s e : Str) (n : Nat) (b : CvBody)
    (hscan : scanLS tryCv true s = some (n, b))
    (htmpl : expandTemplate [b.lineA, b.lineB, b.g3] repl = some e)
    (hnomore : scanLS tryCv false b.rest = none) :
    subAllCvE repl (s.length + 1) true s = some (s.take n ++ e ++ b.rest) := by
  simp [subAllCvE, hscan, htmpl, subAllCvE_no_match repl _ hnomore]

/-! ### Containment in the rendered functions text -/

theorem subIn_self (x : Str) : subIn x x = true := by
  have h := subIn_append_self x []
  simpa using h

theorem subIn_cons (x : Str) (c : Char) (t : Str) (h : subIn x t = true) :
    subIn x (c :: t) = true := by
  simp [subIn, h]

theorem subIn_append_left' (x : Str) : ∀ s t : Str, subIn x t = true → subIn x (s ++ t) = true := by
  intro s t h
  induction s with
  | nil => exact h
  | cons c s' ih => exact subIn_cons _ _ _ ih

theorem subIn_functionTextOf (e : Str × Str) :
    ∀ fns : Entries, e ∈ fns →
      subIn (h4sp ++ e.1 ++ "\n\n".data ++ e.2) (functionTextOf fns) = true := by
  intro fns
  induction fns with
  | nil => intro h; simp at h
  | cons f rest ih =>
    intro h
    rcases List.mem_cons.mp h with h | h
    · subst h
      cases rest with
      | nil =>
        unfold functionTextOf
        simp only [List.map_cons, List.map_nil, joinSep]
        exact subIn_self _
      | cons g t =>
        unfold functionTextOf
        simp only [List.map_cons, joinSep]
        have base := subIn_append_self (h4sp ++ e.1 ++ "\n\n".data ++ e.2)
          ("\n\n".data ++ joinSep "\n\n".data
            ((h4sp ++ g.1 ++ "\n\n".data ++ g.2) ::
              List.map (fun e => h4sp ++ e.1 ++ "\n\n".data ++ e.2) t))
        simpa [List.append_assoc] using base
    · cases rest with
      | nil => simp at h
      | cons g t =>
        have ihg := ih h
        unfold functionTextOf at ihg ⊢
        simp only [List.map_cons] at ihg ⊢
        have step : subIn (h4sp ++ e.1 ++ "\n\n".data ++ e.2)
            ("\n\n".data ++ joinSep "\n\n".data
              ((h4sp ++ g.1 ++ "\n\n".data ++ g.2) ::
                List.map (fun e => h4sp ++ e.1 ++ "\n\n".data ++ e.2) t)) = true :=
          subIn_append_left' _ _ _ ihg
        have full := subIn_append_left' (h4sp ++ e.1 ++ "\n\n".data ++ e.2)
          (h4sp ++ f.1 ++ "\n\n".data ++ f.2) _ step
        simpa [joinSep, List.append_assoc] using full

/-! ### Keys of the merged dictionary match the spec order -/

theorem parentFnStep_keys (d : Entries) (fb : Str × Str) (d' : Entries)
    (h : parentFnStep d fb = some d') : dKeys d' = specKeyStep (dKeys d) fb := by
  unfold parentFnStep at h
  unfold specKeyStep
  by_cases hmem : dHas d fb.1 = true
  · rw [if_pos hmem] at h
    injection h with h
    have hm : fb.1 ∈ dKeys d := (dHas_iff_mem_dKeys _ _).mp hmem
    rw [← h]
    by_cases hstar : (pyStrip fb.2).getLast? = some '*'
    · rw [if_pos hstar]
    · rw [if_neg hstar, if_pos hm]
  · rw [if_neg hmem] at h
    have hmem' : dHas d fb.1 = false := by
      rw [Bool.not_eq_true] at hmem
      exact hmem
    have hm : fb.1 ∉ dKeys d := by
      intro hc
      rw [← dHas_iff_mem_dKeys] at hc
      rw [hmem'] at hc
      exact Bool.false_ne_true hc
    split at h
    · simp at h
    · rename_i last hlast
      by_cases hstar : last = '*'
      · rw [if_pos hstar] at h
        injection h with h
        rw [← h, hlast, hstar, if_pos rfl]
      · rw [if_neg hstar] at h
        injection h with h
        have hsne : ¬ (pyStrip fb.2).getLast? = some '*' := by
          rw [hlast]
          intro hc
          injection hc with hc
          exact hstar hc
        rw [← h, if_neg hsne, if_neg hm]
        exact dKeys_dSet_not_mem _ _ _ hmem'

theorem childFnStep_keys (d : Entries) (fb : Str × Str) (d' : Entries)
    (h : childFnStep d fb = some d') : dKeys d' = specKeyStep (dKeys d) fb := by
  unfold childFnStep at h
  unfold specKeyStep
  split at h
  · simp at h
  · rename_i last hlast
    by_cases hstar : last = '*'
    · rw [if_pos hstar] at h
      injection h with h
      rw [← h, hlast, hstar, if_pos rfl]
    · rw [if_neg hstar] at h
      injection h with h
      have hsne : ¬ (pyStrip fb.2).getLast? = some '*' := by
        rw [hlast]
        intro hc
        injection hc with hc
        exact hstar hc
      rw [← h, if_neg hsne]
      by_cases hmem : dHas d fb.1 = true
      · rw [if_pos ((dHas_iff_mem_dKeys _ _).mp hmem)]
        exact dKeys_dSet_mem _ _ _ hmem
      · have hmem' : dHas d fb.1 = false := by
          rw [Bool.not_eq_true] at hmem
          exact hmem
        have hm : fb.1 ∉ dKeys d := by
          intro hc
          rw [← dHas_iff_mem_dKeys] at hc
          rw [hmem'] at hc
          exact Bool.false_ne_true hc
        rw [if_neg hm]
        exact dKeys_dSet_not_mem _ _ _ hmem'

theorem foldlM_keys_spec (step : Entries → (Str × Str) → Option Entries)
    (hstep : ∀ d fb d', step d fb = some d' → dKeys d' = specKeyStep (dKeys d) fb) :
    ∀ (blocks : List (Str × Str)) (d d' : Entries),
      List.foldlM step d blocks = some d' →
      dKeys d' = blocks.foldl specKeyStep (dKeys d) := by
  intro blocks
  induction blocks with
  | nil =>
    intro d d' h
    simp only [List.foldlM_nil, pure] at h
    injection h with h
    rw [h, List.foldl_nil]
  | cons fb rest ih =>
    intro d d' h
    rw [List.foldlM_cons] at h
    rcases Option.bind_eq_some.mp h with ⟨d1, hone, hrest⟩
    rw [List.foldl_cons, ← hstep d fb d1 hone]
    exact ih d1 d' hrest

theorem parentsFoldlM_keys (parent_texts : List Str) :
    ∀ (d d' : Entries),
      List.foldlM (fun d t => List.foldlM parentFnStep d (fnBlocksOf t)) d parent_texts =
        some d' →
      dKeys d' = parent_texts.foldl (fun a t => (fnBlocksOf t).foldl specKeyStep a) (dKeys d) := by
  induction parent_texts with
  | nil =>
    intro d d' h
    simp only [List.foldlM_nil, pure] at h
    injection h with h
    rw [h, List.foldl_nil]
  | cons t rest ih =>
    intro d d' h
    rw [List.foldlM_cons] at h
    rcases Option.bind_eq_some.mp h with ⟨d1, hone, hrest⟩
    rw [List.foldl_cons, ← foldlM_keys_spec parentFnStep parentFnStep_keys _ _ _ hone]
    exact ih d1 d' hrest

theorem mergedFns_keys (ccn c2 : Str) (parent_texts : List Str) (fns : Entries)
    (h : mergedFns ccn c2 parent_texts = some fns) :
    dKeys fns = specFnOrder (parent_texts.map fnBlocksOf) (fnBlocksOf c2) := by
  unfold mergedFns at h
  rcases Option.bind_eq_some.mp h with ⟨fns1, hpar, hchild⟩
  have h1 := parentsFoldlM_keys parent_texts _ _ hpar
  have h2 := foldlM_keys_spec childFnStep childFnStep_keys _ _ _ hchild
  unfold specFnOrder
  rw [h2, h1]
  have hseed : dKeys [(escInit, initEntryOf ccn c2 parent_texts)] = [escInit] := rfl
  rw [hseed, List.foldl_map]

/-- The spec key order always starts with the escaped constructor name. -/
theorem specFnOrder_head (parentBlocks : List (List (Str × Str)))
    (childBlocks : List (Str × Str)) :
    ∃ rest, specFnOrder parentBlocks childBlocks = escInit :: rest := by
  have gen : ∀ (blocks : List (Str × Str)) (acc : List Str) (x : Str) (r : List Str),
      acc = x :: r → ∃ r', blocks.foldl specKeyStep acc = x :: r' := by
    intro blocks
    induction blocks with
    | nil => intro acc x r h; exact ⟨r, by rw [List.foldl_nil, h]⟩
    | cons fb rest ih =>
      intro acc x r h
      rw [List.foldl_cons]
      unfold specKeyStep
      by_cases h1 : (pyStrip fb.2).getLast? = some '*'
      · rw [if_pos h1]
        exact ih acc x r h
      · rw [if_neg h1]
        by_cases h2 : fb.1 ∈ acc
        · rw [if_pos h2]
          exact ih acc x r h
        · rw [if_neg h2]
          exact ih (acc ++ [fb.1]) x (r ++ [fb.1]) (by rw [h, List.cons_append])
  have gen2 : ∀ (bls : List (List (Str × Str))) (acc : List Str) (x : Str) (r : List Str),
      acc = x :: r →
      ∃ r', bls.foldl (fun a bl => bl.foldl specKeyStep a) acc = x :: r' := by
    intro bls
    induction bls with
    | nil => intro acc x r h; exact ⟨r, by rw [List.foldl_nil, h]⟩
    | cons bl rest ih =>
      intro acc x r h
      rw [List.foldl_cons]
      rcases gen bl acc x r h with ⟨r', hr'⟩
      exact ih _ x r' hr'
  rcases gen2 parentBlocks [escInit] escInit [] rfl with ⟨r1, hr1⟩
  rcases gen childBlocks _ escInit r1 hr1 with ⟨r2, hr2⟩
  exact ⟨r2, hr2⟩

/-- When the key list of a dictionary starts with a key, the rendered
functions text starts with that key's heading. -/
theorem functionTextOf_starts (fns : Entries) (rest : List Str)
    (h : dKeys fns = escInit :: rest) :
    hasPre ("#### \\_\\_init\\_\\_\n\n".data) (functionTextOf fns) = true := by
  have hlit : ("#### \\_\\_init\\_\\_\n\n".data : Str) = h4sp ++ escInit ++ "\n\n".data := by
    decide
  rw [hlit]
  cases fns with
  | nil => simp [dKeys] at h
  | cons e t =>
    have he : e.1 = escInit := by
      simp only [dKeys, List.map_cons] at h
      injection h
    rw [← he]
    cases t with
    | nil =>
      unfold functionTextOf
      simp only [List.map_cons, List.map_nil, joinSep]
      have base := hasPre_append_self (h4sp ++ e.1 ++ "\n\n".data) e.2
      simpa [List.append_assoc] using base
    | cons g t' =>
      unfold functionTextOf
      simp only [List.map_cons, joinSep]
      have base := hasPre_append_self (h4sp ++ e.1 ++ "\n\n".data)
        (e.2 ++ "\n\n".data ++ joinSep "\n\n".data
          ((h4sp ++ g.1 ++ "\n\n".data ++ g.2) ::
            List.map (fun e => h4sp ++ e.1 ++ "\n\n".data ++ e.2) t'))
      simpa [List.append_assoc] using base

/-! ### Lemmas for unfolding `getFromText` -/

theorem pySortedSet_nil : pySortedSet [] = [] := rfl

theorem gftCvPhase_of_no_rows (child_text : Str) (parent_texts : List Str)
    (h : parent_texts.foldl (fun acc t => acc ++ extractCvRows t) [] ++
      extractCvRows child_text = []) :
    gftCvPhase child_text parent_texts = some child_text := by
  unfold gftCvPhase
  rw [h]
  rfl

theorem gftFieldPhase_of_no_fields (child1 : Str) (parent_texts : List Str)
    (h : parent_texts.foldl (fun acc t => acc ++ extractFieldLines t) [] = []) :
    gftFieldPhase child1 parent_texts = some child1 := by
  unfold gftFieldPhase
  rw [h]
  rfl

theorem foldl_replace_id (ccn : Str) :
    ∀ (pcns : List Str) (doc : Str),
      (∀ pcn ∈ pcns, subIn (pcn ++ [ '(' ]) doc = false ∧
        subIn (ccn ++ [ '(' ] ++ pcn ++ [ ')' ]) doc = false) →
      pcns.foldl (fun d pcn =>
        pyReplace (pyReplace d (pcn ++ [ '(' ]) (ccn ++ [ '(' ]))
          (ccn ++ [ '(' ] ++ pcn ++ [ ')' ]) ccn) doc = doc := by
  intro pcns
  induction pcns with
  | nil => intro doc _; rfl
  | cons p rest ih =>
    intro doc h
    rw [List.foldl_cons]
    have h1 := (h p (List.mem_cons_self _ _)).1
    have h2 := (h p (List.mem_cons_self _ _)).2
    rw [pyReplace_no_occ doc _ _ (by simp) h1]
    rw [pyReplace_no_occ doc _ _ (by simp) h2]
    exact ih doc (fun x hx => h x (List.mem_cons_of_mem _ hx))

theorem gftTail_id (ccn : Str) (pcns : List Str) (doc : Str)
    (h_t1 : subIn "***\n\n***".data doc = false)
    (h_t2 : ∀ pcn ∈ pcns, subIn (pcn ++ [ '(' ]) doc = false ∧
      subIn (ccn ++ [ '(' ] ++ pcn ++ [ ')' ]) doc = false)
    (h_t3 : subIn cvHeaderLit doc = false)
    (h_t4 : subIn (ccn ++ "(ABC)".data) doc = false) :
    gftTail ccn pcns doc = doc := by
  unfold gftTail
  rw [pyReplace_no_occ doc _ _ (by decide) h_t1]
  rw [foldl_replace_id ccn pcns doc h_t2]
  have hfix : gftSbFix doc = doc := by
    unfold gftSbFix
    rw [h_t3]
    simp
  rw [hfix]
  exact pyReplace_no_occ doc _ _ (by simp) h_t4

theorem parentFnStep_preserve_escInit (d : Entries) (fb : Str × Str) (d' : Entries)
    (h : parentFnStep d fb = some d') (hmem : dHas d escInit = true) :
    dGet? d' escInit = dGet? d escInit ∧ dHas d' escInit = true := by
  unfold parentFnStep at h
  by_cases hfb : dHas d fb.1 = true
  · rw [if_pos hfb] at h
    injection h with h
    rw [← h]
    exact ⟨rfl, hmem⟩
  · rw [if_neg hfb] at h
    split at h
    · simp at h
    · rename_i last hlast
      by_cases hstar : last = '*'
      · rw [if_pos hstar] at h
        injection h with h
        rw [← h]
        exact ⟨rfl, hmem⟩
      · rw [if_neg hstar] at h
        injection h with h
        have hne : fb.1 ≠ escInit := by
          intro hc
          rw [hc] at hfb
          exact hfb hmem
        have hfb' : dHas d fb.1 = false := by
          rw [Bool.not_eq_true] at hfb
          exact hfb
        constructor
        · rw [← h]
          exact dGet?_dSet_ne _ _ _ (Ne.symm hne) d
        · rw [← h]
          have hm : escInit ∈ dKeys d := (dHas_iff_mem_dKeys _ _).mp hmem
          have : escInit ∈ dKeys (dSet d fb.1 (pyStrip fb.2)) := by
            rw [dKeys_dSet_not_mem _ _ _ hfb']
            exact List.mem_append_left _ hm
          exact (dHas_iff_mem_dKeys _ _).mpr this

theorem parentBlocksFold_preserve_escInit :
    ∀ (blocks : List (Str × Str)) (d d' : Entries),
      List.foldlM parentFnStep d blocks = some d' → dHas d escInit = true →
      dGet? d' escInit = dGet? d escInit ∧ dHas d' escInit = true := by
  intro blocks
  induction blocks with
  | nil =>
    intro d d' h hmem
    simp only [List.foldlM_nil, pure] at h
    injection h with h
    rw [h] at hmem ⊢
    exact ⟨rfl, hmem⟩
  | cons fb rest ih =>
    intro d d' h hmem
    rw [List.foldlM_cons] at h
    rcases Option.bind_eq_some.mp h with ⟨d1, hone, hrest⟩
    rcases parentFnStep_preserve_escInit d fb d1 hone hmem with ⟨hg, hh⟩
    rcases ih d1 d' hrest hh with ⟨hg2, hh2⟩
    exact ⟨hg2.trans hg, hh2⟩

theorem parentsFold_preserve_escInit (parent_texts : List Str) :
    ∀ (d d' : Entries),
      List.foldlM (fun d t => List.foldlM parentFnStep d (fnBlocksOf t)) d parent_texts =
        some d' →
      dHas d escInit = true →
      dGet? d' escInit = dGet? d escInit ∧ dHas d' escInit = true := by
  induction parent_texts with
  | nil =>
    intro d d' h hmem
    simp only [List.foldlM_nil, pure] at h
    injection h with h
    rw [h] at hmem ⊢
    exact ⟨rfl, hmem⟩
  | cons t rest ih =>
    intro d d' h hmem
    rw [List.foldlM_cons] at h
    rcases Option.bind_eq_some.mp h with ⟨d1, hone, hrest⟩
    rcases parentBlocksFold_preserve_escInit _ d d1 hone hmem with ⟨hg, hh⟩
    rcases ih d1 d' hrest hh with ⟨hg2, hh2⟩
    exact ⟨hg2.trans hg, hh2⟩

/-! ## Claims C1 and C7: parameter extraction -/

/-- Claim C1, as stated, is false: for the signature text
`f(x: List[int] = None, y=3)` the extracted type of `x` is `" List[int]"`
(with the space after the colon retained by the regex group), not
`"List[int]"`. -/
theorem C1_param_extraction_counterexample :
    (Parameter.ofDefStr "x".data [] "f(x: List[int] = None, y=3)".data).param_type ≠
      "List[int]".data := by decide

/-- Claim C1 (amended): for the signature text
`f(x: List[int] = None, y=3)`, the parameter `x` yields
`param_type = " List[int]"` — everything the regex group captured between
`x:` and the `=` delimiter, truncated through the first `]`, so the leading
space survives — and `default_value = "None"`; the parameter `y` yields an
empty `param_type` and `default_value = "3"`. -/
theorem C1_param_extraction_amended :
    (Parameter.ofDefStr "x".data [] "f(x: List[int] = None, y=3)".data).param_type =
        " List[int]".data ∧
      (Parameter.ofDefStr "x".data [] "f(x: List[int] = None, y=3)".data).default_value =
        "None".data ∧
      (Parameter.ofDefStr "y".data [] "f(x: List[int] = None, y=3)".data).param_type = [] ∧
      (Parameter.ofDefStr "y".data [] "f(x: List[int] = None, y=3)".data).default_value =
        "3".data := by
  refine ⟨by decide, by decide, by decide, by decide⟩

/-! ## Claim C7: the interpolated patterns of `Parameter.__init__`

The constructor compiles `name + r":(.*?)[:|=|\)]"` and
`name + r"[ ]\x7b0,1\x7d=(.*?)[,|\)]"`, so the name's characters are regex
syntax.  The lemmas below settle parsing and matching of those patterns
for names free of metacharacters, and the claim theorems exhibit the
exception and mismatching paths for names that carry them. -/

theorem safe_char_ne (c d : Char) (h : (c.isAlphanum || c = '_') = true)
    (hd : (d.isAlphanum || d = '_') = false) : ¬ c = d := by
  intro e
  rw [e, hd] at h
  exact absurd h (by decide)

theorem pstep_safe_char (c : Char) (h : (c.isAlphanum || c = '_') = true)
    (fuel : Nat) (stk : List PFrame) (alts seqR : List RE) (gi : Nat) (rest : Str) :
    pstep (fuel + 1) stk alts seqR gi (c :: rest) =
      pstep fuel stk alts (RE.lit c :: seqR) gi rest := by
  simp only [pstep]
  rw [if_neg (safe_char_ne c '(' h (by decide)), if_neg (safe_char_ne c ')' h (by decide)),
    if_neg (safe_char_ne c '|' h (by decide)), if_neg (safe_char_ne c '[' h (by decide)),
    if_neg (safe_char_ne c '.' h (by decide)), if_neg (safe_char_ne c '*' h (by decide)),
    if_neg (safe_char_ne c '+' h (by decide)), if_neg (safe_char_ne c '?' h (by decide)),
    if_neg (safe_char_ne c '\x7b' h (by decide)), if_neg (safe_char_ne c '\\' h (by decide)),
    if_neg (safe_char_ne c '^' h (by decide)), if_neg (safe_char_ne c '$' h (by decide))]

theorem pstep_lits (name : Str) (h : nameSafe name = true) :
    ∀ (fuel : Nat) (stk : List PFrame) (alts seqR : List RE) (gi : Nat) (tail : Str),
      pstep (name.length + fuel) stk alts seqR gi (name ++ tail) =
        pstep fuel stk alts ((name.map RE.lit).reverse ++ seqR) gi tail := by
  induction name with
  | nil => intro fuel stk alts seqR gi tail; simp
  | cons c n ih =>
    intro fuel stk alts seqR gi tail
    have h2 : (c.isAlphanum || c = '_') = true ∧
        n.all (fun x => x.isAlphanum || x = '_') = true := by
      have h3 := h
      unfold nameSafe at h3
      rw [List.all_cons, Bool.and_eq_true] at h3
      exact h3
    have hc := h2.1
    have hn : nameSafe n = true := h2.2
    have hlen : (c :: n).length + fuel = (n.length + fuel) + 1 := by
      simp [List.length_cons]
      omega
    rw [List.cons_append, hlen, pstep_safe_char c hc, ih hn]
    simp [List.append_assoc]

/-- The 14 characters of `pat1Tail` parse, on top of any current sequence,
into the literal colon, the lazy capturing group and the delimiter class. -/
theorem pstep_tail1 (seqR : List RE) (gi : Nat) :
    pstep 15 [] [] seqR gi pat1Tail =
      some (closeLevel [] (tailCls1 :: grpLazy gi :: RE.lit ':' :: seqR)) := rfl

/-- The 20 characters of `pat2Tail` parse, on top of any current sequence,
into the optional-space class, the literal equals sign, the lazy capturing
group and the delimiter class. -/
theorem pstep_tail2 (seqR : List RE) (gi : Nat) :
    pstep 21 [] [] seqR gi pat2Tail =
      some (closeLevel []
        (tailCls2 :: grpLazy gi :: RE.lit '=' :: RE.rep spCls 0 (some 1) false :: seqR)) := rfl

theorem reParse_pat1 (name : Str) (h : nameSafe name = true) :
    reParse (name ++ pat1Tail) = some (pat1RE name) := by
  unfold reParse
  have hlen : (name ++ pat1Tail).length + 1 = name.length + 15 := by
    simp [pat1Tail]
  rw [hlen, pstep_lits name h 15 [] [] [] 1 pat1Tail, pstep_tail1]
  simp [closeLevel, mkAlt, pat1RE, List.append_assoc]

theorem reParse_pat2 (name : Str) (h : nameSafe name = true) :
    reParse (name ++ pat2Tail) = some (pat2RE name) := by
  unfold reParse
  have hlen : (name ++ pat2Tail).length + 1 = name.length + 21 := by
    simp [pat2Tail]
  rw [hlen, pstep_lits name h 21 [] [] [] 1 pat2Tail, pstep_tail2]
  simp [closeLevel, mkAlt, pat2RE, List.append_assoc]

theorem mem_catMap (f : α → List β) (b : β) :
    ∀ (l : List α), b ∈ catMap f l ↔ ∃ a, a ∈ l ∧ b ∈ f a
  | [] => by simp [catMap]
  | x :: t => by
    simp only [catMap, List.mem_append, mem_catMap f b t, List.mem_cons]
    constructor
    · rintro (hb | ⟨a, ha, hb⟩)
      · exact ⟨x, Or.inl rfl, hb⟩
      · exact ⟨a, Or.inr ha, hb⟩
    · rintro ⟨a, ha, hb⟩
      cases ha with
      | inl he => exact Or.inl (he ▸ hb)
      | inr ht => exact Or.inr ⟨a, ht, hb⟩

theorem catMap_eq_nil (f : α → List β) :
    ∀ (l : List α), (∀ a ∈ l, f a = []) → catMap f l = []
  | [], _ => rfl
  | x :: t, h => by
    simp only [catMap, h x (List.mem_cons_self x t), List.nil_append]
    exact catMap_eq_nil f t (fun a ha => h a (List.mem_cons_of_mem x ha))

theorem mem_of_head?_eq {l : List α} {a : α} (h : l.head? = some a) : a ∈ l := by
  cases l with
  | nil => exact absurd h (by simp)
  | cons x t =>
    simp only [List.head?_cons, Option.some.injEq] at h
    exact h ▸ List.mem_cons_self x t

theorem capGet_capSet_self : ∀ (caps : Caps) (i : Nat) (v : Str),
    capGet (capSet caps i v) i = some v
  | [], i, v => by simp [capSet, capGet]
  | e :: t, i, v => by
    by_cases h : e.1 = i
    · simp [capSet, capGet, h]
    · simp only [capSet, if_neg h, capGet]
      exact capGet_capSet_self t i v

/-- The matcher only consumes from the front: every outcome's remaining
string is a suffix of the input. -/
theorem reMs_consume : ∀ (fuel : Nat) (re : RE) (s : Str) (caps : Caps) (p : Str × Caps),
    p ∈ reMs fuel re s caps → ∃ k, p.1 = s.drop k := by
  intro fuel
  induction fuel with
  | zero => intro re s caps p hp; exact absurd hp (by simp [reMs])
  | succ fuel ih =>
    intro re s caps p hp
    cases re with
    | eps =>
      simp only [reMs, List.mem_singleton] at hp
      exact ⟨0, by simp [hp]⟩
    | lit c =>
      cases s with
      | nil => exact absurd hp (by simp [reMs])
      | cons c' s' =>
        simp only [reMs] at hp
        by_cases hc : c' = c
        · rw [if_pos hc] at hp
          simp only [List.mem_singleton] at hp
          exact ⟨1, by simp [hp]⟩
        · rw [if_neg hc] at hp
          exact absurd hp (by simp)
    | anyc =>
      cases s with
      | nil => exact absurd hp (by simp [reMs])
      | cons c' s' =>
        simp only [reMs] at hp
        by_cases hc : c' = '\n'
        · rw [if_pos hc] at hp
          exact absurd hp (by simp)
        · rw [if_neg hc] at hp
          simp only [List.mem_singleton] at hp
          exact ⟨1, by simp [hp]⟩
    | cls neg items =>
      cases s with
      | nil => exact absurd hp (by simp [reMs])
      | cons c' s' =>
        simp only [reMs] at hp
        by_cases hc : clsHit neg items c' = true
        · rw [if_pos hc] at hp
          simp only [List.mem_singleton] at hp
          exact ⟨1, by simp [hp]⟩
        · rw [if_neg hc] at hp
          exact absurd hp (by simp)
    | seq a b =>
      simp only [reMs] at hp
      rw [mem_catMap] at hp
      obtain ⟨q, hq, hpq⟩ := hp
      obtain ⟨k1, h1⟩ := ih a s caps q hq
      obtain ⟨k2, h2⟩ := ih b q.1 q.2 p hpq
      exact ⟨k2 + k1, by rw [h2, h1, List.drop_drop, Nat.add_comm]⟩
    | alt a b =>
      simp only [reMs, List.mem_append] at hp
      cases hp with
      | inl h1 => exact ih a s caps p h1
      | inr h2 => exact ih b s caps p h2
    | grp i a =>
      simp only [reMs, List.mem_map] at hp
      obtain ⟨q, hq, hpq⟩ := hp
      obtain ⟨k, hk⟩ := ih a s caps q hq
      exact ⟨k, by rw [← hpq]; exact hk⟩
    | rep a mn mx lz =>
      cases mn with
      | succ mn' =>
        simp only [reMs] at hp
        rw [mem_catMap] at hp
        obtain ⟨q, hq, hpq⟩ := hp
        obtain ⟨k1, h1⟩ := ih a s caps q hq
        obtain ⟨k2, h2⟩ := ih _ q.1 q.2 p hpq
        exact ⟨k2 + k1, by rw [h2, h1, List.drop_drop, Nat.add_comm]⟩
      | zero =>
        have hmore : ∀ q : Str × Caps,
            q ∈ catMap
              (fun p =>
                if p.1.length = s.length then [(p.1, p.2)]
                else reMs fuel (RE.rep a 0 (mx.map (fun m => m - 1)) lz) p.1 p.2)
              (reMs fuel a s caps) → ∃ k, q.1 = s.drop k := by
          intro q hq
          rw [mem_catMap] at hq
          obtain ⟨r, hr, hqr⟩ := hq
          obtain ⟨k1, h1⟩ := ih a s caps r hr
          by_cases hl : r.1.length = s.length
          · rw [if_pos hl] at hqr
            simp only [List.mem_singleton] at hqr
            exact ⟨k1, by rw [hqr, h1]⟩
          · rw [if_neg hl] at hqr
            obtain ⟨k2, h2⟩ := ih _ r.1 r.2 q hqr
            exact ⟨k2 + k1, by rw [h2, h1, List.drop_drop, Nat.add_comm]⟩
        cases mx with
        | none =>
          simp only [reMs] at hp
          by_cases hlz : lz
          · rw [if_pos hlz] at hp
            cases hp with
            | head => exact ⟨0, by simp⟩
            | tail _ hm => exact hmore p hm
          · rw [if_neg hlz] at hp
            rw [List.mem_append] at hp
            cases hp with
            | inl hm => exact hmore p hm
            | inr he =>
              simp only [List.mem_singleton] at he
              exact ⟨0, by simp [he]⟩
        | some m =>
          cases m with
          | zero =>
            simp only [reMs, List.mem_singleton] at hp
            exact ⟨0, by simp [hp]⟩
          | succ m' =>
            simp only [reMs] at hp
            by_cases hlz : lz
            · rw [if_pos hlz] at hp
              cases hp with
              | head => exact ⟨0, by simp⟩
              | tail _ hm => exact hmore p hm
            · rw [if_neg hlz] at hp
              rw [List.mem_append] at hp
              cases hp with
              | inl hm => exact hmore p hm
              | inr he =>
                simp only [List.mem_singleton] at he
                exact ⟨0, by simp [he]⟩

/-- A regex without capturing groups leaves the captures untouched. -/
theorem reMs_noGrp_caps : ∀ (fuel : Nat) (re : RE), noGrpB re = true →
    ∀ (s : Str) (caps : Caps) (p : Str × Caps), p ∈ reMs fuel re s caps → p.2 = caps := by
  intro fuel
  induction fuel with
  | zero => intro re _ s caps p hp; exact absurd hp (by simp [reMs])
  | succ fuel ih =>
    intro re hng s caps p hp
    cases re with
    | eps =>
      simp only [reMs, List.mem_singleton] at hp
      simp [hp]
    | lit c =>
      cases s with
      | nil => exact absurd hp (by simp [reMs])
      | cons c' s' =>
        simp only [reMs] at hp
        by_cases hc : c' = c
        · rw [if_pos hc] at hp
          simp only [List.mem_singleton] at hp
          simp [hp]
        · rw [if_neg hc] at hp
          exact absurd hp (by simp)
    | anyc =>
      cases s with
      | nil => exact absurd hp (by simp [reMs])
      | cons c' s' =>
        simp only [reMs] at hp
        by_cases hc : c' = '\n'
        · rw [if_pos hc] at hp
          exact absurd hp (by simp)
        · rw [if_neg hc] at hp
          simp only [List.mem_singleton] at hp
          simp [hp]
    | cls neg items =>
      cases s with
      | nil => exact absurd hp (by simp [reMs])
      | cons c' s' =>
        simp only [reMs] at hp
        by_cases hc : clsHit neg items c' = true
        · rw [if_pos hc] at hp
          simp only [List.mem_singleton] at hp
          simp [hp]
        · rw [if_neg hc] at hp
          exact absurd hp (by simp)
    | seq a b =>
      simp only [noGrpB, Bool.and_eq_true] at hng
      simp only [reMs] at hp
      rw [mem_catMap] at hp
      obtain ⟨q, hq, hpq⟩ := hp
      rw [ih b hng.2 q.1 q.2 p hpq]
      exact ih a hng.1 s caps q hq
    | alt a b =>
      simp only [noGrpB, Bool.and_eq_true] at hng
      simp only [reMs, List.mem_append] at hp
      cases hp with
      | inl h1 => exact ih a hng.1 s caps p h1
      | inr h2 => exact ih b hng.2 s caps p h2
    | grp i a => exact absurd hng (by simp [noGrpB])
    | rep a mn mx lz =>
      simp only [noGrpB] at hng
      cases mn with
      | succ mn' =>
        simp only [reMs] at hp
        rw [mem_catMap] at hp
        obtain ⟨q, hq, hpq⟩ := hp
        rw [ih _ (by simp [noGrpB, hng]) q.1 q.2 p hpq]
        exact ih a hng s caps q hq
      | zero =>
        have hmore : ∀ q : Str × Caps,
            q ∈ catMap
              (fun p =>
                if p.1.length = s.length then [(p.1, p.2)]
                else reMs fuel (RE.rep a 0 (mx.map (fun m => m - 1)) lz) p.1 p.2)
              (reMs fuel a s caps) → q.2 = caps := by
          intro q hq
          rw [mem_catMap] at hq
          obtain ⟨r, hr, hqr⟩ := hq
          have hr2 := ih a hng s caps r hr
          by_cases hl : r.1.length = s.length
          · rw [if_pos hl] at hqr
            simp only [List.mem_singleton] at hqr
            rw [hqr]
            exact hr2
          · rw [if_neg hl] at hqr
            rw [ih _ (by simp [noGrpB, hng]) r.1 r.2 q hqr]
            exact hr2
        cases mx with
        | none =>
          simp only [reMs] at hp
          by_cases hlz : lz
          · rw [if_pos hlz] at hp
            cases hp with
            | head => rfl
            | tail _ hm => exact hmore p hm
          · rw [if_neg hlz] at hp
            rw [List.mem_append] at hp
            cases hp with
            | inl hm => exact hmore p hm
            | inr he =>
              simp only [List.mem_singleton] at he
              simp [he]
        | some m =>
          cases m with
          | zero =>
            simp only [reMs, List.mem_singleton] at hp
            simp [hp]
          | succ m' =>
            simp only [reMs] at hp
            by_cases hlz : lz
            · rw [if_pos hlz] at hp
              cases hp with
              | head => rfl
              | tail _ hm => exact hmore p hm
            · rw [if_neg hlz] at hp
              rw [List.mem_append] at hp
              cases hp with
              | inl hm => exact hmore p hm
              | inr he =>
                simp only [List.mem_singleton] at he
                simp [he]

/-- Every outcome of a capturing group has the group's capture set. -/
theorem reMs_grp_mem (i : Nat) (a : RE) : ∀ (fuel : Nat) (s : Str) (caps : Caps)
    (q : Str × Caps), q ∈ reMs fuel (RE.grp i a) s caps → ∃ v, capGet q.2 i = some v := by
  intro fuel
  cases fuel with
  | zero => intro s caps q hq; exact absurd hq (by simp [reMs])
  | succ f =>
    intro s caps q hq
    simp only [reMs, List.mem_map] at hq
    obtain ⟨q0, _, hq0⟩ := hq
    refine ⟨s.take (s.length - q0.1.length), ?_⟩
    rw [← hq0]
    exact capGet_capSet_self q0.2 i _

/-- For a sequence of group-free pieces, then a capturing group, then a
group-free last piece, every match sets the group. -/
theorem reMs_grp_tail_caps :
    ∀ (l1 : List RE), l1.all noGrpB = true → ∀ (i : Nat) (inner last : RE),
      noGrpB last = true →
      ∀ (fuel : Nat) (s : Str) (caps : Caps) (p : Str × Caps),
        p ∈ reMs fuel (mkSeq (l1 ++ [RE.grp i inner, last])) s caps →
        ∃ v, capGet p.2 i = some v
  | [], _, i, inner, last, hlast, fuel, s, caps, p, hp => by
    cases fuel with
    | zero => exact absurd hp (by simp [reMs])
    | succ f =>
      have hshape : mkSeq ([] ++ [RE.grp i inner, last]) =
          RE.seq (RE.grp i inner) (RE.seq last RE.eps) := rfl
      rw [hshape] at hp
      simp only [reMs] at hp
      rw [mem_catMap] at hp
      obtain ⟨q, hq, hpq⟩ := hp
      obtain ⟨v, hv⟩ := reMs_grp_mem i inner f s caps q hq
      have hcaps : p.2 = q.2 :=
        reMs_noGrp_caps f (RE.seq last RE.eps) (by simp [noGrpB, hlast]) q.1 q.2 p hpq
      exact ⟨v, by rw [hcaps]; exact hv⟩
  | x :: l1, hall, i, inner, last, hlast, fuel, s, caps, p, hp => by
    cases fuel with
    | zero => exact absurd hp (by simp [reMs])
    | succ f =>
      rw [List.all_cons, Bool.and_eq_true] at hall
      have hshape : mkSeq ((x :: l1) ++ [RE.grp i inner, last]) =
          RE.seq x (mkSeq (l1 ++ [RE.grp i inner, last])) := rfl
      rw [hshape] at hp
      simp only [reMs] at hp
      rw [mem_catMap] at hp
      obtain ⟨q, _, hpq⟩ := hp
      exact reMs_grp_tail_caps l1 hall.2 i inner last hlast f q.1 q.2 p hpq

theorem reMs_lit_nil (c : Char) (fuel : Nat) (caps : Caps) :
    reMs fuel (RE.lit c) [] caps = [] := by
  cases fuel <;> rfl

theorem reMs_lit_ne (c c' : Char) (h : ¬ c' = c) (fuel : Nat) (s : Str) (caps : Caps) :
    reMs fuel (RE.lit c) (c' :: s) caps = [] := by
  cases fuel with
  | zero => rfl
  | succ f =>
    simp only [reMs]
    rw [if_neg h]

theorem hasPre_single_ne (c : Char) (t : Str) (h : ∀ x ∈ t, ¬ x = c) :
    hasPre [c] t = false := by
  cases t with
  | nil => rfl
  | cons c' t' =>
    show (if c = c' then hasPre [] t' else false) = false
    rw [if_neg (fun e => h c' (List.mem_cons_self c' t') e.symm)]

/-- A pattern that starts with the literal characters of `name` followed by
a literal `c0` cannot match where `name ++ [c0]` is not a prefix. -/
theorem reMs_litpre_nil (c0 : Char) (rest : List RE) :
    ∀ (name : Str) (fuel : Nat) (s : Str) (caps : Caps),
      hasPre (name ++ [c0]) s = false →
      reMs fuel (mkSeq (name.map RE.lit ++ RE.lit c0 :: rest)) s caps = []
  | [], fuel, s, caps, h => by
    cases fuel with
    | zero => rfl
    | succ f =>
      show catMap _ (reMs f (RE.lit c0) s caps) = []
      cases s with
      | nil => rw [reMs_lit_nil]; rfl
      | cons c' s' =>
        have hne : ¬ c' = c0 := by
          intro e
          rw [List.nil_append] at h
          rw [e] at h
          simp [hasPre] at h
        rw [reMs_lit_ne c0 c' hne]
        rfl
  | c :: n, fuel, s, caps, h => by
    cases fuel with
    | zero => rfl
    | succ f =>
      show catMap _ (reMs f (RE.lit c) s caps) = []
      cases s with
      | nil => rw [reMs_lit_nil]; rfl
      | cons c' s' =>
        by_cases hc : c' = c
        · subst hc
          cases f with
          | zero => rfl
          | succ f2 =>
            have hlit : reMs (f2 + 1) (RE.lit c') (c' :: s') caps = [(s', caps)] := by
              simp [reMs]
            rw [hlit]
            show reMs (f2 + 1) (mkSeq (n.map RE.lit ++ RE.lit c0 :: rest)) s' caps ++
              catMap _ [] = []
            have hpre : hasPre (n ++ [c0]) s' = false := by
              have h2 : hasPre ((c' :: n) ++ [c0]) (c' :: s') = false := h
              rw [List.cons_append] at h2
              simpa [hasPre] using h2
            rw [reMs_litpre_nil c0 rest n (f2 + 1) s' caps hpre]
            rfl
        · rw [reMs_lit_ne c c' hc]
          rfl

theorem reSearchAux_litpre_none (c0 : Char) (rest : List RE) (name : Str) (fuel : Nat) :
    ∀ (s : Str), subIn (name ++ [c0]) s = false →
      reSearchAux fuel (mkSeq (name.map RE.lit ++ RE.lit c0 :: rest)) s = none
  | [], h => by
    show ((reMs fuel _ [] []).head?).map Prod.snd = none
    rw [reMs_litpre_nil c0 rest name fuel [] [] h]
    rfl
  | c :: s', h => by
    simp only [subIn, Bool.or_eq_false_iff] at h
    show (match (reMs fuel _ (c :: s') []).head? with
      | some p => some p.2
      | none => reSearchAux fuel _ s') = none
    rw [reMs_litpre_nil c0 rest name fuel (c :: s') [] h.1]
    exact reSearchAux_litpre_none c0 rest name fuel s' h.2

theorem reSearch_pat1_none (name : Str) (s : Str) (h : subIn (name ++ [ ':' ]) s = false) :
    reSearch (pat1RE name) s = none :=
  reSearchAux_litpre_none ':' [grpLazy 1, tailCls1] name _ s h

/-- A pattern that, after the literal characters of `name`, requires an
optional space and then a literal `=` cannot match a string without `=`. -/
theorem reMs_speq_nil (rest : List RE) :
    ∀ (name : Str) (fuel : Nat) (s : Str) (caps : Caps),
      (∀ c ∈ s, ¬ c = '=') →
      reMs fuel
        (mkSeq (name.map RE.lit ++ RE.rep spCls 0 (some 1) false :: RE.lit '=' :: rest))
        s caps = []
  | [], fuel, s, caps, h => by
    cases fuel with
    | zero => rfl
    | succ f =>
      show catMap _ (reMs f (RE.rep spCls 0 (some 1) false) s caps) = []
      refine catMap_eq_nil _ _ (fun q hq => ?_)
      obtain ⟨k, hk⟩ := reMs_consume f (RE.rep spCls 0 (some 1) false) s caps q hq
      have hq1 : ∀ c ∈ q.1, ¬ c = '=' := by
        intro c hc
        exact h c (List.drop_subset k s (hk ▸ hc))
      have hpre : hasPre ([] ++ [ '=' ]) q.1 = false := by
        rw [List.nil_append]
        exact hasPre_single_ne '=' q.1 hq1
      exact reMs_litpre_nil '=' rest [] f q.1 q.2 hpre
  | c :: n, fuel, s, caps, h => by
    cases fuel with
    | zero => rfl
    | succ f =>
      show catMap _ (reMs f (RE.lit c) s caps) = []
      cases s with
      | nil => rw [reMs_lit_nil]; rfl
      | cons c' s' =>
        by_cases hc : c' = c
        · subst hc
          cases f with
          | zero => rfl
          | succ f2 =>
            have hlit : reMs (f2 + 1) (RE.lit c') (c' :: s') caps = [(s', caps)] := by
              simp [reMs]
            rw [hlit]
            show reMs (f2 + 1)
              (mkSeq (n.map RE.lit ++ RE.rep spCls 0 (some 1) false :: RE.lit '=' :: rest))
              s' caps ++ catMap _ [] = []
            rw [reMs_speq_nil rest n (f2 + 1) s' caps
              (fun x hx => h x (List.mem_cons_of_mem c' hx))]
            rfl
        · rw [reMs_lit_ne c c' hc]
          rfl

theorem reSearchAux_speq_none (rest : List RE) (name : Str) (fuel : Nat) :
    ∀ (s : Str), (∀ c ∈ s, ¬ c = '=') →
      reSearchAux fuel
        (mkSeq (name.map RE.lit ++ RE.rep spCls 0 (some 1) false :: RE.lit '=' :: rest))
        s = none
  | [], h => by
    show ((reMs fuel _ [] []).head?).map Prod.snd = none
    rw [reMs_speq_nil rest name fuel [] [] h]
    rfl
  | c :: s', h => by
    show (match (reMs fuel _ (c :: s') []).head? with
      | some p => some p.2
      | none => reSearchAux fuel _ s') = none
    rw [reMs_speq_nil rest name fuel (c :: s') [] h]
    exact reSearchAux_speq_none rest name fuel s'
      (fun x hx => h x (List.mem_cons_of_mem c hx))

theorem reSearch_pat2_none (name : Str) (s : Str) (h : ∀ c ∈ s, ¬ c = '=') :
    reSearch (pat2RE name) s = none :=
  reSearchAux_speq_none [grpLazy 1, tailCls2] name _ s h

theorem reSearchAux_some_mem (fuel : Nat) (re : RE) :
    ∀ (s : Str) (caps : Caps), reSearchAux fuel re s = some caps →
      ∃ t p, p ∈ reMs fuel re t ([] : Caps) ∧ p.2 = caps
  | [], caps, h => by
    simp only [reSearchAux] at h
    rw [Option.map_eq_some'] at h
    obtain ⟨p, hp, he⟩ := h
    exact ⟨[], p, mem_of_head?_eq hp, he⟩
  | c :: s', caps, h => by
    simp only [reSearchAux] at h
    cases hh : (reMs fuel re (c :: s') []).head? with
    | some p =>
      rw [hh] at h
      injection h with h'
      exact ⟨c :: s', p, mem_of_head?_eq hh, h'⟩
    | none =>
      rw [hh] at h
      exact reSearchAux_some_mem fuel re s' caps h

theorem all_noGrpB_lits (name : Str) : (name.map RE.lit).all noGrpB = true := by
  induction name with
  | nil => rfl
  | cons c n ih => simp [List.all_cons, noGrpB, ih]

theorem reSearch_pat1_caps (name s : Str) (caps : Caps)
    (h : reSearch (pat1RE name) s = some caps) : ∃ v, capGet caps 1 = some v := by
  obtain ⟨t, p, hp, he⟩ := reSearchAux_some_mem _ _ s caps h
  have hshape : pat1RE name =
      mkSeq ((name.map RE.lit ++ [RE.lit ':']) ++
        [RE.grp 1 (mkSeq [RE.rep RE.anyc 0 none true]), tailCls1]) := by
    simp [pat1RE, grpLazy, List.append_assoc]
  rw [hshape] at hp
  have hall : (name.map RE.lit ++ [RE.lit ':']).all noGrpB = true := by
    rw [List.all_append, all_noGrpB_lits]
    rfl
  obtain ⟨v, hv⟩ := reMs_grp_tail_caps (name.map RE.lit ++ [RE.lit ':']) hall 1 _ tailCls1
    (by rfl) _ t [] p hp
  exact ⟨v, by rw [← he]; exact hv⟩

theorem reSearch_pat2_caps (name s : Str) (caps : Caps)
    (h : reSearch (pat2RE name) s = some caps) : ∃ v, capGet caps 1 = some v := by
  obtain ⟨t, p, hp, he⟩ := reSearchAux_some_mem _ _ s caps h
  have hshape : pat2RE name =
      mkSeq ((name.map RE.lit ++ [RE.rep spCls 0 (some 1) false, RE.lit '=']) ++
        [RE.grp 1 (mkSeq [RE.rep RE.anyc 0 none true]), tailCls2]) := by
    simp [pat2RE, grpLazy, List.append_assoc]
  rw [hshape] at hp
  have hall : (name.map RE.lit ++ [RE.rep spCls 0 (some 1) false, RE.lit '=']).all noGrpB =
      true := by
    rw [List.all_append, all_noGrpB_lits]
    rfl
  obtain ⟨v, hv⟩ := reMs_grp_tail_caps
    (name.map RE.lit ++ [RE.rep spCls 0 (some 1) false, RE.lit '=']) hall 1 _ tailCls2
    (by rfl) _ t [] p hp
  exact ⟨v, by rw [← he]; exact hv⟩

/-- Claim C7, counterexample.  `Parameter.__init__` interpolates the name
into its regex patterns, so the universal no-exception claim fails: the
name `(` makes the pattern unbalanced and `re.search` raises `re.error`
(modelled `none`); and the metacharacter name `a.b` matches the text
`axb:` of `f(axb: int)`, yielding `param_type = " int"` although the
signature has no type annotation for a parameter named `a.b`. -/
theorem C7_parameter_injection_counterexample :
    Parameter.ofDefStr? "(".data "d".data "f(x: int)".data = none ∧
    (Parameter.ofDefStr? "a.b".data "d".data "f(axb: int)".data).map
      (fun p => p.param_type) = some " int".data ∧
    subIn "a.b:".data "f(axb: int)".data = false := by
  refine ⟨by decide, by decide, by decide⟩

/-- Claim C7 (amended): for a name consisting only of ASCII letters,
digits and underscores — then its characters are regex-literal —
constructing a `Parameter` raises no exception; the construction keeps the
name and description, a signature without a `name:` occurrence gives an
empty `param_type`, and a signature without `=` gives an empty
`default_value`. -/
theorem C7_parameter_injection_amended (name description def_str : Str)
    (hsafe : nameSafe name = true) :
    ∃ p, Parameter.ofDefStr? name description def_str = some p ∧
      p.name = name ∧ p.description = description ∧
      (subIn (name ++ [ ':' ]) def_str = false → p.param_type = []) ∧
      ((∀ c ∈ def_str, ¬ c = '=') → p.default_value = []) := by
  have hp1 := reParse_pat1 name hsafe
  have hp2 := reParse_pat2 name hsafe
  have hnoeq : ∀ (pt : Str), (∀ c ∈ def_str, ¬ c = '=') →
      ∀ c ∈ pyReplace (pyReplace def_str [ ':' ] []) pt [], ¬ c = '=' := by
    intro pt hne c hc
    exact hne c (mem_pyReplace_nil _ _ _ (mem_pyReplace_nil _ _ _ hc))
  cases h1 : reSearch (pat1RE name) def_str with
  | none =>
    cases h2 : reSearch (pat2RE name) (pyReplace (pyReplace def_str [ ':' ] []) [] []) with
    | none =>
      refine ⟨⟨name, description, [], []⟩, ?_, rfl, rfl, fun _ => rfl, fun _ => rfl⟩
      simp only [Parameter.ofDefStr?, hp1, h1, hp2, h2]
    | some caps =>
      obtain ⟨g, hg⟩ := reSearch_pat2_caps name _ caps h2
      refine ⟨⟨name, description, [], pyStrip g⟩, ?_, rfl, rfl, fun _ => rfl, fun hne => ?_⟩
      · simp only [Parameter.ofDefStr?, hp1, h1, hp2, h2, hg]
      · rw [reSearch_pat2_none name _ (hnoeq [] hne)] at h2
        exact absurd h2 (by simp)
  | some caps =>
    obtain ⟨g, hg⟩ := reSearch_pat1_caps name _ caps h1
    cases h2 : reSearch (pat2RE name)
        (pyReplace (pyReplace def_str [ ':' ] [])
          (if g.contains ']' then g.takeWhile (fun c => c ≠ ']') ++ [ ']' ]
           else g.takeWhile (fun c => c ≠ ',')) []) with
    | none =>
      refine ⟨⟨name, description,
        (if g.contains ']' then g.takeWhile (fun c => c ≠ ']') ++ [ ']' ]
         else g.takeWhile (fun c => c ≠ ',')), []⟩, ?_, rfl, rfl, fun hsub => ?_,
        fun _ => rfl⟩
      · simp only [Parameter.ofDefStr?, hp1, h1, hg, hp2, h2]
      · rw [reSearch_pat1_none name def_str hsub] at h1
        exact absurd h1 (by simp)
    | some caps2 =>
      obtain ⟨g2, hg2⟩ := reSearch_pat2_caps name _ caps2 h2
      refine ⟨⟨name, description,
        (if g.contains ']' then g.takeWhile (fun c => c ≠ ']') ++ [ ']' ]
         else g.takeWhile (fun c => c ≠ ',')), pyStrip g2⟩, ?_, rfl, rfl, fun hsub => ?_,
        fun hne => ?_⟩
      · simp only [Parameter.ofDefStr?, hp1, h1, hg, hp2, h2, hg2]
      · rw [reSearch_pat1_none name def_str hsub] at h1
        exact absurd h1 (by simp)
      · rw [reSearch_pat2_none name _ (hnoeq _ hne)] at h2
        exact absurd h2 (by simp)

/-- Witness for the amended C7 at the safe name `a` and the signature
`f(a, b)`, which has no type annotation and no `=`: construction succeeds
with empty `param_type` and `default_value`. -/
theorem C7_parameter_injection_amended_witness :
    Parameter.ofDefStr? "a".data "desc".data "f(a, b)".data =
      some ⟨"a".data, "desc".data, [], []⟩ := by
  obtain ⟨p, hp, hn, hd, ht, hv⟩ :=
    C7_parameter_injection_amended "a".data "desc".data "f(a, b)".data (by decide)
  have hteq := ht (by decide)
  have hveq := hv (by decide)
  rw [hp]
  cases p
  simp only [Option.some.injEq, Parameter.mk.injEq]
  exact ⟨hn, hd, hteq, hveq⟩

/-! ## Claim C2: override precedence in `get_from_text` -/

/-- Claim C2, as stated, is false: when the child's block for `foo` has no
docstring (its body ends in `*`), the merged document keeps the ancestor's
block — the output contains the ancestor-only text `Parent foo doc.`,
which occurs nowhere in the child document. -/
theorem C2_override_counterexample :
    (getFromText cx2Child [cx2Parent]).isSome = true ∧
      subIn "Parent foo doc.".data ((getFromText cx2Child [cx2Parent]).getD []) = true ∧
      subIn "Parent foo doc.".data cx2Child = false := by
  refine ⟨by decide, by decide, by decide⟩

/-- Claim C2 (amended): if the child documents a function name exactly
once and that block has a docstring (its stripped body is nonempty and
does not end in `*`), the merged functions dictionary binds the name to
the child's stripped block body — never the ancestor's — and the merged
document produced by `get_from_text` contains the child's block, rendered
as its heading followed by the stripped body.  (A child block whose body
ends in `*` is skipped and the nearest ancestor's block is kept instead.)
The side conditions say that the later ancestor-name rewriting and
section-break normalisation steps do not fire. -/
theorem C2_override_amended
    (child_text ccn name body spliced : Str) (parent_texts pcns : List Str)
    (fns : Entries) (n : Nat) (q : Str × Bool × Str)
    (h_hdr : searchHashHeader child_text = some ccn)
    (h_cv : parent_texts.foldl (fun acc t => acc ++ extractCvRows t) [] ++
      extractCvRows child_text = [])
    (h_pf : parent_texts.foldl (fun acc t => acc ++ extractFieldLines t) [] = [])
    (h_pcns : parent_texts.mapM searchHashHeader = some pcns)
    (h_fns : mergedFns ccn child_text parent_texts = some fns)
    (h_fn_in : subIn fnHeaderLit child_text = true)
    (h_scan : scanLS tryFnSec true child_text = some (n, q))
    (h_tmpl : expandTemplate [q.1] ("## Functions\n\n".data ++ functionTextOf fns) =
      some ("## Functions\n\n".data ++ functionTextOf fns))
    (h_nomore : scanLS tryFnSec false q.2.2 = none)
    (h_sp : spliced =
      child_text.take n ++ ("## Functions\n\n".data ++ functionTextOf fns) ++ q.2.2)
    (h_t1 : subIn "***\n\n***".data spliced = false)
    (h_t2 : ∀ pcn ∈ pcns, subIn (pcn ++ [ '(' ]) spliced = false ∧
      subIn (ccn ++ [ '(' ] ++ pcn ++ [ ')' ]) spliced = false)
    (h_t3 : subIn cvHeaderLit spliced = false)
    (h_t4 : subIn (ccn ++ "(ABC)".data) spliced = false)
    (h_blk : (fnBlocksOf child_text).filter (fun fb => decide (fb.1 = name)) = [(name, body)])
    (h_star : (pyStrip body).getLast? ≠ some '*') :
    getFromText child_text parent_texts = some spliced ∧
      dGet? fns name = some (pyStrip body) ∧
      subIn (h4sp ++ name ++ "\n\n".data ++ pyStrip body) spliced = true := by
  have hfns' := h_fns
  unfold mergedFns at hfns'
  rcases Option.bind_eq_some.mp hfns' with ⟨fns1, hpar, hchild⟩
  have ha : dGet? fns name = some (pyStrip body) :=
    childFold_sets name body _ fns1 fns hchild h_blk h_star
  have hmem : (name, pyStrip body) ∈ fns := dGet?_mem _ _ _ ha
  have hbIn : subIn (h4sp ++ name ++ "\n\n".data ++ pyStrip body) (functionTextOf fns) = true := by
    have h := subIn_functionTextOf (name, pyStrip body) fns hmem
    simpa using h
  have hsub := subAllFnSecE_single ("## Functions\n\n".data ++ functionTextOf fns)
    child_text ("## Functions\n\n".data ++ functionTextOf fns) n q h_scan h_tmpl h_nomore
  have hsplice : gftFnSplice child_text fns = some spliced := by
    unfold gftFnSplice
    rw [h_fn_in]
    simp only [if_true]
    rw [hsub, h_sp]
  have hout : getFromText child_text parent_texts = some spliced := by
    unfold getFromText
    rw [h_hdr]
    simp only [bind, Option.bind]
    rw [gftCvPhase_of_no_rows child_text parent_texts h_cv]
    simp only [Option.bind]
    rw [gftFieldPhase_of_no_fields child_text parent_texts h_pf]
    simp only [Option.bind]
    rw [h_pcns]
    simp only [Option.bind]
    rw [h_fns]
    simp only [Option.bind]
    rw [hsplice]
    show some (gftTail ccn pcns spliced) = some spliced
    rw [gftTail_id ccn pcns spliced h_t1 h_t2 h_t3 h_t4]
  refine ⟨hout, ha, ?_⟩
  rw [h_sp]
  exact subIn_append_right _ _ _ (subIn_append_left' _ _ _ (subIn_append_left' _ _ _ hbIn))

/-- Witness for the amended claim C2 at concrete documents in which both
child and parent document `foo`, the child with the docstring
`Child foo doc.`: the merged document keeps the child's block. -/
theorem C2_override_amended_witness :
    getFromText wit2Child [wit2Parent] =
        some (wit2Child.take 27 ++
          ("## Functions\n\n".data ++
            functionTextOf ((mergedFns "Child".data wit2Child [wit2Parent]).getD [])) ++ []) ∧
      dGet? ((mergedFns "Child".data wit2Child [wit2Parent]).getD []) "foo".data =
        some (pyStrip "\n\n**`self.foo()`**\n\nChild foo doc.".data) := by
  have h := C2_override_amended wit2Child "Child".data "foo".data
    "\n\n**`self.foo()`**\n\nChild foo doc.".data
    (wit2Child.take 27 ++
      ("## Functions\n\n".data ++
        functionTextOf ((mergedFns "Child".data wit2Child [wit2Parent]).getD [])) ++ [])
    [wit2Parent] ["Parent".data]
    ((mergedFns "Child".data wit2Child [wit2Parent]).getD []) 27
    ("\n\n#### \\_\\_init\\_\\_\n\n**`Child()`**\n\nMake one.\n\n#### foo\n\n**`self.foo()`**\n\nChild foo doc.".data,
      false, [])
    (by decide) (by decide) (by decide) (by decide) (by decide) (by decide) (by decide)
    (by decide) (by decide) (by decide) (by decide) (by decide) (by decide) (by decide)
    (by decide) (by decide)
  exact ⟨h.1, h.2.1⟩

/-! ## Claim C3: class-variable merge union invariant -/

/-- Claim C3: the consolidated class-variables rows are exactly the
deduplicated union of the ancestors' rows `A` and the child's rows `C`,
sorted in Python's string order: their set is `A ∪ C`, they are duplicate
free and sorted, their count is the cardinality of `set(A) | set(C)`, and
the consolidated table (the fixed table head followed by the rows) is
substituted for the child's existing section by the class-variables
`re.sub`, hence contained in the updated child document. -/
theorem C3_class_variable_union
    (child_text : Str) (parent_texts : List Str) (A C rows : List Str)
    (n : Nat) (b : CvBody) (out : Str)
    (_hA : parent_texts.foldl (fun acc t => acc ++ extractCvRows t) [] = A)
    (_hC : extractCvRows child_text = C)
    (hrows : pySortedSet (A ++ C) = rows)
    (hscan : scanLS tryCv true child_text = some (n, b))
    (htmpl : expandTemplate [b.lineA, b.lineB, b.g3]
        (cvTableHeader ++ joinSep [ '\n' ] rows) =
      some (cvTableHeader ++ joinSep [ '\n' ] rows))
    (hnomore : scanLS tryCv false b.rest = none)
    (hgft : getFromText child_text parent_texts = some out) :
    rows.toFinset = A.toFinset ∪ C.toFinset ∧
      rows.Nodup ∧
      List.Sorted (fun a b => strLe a b = true) rows ∧
      rows.length = (A.toFinset ∪ C.toFinset).card ∧
      subAllCvE (cvTableHeader ++ joinSep [ '\n' ] rows) (child_text.length + 1) true
          child_text =
        some (child_text.take n ++ (cvTableHeader ++ joinSep [ '\n' ] rows) ++ b.rest) ∧
      subIn (cvTableHeader ++ joinSep [ '\n' ] rows)
        (child_text.take n ++ (cvTableHeader ++ joinSep [ '\n' ] rows) ++ b.rest) = true ∧
      (getFromText child_text parent_texts).isSome = true := by
  subst hrows
  have hperm := List.perm_insertionSort (fun a b => strLe a b = true) (A ++ C).dedup
  refine ⟨?_, ?_, ?_, ?_, ?_, ?_, ?_⟩
  · ext x
    simp only [List.mem_toFinset, Finset.mem_union]
    rw [show pySortedSet (A ++ C) =
      List.insertionSort (fun a b => strLe a b = true) (A ++ C).dedup from rfl]
    rw [hperm.mem_iff, List.mem_dedup, List.mem_append]
  · exact hperm.nodup_iff.mpr (List.nodup_dedup _)
  · exact List.sorted_insertionSort _ _
  · rw [show pySortedSet (A ++ C) =
      List.insertionSort (fun a b => strLe a b = true) (A ++ C).dedup from rfl]
    rw [hperm.length_eq, ← List.toFinset_append]
    rw [List.card_toFinset]
  · exact subAllCvE_single _ _ _ n b hscan htmpl hnomore
  · exact subIn_append_right _ _ _ (subIn_append_left' _ _ _ (subIn_self _))
  · rw [hgft]
    rfl

/-- Witness for claim C3 at concrete documents: ancestor rows `A`, `C` and
child rows `B`, `A` merge to the sorted deduplicated union `A`, `B`, `C`,
of size 3, and the consolidated table appears in the final merged
document. -/
theorem C3_class_variable_union_witness :
    ("| `A` | int | a. | 1 |\n| `B` | int | b. | 2 |\n| `C` | int | c. | 3 |".data ≠ [] →
      True) ∧
      (pySortedSet
          (["| `A` | int | a. | 1 |".data, "| `C` | int | c. | 3 |".data] ++
            ["| `B` | int | b. | 2 |".data, "| `A` | int | a. | 1 |".data])).length =
        ((["| `A` | int | a. | 1 |".data, "| `C` | int | c. | 3 |".data] : List Str).toFinset ∪
          (["| `B` | int | b. | 2 |".data, "| `A` | int | a. | 1 |".data] : List Str).toFinset).card ∧
      subIn
        (cvTableHeader ++ joinSep [ '\n' ]
          (pySortedSet
            (["| `A` | int | a. | 1 |".data, "| `C` | int | c. | 3 |".data] ++
              ["| `B` | int | b. | 2 |".data, "| `A` | int | a. | 1 |".data])))
        ((getFromText wit3Child [wit3Parent]).getD []) = true := by
  have h := C3_class_variable_union wit3Child [wit3Parent]
    ["| `A` | int | a. | 1 |".data, "| `C` | int | c. | 3 |".data]
    ["| `B` | int | b. | 2 |".data, "| `A` | int | a. | 1 |".data]
    (pySortedSet
      (["| `A` | int | a. | 1 |".data, "| `C` | int | c. | 3 |".data] ++
        ["| `B` | int | b. | 2 |".data, "| `A` | int | a. | 1 |".data]))
    27
    ⟨ "| Variable | Type | Description | Value |".data,
      "| --- | --- | --- | --- |".data,
      "| `B` | int | b. | 2 |\n| `A` | int | a. | 1 |\n\n".data,
      true,
      "\n\n## Functions\n\n#### \\_\\_init\\_\\_\n\n**`Child()`**\n\nMake one.".data ⟩
    ((getFromText wit3Child [wit3Parent]).getD [])
    (by decide) (by decide) (by decide) (by decide) (by decide) (by decide) (by decide)
  exact ⟨fun _ => trivial, h.2.2.2.1, by decide⟩

/-! ## Claim C8: constructor-first merged function order -/

/-- Claim C8, as stated, is false on the first-discovered reading: with a
nearest ancestor documenting `f` without a docstring and `g` with one, and
a farther ancestor documenting `f` with one, the merged document's blocks
come out in the order `__init__`, `g`, `f`, while first-discovered order
would put `f` before `g` (the code skips the docstring-less `f` of the
nearest ancestor and only adopts `f` at its later rediscovery). -/
theorem C8_function_order_counterexample :
    (getFromText cx8Child [cx8P1, cx8P2]).isSome = true ∧
      fnHeadingNames ((getFromText cx8Child [cx8P1, cx8P2]).getD []) =
        [escInit, "g".data, "f".data] ∧
      specNaiveOrder ([cx8P1, cx8P2].map fnBlocksOf) (fnBlocksOf cx8Child) =
        [escInit, "f".data, "g".data] ∧
      fnHeadingNames ((getFromText cx8Child [cx8P1, cx8P2]).getD []) ≠
        specNaiveOrder ([cx8P1, cx8P2].map fnBlocksOf) (fnBlocksOf cx8Child) := by
  refine ⟨by decide, by decide, by decide, by decide⟩

/-- Claim C8 (amended): the merged functions dictionary always has the
escaped constructor name as its first key, so the composed Functions
section text begins with the constructor block; the remaining keys are in
first non-skipped discovery order across the ancestors (nearest first) and
then the child — an ancestor block without a docstring (stripped body
ending in `*`) is skipped, so a name seen there is placed only at its
first non-skipped discovery; and when neither the child nor any ancestor
documents a constructor, and the child has no constructor block at all,
the constructor entry is the synthesized no-argument stub. -/
theorem C8_function_order_amended (c2 ccn : Str) (parent_texts : List Str) (fns : Entries)
    (hfns : mergedFns ccn c2 parent_texts = some fns) :
    dKeys fns = specFnOrder (parent_texts.map fnBlocksOf) (fnBlocksOf c2) ∧
      (∃ rest, dKeys fns = escInit :: rest) ∧
      hasPre ("#### \\_\\_init\\_\\_\n\n".data) (functionTextOf fns) = true ∧
      hasPre ("## Functions\n\n#### \\_\\_init\\_\\_\n\n".data)
        ("## Functions\n\n".data ++ functionTextOf fns) = true ∧
      (searchInitBlock c2 = none →
        (parent_texts.map searchInitBlock).findSome? id = none →
        (∀ fb ∈ fnBlocksOf c2, fb.1 ≠ escInit) →
        dGet? fns escInit = some (escInit ++ "\n\n**`".data ++ ccn ++ "()`**".data)) := by
  have hkeys := mergedFns_keys ccn c2 parent_texts fns hfns
  have hhead : ∃ rest, dKeys fns = escInit :: rest := by
    rw [hkeys]
    exact specFnOrder_head _ _
  rcases hhead with ⟨rest, hrest⟩
  have hstart := functionTextOf_starts fns rest hrest
  refine ⟨hkeys, ⟨rest, hrest⟩, hstart, ?_, ?_⟩
  · have hlit : ("## Functions\n\n#### \\_\\_init\\_\\_\n\n".data : Str) =
        "## Functions\n\n".data ++ "#### \\_\\_init\\_\\_\n\n".data := by decide
    rw [hlit]
    have gen : ∀ (x p s : Str), hasPre p s = true → hasPre (x ++ p) (x ++ s) = true := by
      intro x
      induction x with
      | nil => intro p s h; exact h
      | cons c t ih =>
        intro p s h
        simp only [List.cons_append, hasPre, if_pos rfl]
        exact ih p s h
    exact gen _ _ _ hstart
  · intro hci hpi hnb
    have hfns' := hfns
    unfold mergedFns at hfns'
    rcases Option.bind_eq_some.mp hfns' with ⟨fns1, hpar, hchild⟩
    have hseedmem : dHas [(escInit, initEntryOf ccn c2 parent_texts)] escInit = true := by
      simp [dHas]
    rcases parentsFold_preserve_escInit parent_texts _ fns1 hpar hseedmem with ⟨hg1, _⟩
    have hg2 : dGet? fns escInit = dGet? fns1 escInit :=
      childFold_preserve escInit (fnBlocksOf c2) fns1 fns hchild hnb
    rw [hg2, hg1]
    have hstub : initEntryOf ccn c2 parent_texts =
        escInit ++ "\n\n**`".data ++ ccn ++ "()`**".data := by
      unfold initEntryOf
      rw [hci, hpi]
    rw [show dGet? [(escInit, initEntryOf ccn c2 parent_texts)] escInit =
      some (initEntryOf ccn c2 parent_texts) from rfl]
    rw [hstub]

/-- Witness for the amended claim C8 at concrete documents in which
neither child nor parent documents a constructor: the merged keys are the
constructor stub first, then `alpha` (child) after `beta` (parent) in
discovery order, and the constructor entry is the synthesized stub. -/
theorem C8_function_order_amended_witness :
    dKeys ((mergedFns "Child".data wit8Child [wit8Parent]).getD []) =
        specFnOrder ([wit8Parent].map fnBlocksOf) (fnBlocksOf wit8Child) ∧
      dGet? ((mergedFns "Child".data wit8Child [wit8Parent]).getD []) escInit =
        some (escInit ++ "\n\n**`".data ++ "Child".data ++ "()`**".data) := by
  have h := C8_function_order_amended wit8Child "Child".data [wit8Parent]
    ((mergedFns "Child".data wit8Child [wit8Parent]).getD []) (by decide)
  exact ⟨h.1, h.2.2.2.2 (by decide) (by decide) (by decide)⟩

/-! ## Supporting lemmas for the `py_md_doc.py` claims -/

theorem hasPre_parts (p : Str) : ∀ s : Str, hasPre p s = true → ∃ r, s = p ++ r := by
  induction p with
  | nil => intro s _; exact ⟨s, rfl⟩
  | cons c t ih =>
    intro s h
    cases s with
    | nil => simp [hasPre] at h
    | cons d u =>
      simp only [hasPre] at h
      by_cases hcd : c = d
      · subst hcd
        simp only [if_pos rfl] at h
        obtain ⟨r, hr⟩ := ih u h
        exact ⟨r, by simp [hr]⟩
      · simp [hcd] at h

theorem subIn_parts (p : Str) : ∀ s : Str, subIn p s = true → ∃ a b, s = a ++ (p ++ b) := by
  intro s
  induction s with
  | nil =>
    intro h
    simp only [subIn] at h
    obtain ⟨r, hr⟩ := hasPre_parts p [] h
    exact ⟨[], r, hr⟩
  | cons c t ih =>
    intro h
    simp only [subIn, Bool.or_eq_true] at h
    cases h with
    | inl h =>
      obtain ⟨r, hr⟩ := hasPre_parts p _ h
      exact ⟨[], r, hr⟩
    | inr h =>
      obtain ⟨a, b, hab⟩ := ih h
      exact ⟨c :: a, b, by simp [hab]⟩

theorem subIn_of_parts (p a b : Str) : subIn p (a ++ (p ++ b)) = true :=
  subIn_append_left' p a (p ++ b) (subIn_append_self p b)

theorem getLast?_parts_not_nl (p b : Str) (hp : p ≠ [])
    (hnl : p.all (fun c => c ≠ '\n') = true) (a : Str)
    (hb : b = []) (hl : (a ++ (p ++ b)).getLast? = some '\n') : False := by
  subst hb
  rw [List.append_nil] at hl
  rw [List.getLast?_append_of_ne_nil a hp] at hl
  have hm := List.mem_of_mem_getLast? hl
  have := List.all_eq_true.mp hnl '\n' hm
  simp at this

theorem pyTrimOneNl_parts (a p b : Str) (hp : p ≠ [])
    (hnl : p.all (fun c => c ≠ '\n') = true) :
    ∃ b', pyTrimOneNl (a ++ (p ++ b)) = some (a ++ (p ++ b')) := by
  have hne : a ++ (p ++ b) ≠ [] := by
    intro h
    rcases List.append_eq_nil.mp h with ⟨_, h2⟩
    rcases List.append_eq_nil.mp h2 with ⟨h3, _⟩
    exact hp h3
  unfold pyTrimOneNl
  rw [if_neg (by simpa using hne)]
  by_cases hl : (a ++ (p ++ b)).getLast? = some '\n'
  · rw [if_pos hl]
    cases b with
    | nil => exact absurd hl (fun h => getLast?_parts_not_nl p [] hp hnl a rfl h)
    | cons x xs =>
      refine ⟨(x :: xs).dropLast, ?_⟩
      rw [← List.append_assoc]
      rw [List.dropLast_append_of_ne_nil (a ++ p) (by simp)]
      simp [List.append_assoc]
  · rw [if_neg hl]
    exact ⟨b, rfl⟩

theorem dropWhile_nl_parts (p : Str) (hp : p ≠ [])
    (hnl : p.all (fun c => c ≠ '\n') = true) (v u : Str) :
    ∃ u', List.dropWhile (fun c => c = '\n') (u ++ (p.reverse ++ v)) =
      u' ++ (p.reverse ++ v) := by
  rw [List.dropWhile_append]
  by_cases he : (List.dropWhile (fun c => c = '\n') u).isEmpty
  · rw [if_pos he]
    obtain ⟨c, r, hrev⟩ : ∃ c r, p.reverse = c :: r := by
      cases hq : p.reverse with
      | nil => exact absurd (by simpa using hq) hp
      | cons c r => exact ⟨c, r, rfl⟩
    have hcp : c ∈ p := by
      have : c ∈ p.reverse := by rw [hrev]; exact List.mem_cons_self c r
      simpa using this
    have hcne : ¬ c = '\n' := by
      have := List.all_eq_true.mp hnl c hcp
      simpa using this
    refine ⟨[], ?_⟩
    rw [hrev, List.cons_append, List.dropWhile_cons]
    simp [hcne]
  · rw [if_neg he]
    exact ⟨_, rfl⟩

theorem pyTrimNl_parts (a p b : Str) (hp : p ≠ [])
    (hnl : p.all (fun c => c ≠ '\n') = true) :
    ∃ b', pyTrimNl (a ++ (p ++ b)) = some (a ++ (p ++ b')) := by
  obtain ⟨u', hu⟩ := dropWhile_nl_parts p hp hnl a.reverse b.reverse
  unfold pyTrimNl
  have hrev : (a ++ (p ++ b)).reverse = b.reverse ++ (p.reverse ++ a.reverse) := by
    simp [List.append_assoc]
  rw [hrev, hu]
  have hres : (u' ++ (p.reverse ++ a.reverse)).reverse =
      a ++ (p ++ u'.reverse) := by
    simp [List.append_assoc]
  rw [hres]
  have hne : a ++ (p ++ u'.reverse) ≠ [] := by
    intro h
    rcases List.append_eq_nil.mp h with ⟨_, h2⟩
    rcases List.append_eq_nil.mp h2 with ⟨h3, _⟩
    exact hp h3
  rw [if_neg (by simpa using hne)]
  exact ⟨u'.reverse, rfl⟩

theorem expandTemplate_no_bs (g : List Str) :
    ∀ t : Str, t.all (fun c => c ≠ '\\') = true → expandTemplate g t = some t := by
  intro t
  induction t with
  | nil => intro _; rfl
  | cons c r ih =>
    intro h
    simp only [List.all_cons, Bool.and_eq_true] at h
    have hc : ¬ c = '\\' := by simpa using h.1
    have hr := ih h.2
    unfold expandTemplate
    split
    · rename_i heq
      exact absurd heq (by simp)
    · rename_i d rest heq
      injection heq with h1 h2
      exact absurd h1 hc
    · rename_i heq
      have h1 : c = '\\' := by injection heq
      exact absurd h1 hc
    · rename_i c2 rest2 f1 f2 heq
      injection heq with h1 h2
      subst h2
      simp [hr, ← h1]

theorem findIdxSub_hasPre (pat : Str) :
    ∀ (s : Str) (i : Nat), findIdxSub pat s = some i → hasPre pat (s.drop i) = true := by
  intro s
  induction s with
  | nil =>
    intro i h
    simp only [findIdxSub] at h
    split at h
    · rename_i hh; injection h with h'; subst h'; simpa using hh
    · exact absurd h (by simp)
  | cons c t ih =>
    intro i h
    simp only [findIdxSub] at h
    split at h
    · rename_i hh; injection h with h'; subst h'; simpa using hh
    · rename_i hh
      cases hfi : findIdxSub pat t with
      | none => rw [hfi] at h; simp at h
      | some j =>
        rw [hfi] at h
        simp only [Option.map_some'] at h
        injection h with h'
        subst h'
        simpa using ih j hfi

theorem foldl_append_exists : ∀ (fns : List Str) (d : Str),
    ∃ e, fns.foldl (fun a f => a ++ f) d = d ++ e := by
  intro fns
  induction fns with
  | nil => intro d; exact ⟨[], by simp⟩
  | cons f r ih =>
    intro d
    obtain ⟨e, he⟩ := ih (d ++ f)
    exact ⟨f ++ e, by simp only [List.foldl_cons, he, List.append_assoc]⟩

theorem gdClassBranch_mono (si : List Str) (ri fileName fileTxt : Str) (lines : List Str)
    (st : DocSt) (line : Str) (i : Nat) (st' : DocSt)
    (h : gdClassBranch si ri fileName fileTxt lines st line i = some st') :
    (∃ d, st'.doc = st.doc ++ d) ∧ st'.warnings = st.warnings := by
  unfold gdClassBranch at h
  split at h
  · injection h with h'
    subst h'
    exact ⟨⟨[], by simp⟩, rfl⟩
  · split at h
    · exact absurd h (by simp)
    · split at h
      · exact absurd h (by simp)
      · injection h with h'
        subst h'
        exact ⟨⟨_, by simp only [List.append_assoc]; rfl⟩, rfl⟩

theorem gdDefBranch_mono (md : Metadata) (lines : List Str) (st : DocSt) (line : Str)
    (i : Nat) (st' : DocSt) (h : gdDefBranch md lines st line i = some st') :
    (∃ d, st'.doc = st.doc ++ d) ∧ (∃ w, st'.warnings = st.warnings ++ w) := by
  unfold gdDefBranch at h
  split at h
  · injection h with h'
    subst h'
    exact ⟨⟨[], by simp⟩, ⟨[], by simp⟩⟩
  · split at h
    · exact absurd h (by simp)
    · split at h
      · exact absurd h (by simp)
      · split at h
        · exact absurd h (by simp)
        · split at h
          · injection h with h'
            subst h'
            exact ⟨⟨_, by simp only [List.append_assoc]; rfl⟩, ⟨[], by simp⟩⟩
          · split at h
            · injection h with h'
              subst h'
              exact ⟨⟨_, by simp only [List.append_assoc]; rfl⟩, ⟨_, rfl⟩⟩
            · injection h with h'
              subst h'
              exact ⟨⟨_, by simp only [List.append_assoc]; rfl⟩, ⟨[], by simp⟩⟩

theorem getDocStep_mono (si : List Str) (ri fileName : Str) (md : Metadata) (fileTxt : Str)
    (lines : List Str) (st : DocSt) (i : Nat) (st' : DocSt)
    (h : getDocStep si ri fileName md fileTxt lines st i = some st') :
    (∃ d, st'.doc = st.doc ++ d) ∧ (∃ w, st'.warnings = st.warnings ++ w) := by
  unfold getDocStep at h
  split at h
  · exact absurd h (by simp)
  · split at h
    · obtain ⟨hd, hw⟩ := gdClassBranch_mono _ _ _ _ _ _ _ _ _ h
      exact ⟨hd, ⟨[], by simp [hw]⟩⟩
    · split at h
      · exact gdDefBranch_mono _ _ _ _ _ _ h
      · injection h with h'
        subst h'
        exact ⟨⟨[], by simp⟩, ⟨[], by simp⟩⟩

theorem getDocFold_mono (si : List Str) (ri fileName : Str) (md : Metadata) (fileTxt : Str)
    (lines : List Str) :
    ∀ (idxs : List Nat) (st st' : DocSt),
      idxs.foldlM (getDocStep si ri fileName md fileTxt lines) st = some st' →
      (∃ d, st'.doc = st.doc ++ d) ∧ (∃ w, st'.warnings = st.warnings ++ w) := by
  intro idxs
  induction idxs with
  | nil =>
    intro st st' h
    injection h with h'
    subst h'
    exact ⟨⟨[], by simp⟩, ⟨[], by simp⟩⟩
  | cons i rest ih =>
    intro st st' h
    rw [List.foldlM_cons] at h
    obtain ⟨st1, h1, h2⟩ := Option.bind_eq_some.mp h
    obtain ⟨⟨d1, hd1⟩, ⟨w1, hw1⟩⟩ := getDocStep_mono _ _ _ _ _ _ _ _ _ h1
    obtain ⟨⟨d2, hd2⟩, ⟨w2, hw2⟩⟩ := ih st1 st' h2
    exact ⟨⟨d1 ++ d2, by rw [hd2, hd1, List.append_assoc]⟩,
           ⟨w1 ++ w2, by rw [hw2, hw1, List.append_assoc]⟩⟩

theorem finalCatFold_mono :
    ∀ (cats : List (Str × CategoryMeta)) (fbc : List (Str × List Str)) (acc d : Str),
      finalCatFold fbc cats acc = some d → ∃ e, d = acc ++ e := by
  intro cats
  induction cats with
  | nil =>
    intro fbc acc d h
    unfold finalCatFold at h
    simp only [List.foldlM_nil] at h
    injection h with h'
    exact ⟨[], by simp [← h']⟩
  | cons c rest ih =>
    intro fbc acc d h
    unfold finalCatFold at h
    rw [List.foldlM_cons] at h
    obtain ⟨acc1, h1, h2⟩ := Option.bind_eq_some.mp h
    have h2' : finalCatFold fbc rest acc1 = some d := h2
    obtain ⟨e2, he2⟩ := ih fbc acc1 d h2'
    have hstep : ∃ e1, acc1 = acc ++ e1 := by
      split at h1
      · injection h1 with h'
        exact ⟨[], by simp [← h']⟩
      · cases hag : aGet? fbc c.1 with
        | none =>
          simp only [hag] at h1
          exact absurd h1 (by simp)
        | some fns =>
          simp only [hag] at h1
          by_cases hcon : c.1 = "Constructor".data
          · rw [if_pos hcon] at h1
            injection h1 with h'
            obtain ⟨e, he⟩ := foldl_append_exists fns acc
            exact ⟨e ++ "***\n\n".data, by rw [← h', he, List.append_assoc]⟩
          · rw [if_neg hcon] at h1
            injection h1 with h'
            obtain ⟨e, he⟩ := foldl_append_exists fns
              (acc ++ "### ".data ++ c.1 ++ "\n\n".data ++
                (if c.2.description.isEmpty then []
                 else catDescSub c.2.description ++ "\n\n".data))
            exact ⟨_, by rw [← h', he]; simp only [List.append_assoc]; rfl⟩
    obtain ⟨e1, he1⟩ := hstep
    exact ⟨e1 ++ e2, by rw [he2, he1, List.append_assoc]⟩

theorem blockSubAll_decomp (f tmpl : Str) (fuel : Nat) (s : Str) (j : Nat) (r : Str)
    (hj : findIdxSub (h4sp ++ interpName f) s = some j)
    (hplain : tmpl.all (fun c => c ≠ '\\') = true)
    (h : blockSubAll f tmpl (fuel + 1) s = some r) :
    ∃ rest, r = s.take j ++ (tmpl ++ rest) := by
  unfold blockSubAll at h
  simp only [hj] at h
  split at h
  · rename_i hidx
    rw [expandTemplate_no_bs _ _ hplain] at h
    simp only [bind, Option.bind] at h
    split at h
    · exact absurd h (by simp)
    · rename_i tail htail
      injection h with h'
      exact ⟨tail, by simp [← h', List.append_assoc]⟩
  · rw [expandTemplate_no_bs _ _ hplain] at h
    simp only [bind, Option.bind] at h
    injection h with h'
    exact ⟨[], by simp [← h', List.append_assoc]⟩

/-- C4, counterexample.  The claim says malformed docstring blocks yield an
empty description without raising and that the scan aborts at the next
declaration.  In fact: (1) when `f` has no docstring the scan runs into
the following declaration `g` and returns `g`'s docstring as `f`'s
description; (2) `get_class_description` raises `AttributeError`
(modelled `none`) on a class without a docstring instead of returning an
empty description; (3) an unterminated docstring block yields the partial
text, not an empty description. -/
theorem C4_docstring_recovery_counterexample :
    (getFunctionDocumentation (linesOf cx4Txt) 5 "Foo".data).map
      (subIn "Doc of g.".data) = some true ∧
    getClassDescription "class Foo:\n    pass\n".data = none ∧
    (getFunctionDocumentation (linesOf cx4bTxt) 5 "Foo".data).map
      (subIn "Start of doc".data) = some true := by
  refine ⟨by decide, by decide, by decide⟩

/-- C4 (amended): the docstring scan of `get_function_documentation` is a
total function of the lines (no exception is possible), and when no line
after the declaration contains a triple quote it leaves the scan state
untouched: no parameters, empty return description, empty description.
It does not stop at a subsequent declaration: it keeps consuming lines
until a second triple-quote line, as the counterexample shows. -/
theorem C4_docstring_scan_amended (def_str : Str) (rest : List Str)
    (h : ∀ l ∈ rest, subIn q3lit (pyStrip l) = false) :
    fnDocScan def_str fnScanSt0 rest = fnScanSt0 := by
  induction rest with
  | nil => rfl
  | cons l ls ih =>
    have h0 := h l (List.mem_cons_self _ _)
    have ih' := ih (fun x hx => h x (List.mem_cons_of_mem _ hx))
    simp only [fnDocScan, h0, Bool.false_eq_true, if_false]
    simpa [fnScanSt0] using ih'

/-- C4 amended witness at a concrete declaration tail with no docstring. -/
theorem C4_docstring_scan_amended_witness :
    (∀ l ∈ [ "        return".data, ([] : Str) ], subIn q3lit (pyStrip l) = false) ∧
    fnDocScan "f(self)".data fnScanSt0 [ "        return".data, ([] : Str) ] = fnScanSt0 :=
  ⟨by decide, C4_docstring_scan_amended "f(self)".data _ (by decide)⟩

/-- C5, counterexample.  The private-function test of `get_doc` skips a
`def _...` line only when the whole line does not contain `__init__` as a
substring; the function `_hidden` below carries `__init__` inside a
default-value string, so its block `#### _hidden` appears in the rendered
document although its name starts with an underscore and is not the
constructor. -/
theorem C5_private_exclusion_counterexample :
    (getDoc [] "mod".data "foo.py".data [] cx5Txt none).map
      (fun p => subIn "#### _hidden".data p.1) = some true ∧
    hasPre "def ".data (pyStrip "    def _hidden(self, x=\"__init__\"):".data) = true ∧
    subIn "def _".data "    def _hidden(self, x=\"__init__\"):".data = true := by
  refine ⟨by decide, by decide, by decide⟩

/-- C5 (amended): a class line matching the private-class pattern leaves
the `get_doc` state unchanged (no section is added), and a `def` line
matching `def _` is skipped — contributing no block — exactly when the
line does not contain the substring `__init__` (rather than when the name
is the constructor). -/
theorem C5_private_exclusion_amended (si : List Str) (ri fileName : Str) (md : Metadata)
    (fileTxt : Str) (lines : List Str) (st : DocSt) (i : Nat) (l : Str)
    (hl : lines.get? i = some l) :
    (hasPre "class".data l = true → classPrivMatch l = true →
      getDocStep si ri fileName md fileTxt lines st i = some st) ∧
    (hasPre "class".data l = false → hasPre "def ".data (pyStrip l) = true →
      st.looking = false → subIn "def _".data l = true → subIn "__init__".data l = false →
      getDocStep si ri fileName md fileTxt lines st i = some st) := by
  constructor
  · intro h1 h2
    simp only [getDocStep, hl]
    rw [if_pos h1]
    unfold gdClassBranch
    rw [if_pos h2]
  · intro h1 h2 h3 h4 h5
    simp only [getDocStep, hl, h1, Bool.false_eq_true, if_false, h2, h3, Bool.not_false,
      Bool.and_self, if_true]
    simp only [gdDefBranch, h4, h5, Bool.not_false, Bool.and_self, if_true]

/-- C5 amended witness: a private class line and a private non-constructor
`def` line each leave a concrete state unchanged. -/
theorem C5_private_exclusion_amended_witness :
    getDocStep [] "m".data "f.py".data []
      "class _X:\n    def _p(self) -> None:".data
      (linesOf "class _X:\n    def _p(self) -> None:".data)
      ⟨[], [], [], false, []⟩ 0 = some ⟨[], [], [], false, []⟩ ∧
    getDocStep [] "m".data "f.py".data []
      "class _X:\n    def _p(self) -> None:".data
      (linesOf "class _X:\n    def _p(self) -> None:".data)
      ⟨[], [], [], false, []⟩ 1 = some ⟨[], [], [], false, []⟩ :=
  ⟨(C5_private_exclusion_amended [] "m".data "f.py".data []
      "class _X:\n    def _p(self) -> None:".data
      (linesOf "class _X:\n    def _p(self) -> None:".data)
      ⟨[], [], [], false, []⟩ 0 "class _X:".data (by decide)).1 (by decide) (by decide),
   (C5_private_exclusion_amended [] "m".data "f.py".data []
      "class _X:\n    def _p(self) -> None:".data
      (linesOf "class _X:\n    def _p(self) -> None:".data)
      ⟨[], [], [], false, []⟩ 1 "    def _p(self) -> None:".data (by decide)).2
     (by decide) (by decide) rfl (by decide) (by decide)⟩

/-- C6, counterexample.  When every category of the class's metadata
misses the documented function, `get_doc` does print the warning and does
append the block to the accumulating document — but the final category
pass then raises `KeyError` on the never-populated category, so `get_doc`
fails and returns nothing, contradicting the claim that it does not fail. -/
theorem C6_uncategorized_counterexample :
    getDoc [] "mod".data "foo.py".data cx6Md cx6Txt none = none ∧
    (getDocLoop [] "mod".data "foo.py".data cx6Md cx6Txt (linesOf cx6Txt)).map
      (fun st => st.warnings) =
      some ["Warning: Uncategorized function Foo.go()".data] ∧
    (getDocLoop [] "mod".data "foo.py".data cx6Md cx6Txt (linesOf cx6Txt)).map
      (fun st => subIn "#### go".data st.doc) = some true := by
  refine ⟨by decide, by decide, by decide⟩

/-- C6 (amended): at a documented function whose class has metadata but
whose name is in no category, the loop records the warning and appends
the function's block ungrouped at top level; and whenever the remaining
pipeline succeeds — every later step, the final category pass (which
raises `KeyError` on a category left empty), and the TOC substitution —
the returned document still contains the block and the warning list
contains the message. -/
theorem C6_uncategorized_amended (si : List Str) (ri fileName : Str) (md : Metadata)
    (fileTxt : Str) (pre post : List Nat) (i : Nat) (st stF : DocSt)
    (l fpart fdoc0 g1 d1 toc : Str) (cats : List (Str × CategoryMeta))
    (hrange : List.range (linesOf fileTxt).length = pre ++ i :: post)
    (hpre : pre.foldlM (getDocStep si ri fileName md fileTxt (linesOf fileTxt)) docSt0 =
      some st)
    (hl : (linesOf fileTxt).get? i = some l)
    (hnc : hasPre "class".data l = false)
    (hdef : hasPre "def ".data (pyStrip l) = true)
    (hlook : st.looking = false)
    (hnoskip : (subIn "def _".data l && !subIn "__init__".data l) = false)
    (hfp : gdFieldsPart (linesOf fileTxt) i l = some fpart)
    (hfd : getFunctionDocumentation (linesOf fileTxt) i st.class_name = some fdoc0)
    (hg1 : searchH4First (fdoc0 ++ "\n\n".data) = some g1)
    (hmd : aGet? md st.class_name = some cats)
    (huncat : findCategory cats (pyReplace g1 "\\_".data [ '_' ]) = [])
    (hpost : post.foldlM (getDocStep si ri fileName md fileTxt (linesOf fileTxt))
      ⟨st.doc ++ fpart ++ (fdoc0 ++ "\n\n".data), st.class_name, st.fbc, st.looking,
        st.warnings ++
          ["Warning: Uncategorized function ".data ++ st.class_name ++ [ '.' ] ++
            pyReplace g1 "\\_".data [ '_' ] ++ "()".data]⟩ = some stF)
    (hcat : (match aGet? md stF.class_name with
             | none => some stF.doc
             | some cs => finalCatFold stF.fbc cs stF.doc) = some d1)
    (htoc : getDocToc d1 = some toc)
    (hnotoc : subIn "[TOC]".data d1 = false) :
    getDoc si ri fileName md fileTxt none = some (d1, stF.warnings) ∧
    subIn fdoc0 d1 = true ∧
    ("Warning: Uncategorized function ".data ++ st.class_name ++ [ '.' ] ++
      pyReplace g1 "\\_".data [ '_' ] ++ "()".data) ∈ stF.warnings := by
  have hstep : getDocStep si ri fileName md fileTxt (linesOf fileTxt) st i =
      some ⟨st.doc ++ fpart ++ (fdoc0 ++ "\n\n".data), st.class_name, st.fbc, st.looking,
        st.warnings ++
          ["Warning: Uncategorized function ".data ++ st.class_name ++ [ '.' ] ++
            pyReplace g1 "\\_".data [ '_' ] ++ "()".data]⟩ := by
    simp only [getDocStep, hl, hnc, Bool.false_eq_true, if_false, hdef, hlook, Bool.not_false,
      Bool.and_self, if_true]
    simp only [gdDefBranch, hnoskip, Bool.false_eq_true, if_false, hfp, hfd, hg1, hmd, huncat,
      List.isEmpty_nil, if_true]
    rw [hlook]
  have hloop : getDocLoop si ri fileName md fileTxt (linesOf fileTxt) = some stF := by
    unfold getDocLoop
    rw [hrange, List.foldlM_append, hpre]
    show (i :: post).foldlM (getDocStep si ri fileName md fileTxt (linesOf fileTxt)) st =
      some stF
    rw [List.foldlM_cons, hstep]
    exact hpost
  have hmono := getDocFold_mono si ri fileName md fileTxt (linesOf fileTxt) post _ stF hpost
  obtain ⟨⟨dd, hdd⟩, ⟨ww, hww⟩⟩ := hmono
  refine ⟨?_, ?_, ?_⟩
  · cases hag : aGet? md stF.class_name with
    | none =>
      simp only [hag] at hcat
      injection hcat with h'
      subst h'
      simp only [getDoc, bind, Option.bind, hloop, hag, htoc, getDocWithImportPfx]
      rw [pyReplace_no_occ _ "[TOC]".data toc (by decide) hnotoc]
      rfl
    | some cs =>
      simp only [hag] at hcat
      simp only [getDoc, bind, Option.bind, hloop, hag, hcat, htoc, getDocWithImportPfx]
      rw [pyReplace_no_occ _ "[TOC]".data toc (by decide) hnotoc]
      rfl
  · have h1 : ∃ e, d1 = stF.doc ++ e := by
      cases hag : aGet? md stF.class_name with
      | none =>
        simp only [hag] at hcat
        injection hcat with h'
        exact ⟨[], by simp [← h']⟩
      | some cs =>
        simp only [hag] at hcat
        exact finalCatFold_mono cs stF.fbc stF.doc d1 hcat
    obtain ⟨e, he⟩ := h1
    rw [he, hdd]
    simp only [List.append_assoc]
    exact subIn_append_left' _ _ _ (subIn_append_left' _ _ _ (subIn_append_self _ _))
  · rw [hww]
    simp

/-- C6 amended witness at `wit6Txt` with metadata `wit6Md`: the
uncategorized `go` is warned about and its block survives into the final
document. -/
theorem C6_uncategorized_amended_witness :
    getDoc [] "mod".data "a.py".data wit6Md wit6Txt none = some (w6D1, w6StF.warnings) ∧
    subIn "#### go\n\n**`self.go()`**\n\nG.".data w6D1 = true ∧
    ("Warning: Uncategorized function ".data ++ w6St.class_name ++ [ '.' ] ++
      pyReplace "go".data "\\_".data [ '_' ] ++ "()".data) ∈ w6StF.warnings :=
  C6_uncategorized_amended [] "mod".data "a.py".data wit6Md wit6Txt
    [0, 1, 2, 3, 4] [6, 7, 8, 9, 10, 11, 12, 13, 14, 15, 16, 17, 18] 5 w6St w6StF
    "    def go(self) -> None:".data [] "#### go\n\n**`self.go()`**\n\nG.".data "go".data
    w6D1 "## Overview of API".data [("M".data, ⟨[], ["ok".data]⟩)]
    (by decide) (by decide) (by decide) (by decide) (by decide) rfl (by decide) (by decide)
    (by decide) (by decide) (by decide) (by decide) (by decide) (by decide) (by decide)
    (by decide)

theorem append_assoc4 (u v w x : Str) : (u ++ (v ++ w)) ++ x = u ++ (v ++ (w ++ x)) := by
  simp [List.append_assoc]

theorem gfdRet_subIn (pat a rest ret : Str)
    (hne : pat ≠ []) (hnl : pat.all (fun c => c ≠ '\n') = true) :
    (gfdRet (pyTrimNl (a ++ (pat ++ rest))) ret).map (subIn pat) = some true := by
  obtain ⟨b2, h2⟩ := pyTrimNl_parts a pat rest hne hnl
  rw [h2]
  simp only [gfdRet]
  by_cases hr : ret.isEmpty
  · rw [if_pos hr]
    simp [subIn_of_parts]
  · rw [if_neg hr]
    simp only [Option.map_some', Option.some.injEq]
    exact subIn_append_right _ _ _ (subIn_append_right _ _ _ (subIn_of_parts pat a b2))

theorem gfdTail_subIn (pat a b : Str) (params : PEntries) (ret : Str)
    (hne : pat ≠ []) (hnl : pat.all (fun c => c ≠ '\n') = true) :
    (gfdTail (a ++ (pat ++ b)) params ret).map (subIn pat) = some true := by
  unfold gfdTail
  obtain ⟨b1, h1⟩ := pyTrimOneNl_parts a pat b hne hnl
  simp only [h1]
  by_cases hp : params.isEmpty
  · rw [if_pos hp]
    exact gfdRet_subIn pat a b1 ret hne hnl
  · rw [if_neg hp]
    rw [append_assoc4]
    exact gfdRet_subIn pat a _ ret hne hnl

/-- C9: a static function `do` on class `Foo` whose docstring declares one
parameter `x` without a default renders the call example
`Foo.do(x)`; a non-static `go` renders `self.go(x)`.  The hypotheses name
the reconstructed signature, the `@staticmethod` test on the previous
line, and the docstring scan result. -/
theorem C9_call_examples :
    (∀ (lines : List Str) (i : Nat) (l0 pl ds ret desc : Str) (b : Bool) (px : Parameter),
      lines.get? i = some l0 →
      gfdDefStr lines i l0 = some ds →
      (pySplit ds [ '(' ]).headD [] = "do".data →
      pyIdxPrev lines i = some pl →
      pyStrip pl = "@staticmethod".data →
      fnDocScan ds fnScanSt0 (lines.drop (i + 1)) = ⟨b, [("x".data, px)], ret, desc⟩ →
      px.name = "x".data → px.default_value = [] →
      (getFunctionDocumentation lines i "Foo".data).map
        (subIn "**`Foo.do(x)`**".data) = some true) ∧
    (∀ (lines : List Str) (i : Nat) (l0 pl ds ret desc : Str) (b : Bool) (px : Parameter),
      lines.get? i = some l0 →
      gfdDefStr lines i l0 = some ds →
      (pySplit ds [ '(' ]).headD [] = "go".data →
      pyIdxPrev lines i = some pl →
      pyStrip pl ≠ "@staticmethod".data →
      fnDocScan ds fnScanSt0 (lines.drop (i + 1)) = ⟨b, [("x".data, px)], ret, desc⟩ →
      px.name = "x".data → px.default_value = [] →
      (getFunctionDocumentation lines i "Foo".data).map
        (subIn "**`self.go(x)`**".data) = some true) := by
  constructor
  · intro lines i l0 pl ds ret desc b px h1 h2 h3 h4 h5 h6 h7 h8
    have hpr : pyReplace "do".data "__".data "\\_\\_".data = "do".data := by decide
    have hred : getFunctionDocumentation lines i "Foo".data =
        gfdTail ("#### do\n\n**`Foo.do(x)`**\n\n_This is a static function._\n\n".data ++ desc)
          [("x".data, px)] ret := by
      simp only [getFunctionDocumentation, h1, h2, h3, h4, h5, h6, hpr, eq_self_iff_true,
        if_true, callFold, h8, List.isEmpty_nil, h7, List.append_nil]
      congr 1
    rw [hred]
    have hL : ("#### do\n\n**`Foo.do(x)`**\n\n_This is a static function._\n\n".data : Str) =
        "#### do\n\n".data ++ ("**`Foo.do(x)`**".data ++
          "\n\n_This is a static function._\n\n".data) := by decide
    rw [hL, List.append_assoc, List.append_assoc]
    exact gfdTail_subIn "**`Foo.do(x)`**".data "#### do\n\n".data
      ("\n\n_This is a static function._\n\n".data ++ desc) [("x".data, px)] ret
      (by decide) (by decide)
  · intro lines i l0 pl ds ret desc b px h1 h2 h3 h4 h5 h6 h7 h8
    have hpr : pyReplace "go".data "__".data "\\_\\_".data = "go".data := by decide
    have hred : getFunctionDocumentation lines i "Foo".data =
        gfdTail ("#### go\n\n**`self.go(x)`**\n\n".data ++ desc)
          [("x".data, px)] ret := by
      simp only [getFunctionDocumentation, h1, h2, h3, h4, h6, hpr, eq_self_iff_true,
        if_true, if_neg h5, if_neg (show ¬ (("go".data : Str) = escInit) by decide),
        callFold, h8, List.isEmpty_nil, h7, List.append_nil]
      congr 1
    rw [hred]
    have hL : ("#### go\n\n**`self.go(x)`**\n\n".data : Str) =
        "#### go\n\n".data ++ ("**`self.go(x)`**".data ++ "\n\n".data) := by decide
    rw [hL, List.append_assoc, List.append_assoc]
    exact gfdTail_subIn "**`self.go(x)`**".data "#### go\n\n".data
      ("\n\n".data ++ desc) [("x".data, px)] ret (by decide) (by decide)

/-- C9 witness at `wit9Txt`: the static `do` at line 6 and the non-static
`go` at line 15. -/
theorem C9_call_examples_witness :
    (getFunctionDocumentation (linesOf wit9Txt) 6 "Foo".data).map
      (subIn "**`Foo.do(x)`**".data) = some true ∧
    (getFunctionDocumentation (linesOf wit9Txt) 15 "Foo".data).map
      (subIn "**`self.go(x)`**".data) = some true :=
  ⟨C9_call_examples.1 (linesOf wit9Txt) 6 "    def do(x: int) -> None:".data
      "    @staticmethod".data "do(x: int) -> None".data [] "Does it.\n\n".data true
      (Parameter.ofDefStr "x".data "X.".data "do(x: int) -> None".data)
      (by decide) (by decide) (by decide) (by decide) (by decide) (by decide)
      (by decide) (by decide),
   C9_call_examples.2 (linesOf wit9Txt) 15 "    def go(self, x: int) -> None:".data
      [] "go(self, x: int) -> None".data [] "Goes.\n\n".data true
      (Parameter.ofDefStr "x".data "X.".data "go(self, x: int) -> None".data)
      (by decide) (by decide) (by decide) (by decide) (by decide) (by decide)
      (by decide) (by decide)⟩

/-- C10, counterexample.  When the shared function name contains a double
underscore, the renderer escapes it (`do\_\_thing`), and the
abstract-functions dictionary comprehension re-searches the rendered
document with the name injected into a pattern — where `\_` matches a
plain underscore.  The search fails, `group(0)` raises `AttributeError`,
and `get_docs_with_inheritance` returns nothing at all, although both
classes document the function. -/
theorem C10_abstract_overwrite_counterexample :
    (getDoc [] "mod".data "base.py".data [] cx10Abs none).map
      (fun p => subIn "#### do\\_\\_thing".data p.1) = some true ∧
    (getDoc [] "mod".data "kid.py".data [] cx10Kid none).map
      (fun p => subIn "#### do\\_\\_thing".data p.1) = some true ∧
    getDocsWithInheritance [] "mod".data [] "base.py".data cx10Abs
      [("kid.py".data, cx10Kid)] none true = none := by
  refine ⟨by decide, by decide, by decide⟩

/-- C10 (amended): with `overwrite_child_functions` at its default `True`
and a shared function name free of escape sequences, the returned child
document carries the abstract class's (trimmed) block starting exactly at
the position where the child's own heading for that name stood; the
hypotheses name the rendered documents, the single shared name, the
abstract block and the substitution result, and require the heading-size
repairs to be no-ops as they are when no stray smaller headings exist. -/
theorem C10_abstract_overwrite_amended
    (si : List Str) (ri : Str) (md : Metadata) (aName aPy cName cPy : Str)
    (adoc cdoc : Str) (aw cw : List Str) (f q q2 cs : Str) (cfs : List Str)
    (ia j : Nat)
    (h_adefs : findallDecorDefs "@abstractmethod\n".data aPy = [])
    (h_adoc : getDoc si ri aName md aPy none = some (adoc, aw))
    (h_acv : searchCvStar adoc = none)
    (h_af : searchFieldsHash adoc = none)
    (h_ia : findIdxSub "## Functions\n".data adoc = some ia)
    (h_names : (findallH4Any (adoc.drop ia)).filter (fun g => g ≠ escInit) = [f])
    (h_blk : blockSearch f (adoc.drop ia) = some q)
    (h_fdefs : findallDecorDefs "@final\n".data cPy = [])
    (h_cdoc : getDoc si ri cName md cPy none = some (cdoc, cw))
    (h_cfs : findallH4Nl cdoc = cfs)
    (h_hasfn : subIn fnHeaderLit cdoc = true)
    (h_both : cfs.any (fun g => g = f) = true)
    (h_in : subIn (h4sp ++ f) cdoc = true)
    (h_q2 : (if !pyEndsWith "\n\n".data (if pyEndsWith "\n\n#".data q then dropEnd 3 q else q)
             then (if pyEndsWith "\n\n#".data q then dropEnd 3 q else q) ++ "\n\n".data
             else (if pyEndsWith "\n\n#".data q then dropEnd 3 q else q)) = q2)
    (h_plain : q2.all (fun c => c ≠ '\\') = true)
    (h_j : findIdxSub (h4sp ++ interpName f) cdoc = some j)
    (h_sub : blockSubAll f q2 (cdoc.length + 1) cdoc = some cs)
    (h_fix : pyReplace (pyReplace cs ("### ".data ++ f) (h4sp ++ f)) ("##### ".data ++ f)
      (h4sp ++ f) = cs)
    (h_h3 : cfs.foldl (fun cd cf => h3Fix cf cd) cs = cs)
    (h_ne : dropEnd 3 cName ≠ dropEnd 3 aName) :
    getDocsWithInheritance si ri md aName aPy [(cName, cPy)] none true =
      some (dSet (dSet [] (dropEnd 3 cName) cs) (dropEnd 3 aName) adoc) ∧
    dGet? (dSet (dSet [] (dropEnd 3 cName) cs) (dropEnd 3 aName) adoc) (dropEnd 3 cName) =
      some cs ∧
    (∃ rest, cs = cdoc.take j ++ (q2 ++ rest)) ∧
    subIn q2 cs = true ∧
    hasPre (h4sp ++ interpName f) (cdoc.drop j) = true := by
  obtain ⟨rest, hrest⟩ := blockSubAll_decomp f q2 cdoc.length cdoc j cs h_j h_plain h_sub
  have hcv : inhCvStep [] cdoc = some cdoc := rfl
  have hff : inhFieldsStep [] cdoc = some cdoc := rfl
  have hstep : inhFnStep true cfs cdoc (f, q) = some cs := by
    simp only [inhFnStep, Bool.not_true, Bool.and_false, Bool.false_eq_true, if_false,
      bind, Option.bind]
    rw [if_pos h_in, h_q2, h_sub]
    simp only [bind, Option.bind]
    rw [h_fix]
    rfl
  have hchild : inhChild si ri md [] [] [(f, q)] true [] (cName, cPy) =
      some (dSet [] (dropEnd 3 cName) cs) := by
    simp only [inhChild, bind, Option.bind, h_fdefs, h_cdoc, h_cfs, hcv, hff]
    rw [if_neg (by simp)]
    simp only [h_hasfn, Bool.not_true, Bool.false_eq_true, if_false]
    simp only [List.foldlM_cons, List.foldlM_nil, hstep, bind, Option.bind]
    simp only [List.foldl_nil, h_h3]
    rfl
  refine ⟨?_, ?_, ⟨rest, hrest⟩, ?_, findIdxSub_hasPre _ cdoc j h_j⟩
  · simp only [getDocsWithInheritance, bind, Option.bind, h_adoc, h_acv, h_af, h_ia, h_names]
    simp only [List.foldlM_cons, List.foldlM_nil, h_blk, Option.map_some', bind, Option.bind,
      dSet]
    simp only [List.foldlM_cons, List.foldlM_nil, hchild, bind, Option.bind]
    simp only [h_adefs, List.foldl_nil]
    simp only [dSet, if_neg h_ne]
    rfl
  · rw [dGet?_dSet_ne (dropEnd 3 aName) adoc (dropEnd 3 cName) h_ne]
    exact dGet?_dSet_self (dropEnd 3 cName) cs []
  · rw [hrest]
    exact subIn_of_parts q2 (cdoc.take j) rest

/-- Witness for C10 (amended): on the two witness classes sharing the
escape-free function name `dothing`, the merge returns the child document
with the abstract class's block in place of the child's own at position
105, and the child keeps everything before that heading. -/
theorem C10_abstract_overwrite_amended_witness :
    getDocsWithInheritance [] "mod".data [] "base.py".data wit10Abs
        [("kid.py".data, wit10Kid)] none true =
      some (dSet (dSet [] (dropEnd 3 "kid.py".data) w10cs)
        (dropEnd 3 "base.py".data) w10adoc) ∧
    dGet? (dSet (dSet [] (dropEnd 3 "kid.py".data) w10cs)
        (dropEnd 3 "base.py".data) w10adoc) (dropEnd 3 "kid.py".data) = some w10cs ∧
    (∃ rest, w10cs = w10cdoc.take 105 ++ (w10q ++ rest)) ∧
    subIn w10q w10cs = true ∧
    hasPre (h4sp ++ interpName "dothing".data) (w10cdoc.drop 105) = true :=
  C10_abstract_overwrite_amended [] "mod".data [] "base.py".data wit10Abs
    "kid.py".data wit10Kid w10adoc w10cdoc [] [] "dothing".data w10q w10q w10cs
    ["\\_\\_init\\_\\_".data, "dothing".data] 53 105
    (by decide) (by decide) (by decide) (by decide) (by decide) (by decide)
    (by decide) (by decide) (by decide) (by decide) (by decide) (by decide)
    (by decide) (by decide) (by decide) (by decide) (by decide) (by decide)
    (by decide) (by decide)

end PyMd
